import Mathlib

/-!
# Waiter refresh steps of the Aiven Terraform provider

A shallow embedding of the refresh closures and readiness predicates of
`aiven/internal/service/wait.go`, `aiven/resource_database.go` and
`aiven/resource_kafka_topic.go`.

Conventions of the embedding:

* a Go `error` value is a `GoError`; `nil` is `Option.none`;
* a remote call is an oracle returning `Except GoError _`, held in `Client`;
* a run-time panic (nil dereference, failed type assertion) is `Option.none`
  for a function returning a value and `Refresh.panic` for a refresh closure;
* `net.DialTimeout` is an oracle `dial : String → Bool`, `true` when the
  returned error is nil.
-/

namespace Aiven

/-! ## Values of the API client library -/

/-- Go error values met by the waiters: an API error of the client library
(`aiven.Error` with its HTTP status), any other error, and an error wrapped
by `fmt.Errorf("...%w", err)`. -/
inductive GoError where
  | api (status : Nat) (message : String)
  | other (text : String)
  | wrap (text : String) (inner : GoError)
  deriving Repr, DecidableEq

/-- `aiven.IsNotFound`: the error is, directly, an API error with status 404. -/
def IsNotFound : GoError → Bool
  | .api status _ => status == 404
  | _ => false

/-- A dynamic `interface{}` value as decoded from JSON. -/
inductive Iface where
  | null
  | bool (b : Bool)
  | num (n : Int)
  | str (s : String)
  | slice (xs : List Iface)
  | dict (kv : List (String × Iface))

/-- Go's `v != s` for an interface value `v` and a string constant `s`:
equal only when the dynamic type is string and the strings agree. -/
def Iface.neString : Iface → String → Bool
  | .str t, s => t != s
  | _, _ => true

/-- `aiven.Backup`. -/
structure Backup where
  BackupTime : String
  DataSize : Int
  deriving Repr, DecidableEq

/-- `aiven.ServiceIntegration`, the fields read by the waiters;
`DestinationService` is a `*string`. -/
structure ServiceIntegration where
  IntegrationType : String
  DestinationService : Option String
  deriving Repr, DecidableEq

/-- `aiven.ServiceComponent`. -/
structure ServiceComponent where
  Component : String
  Host : String
  Port : Int
  Route : String
  Usage : String
  deriving Repr, DecidableEq

/-- `aiven.Service`, the fields read by the waiters; the field `Type` is
written `Type_`. -/
structure Service where
  Name : String
  Type_ : String
  State : String
  UserConfig : List (String × Iface)
  Components : List ServiceComponent
  Integrations : List ServiceIntegration
  Backups : List Backup

/-- `aiven.StaticIP`. -/
structure StaticIP where
  CloudName : String
  IPAddress : String
  ServiceName : String
  State : String
  StaticIPAddressID : String
  deriving Repr, DecidableEq

/-- `aiven.ListStaticIPResponse`. -/
structure ListStaticIPResponse where
  StaticIPs : List StaticIP
  deriving Repr, DecidableEq

/-- `aiven.Database`; `Database.empty` is the literal `aiven.Database{}`. -/
structure Database where
  DatabaseName : String
  LcCollate : String
  LcType : String
  deriving Repr, DecidableEq

/-- The literal `aiven.Database{}`. -/
def Database.empty : Database := ⟨"", "", ""⟩

/-- `aiven.KafkaTopic`, reduced to the fields a zero value shows. -/
structure KafkaTopic where
  TopicName : String
  State : String
  Partitions : Nat
  Replication : Nat
  deriving Repr, DecidableEq

/-- The literal `aiven.KafkaTopic{}`. -/
def KafkaTopic.empty : KafkaTopic := ⟨"", "", 0, 0⟩

/-- The remote API as seen during one poll (`m.(*aiven.Client)`). -/
structure Client where
  ServicesGet : String → String → Except GoError Service
  StaticIPsList : String → Except GoError ListStaticIPResponse
  DatabasesDelete : String → String → String → Option GoError
  KafkaTopicsDelete : String → String → String → Option GoError

/-- The part of `*schema.ResourceData` read by the service waiters.
`static_ips_cfg` is the `static_ips` entry of the user configuration after
`uconf.ConvertTerraformUserConfigToAPICompatibleFormat` (a package outside
these sources): `none` when the key is absent, `some b` for the boolean. -/
structure ResourceData where
  project : String
  service_name : String
  service_type : String
  static_ips : List String
  static_ips_cfg : Option Bool
  deriving Repr, DecidableEq

/-- What a `resource.StateRefreshFunc` call produces: the Go triple
`(result, state, err)`, or a panic. -/
inductive Refresh (α : Type) where
  | panic
  | returned (result : Option α) (state : String) (err : Option GoError)

/-- The status label of a refresh outcome that carries no error. -/
def Refresh.label {α : Type} : Refresh α → Option String
  | .returned _ state none => some state
  | _ => none

/-! ## `internal/service/wait.go` -/

def aivenTargetState : String := "RUNNING"
def aivenPendingState : String := "REBUILDING"
def aivenRebalancingState : String := "REBALANCING"
def aivenServicesStartingState : String := "WAITING_FOR_SERVICES"

/-- `fmt.Sprint` of a string operand. -/
def Sprint (v : String) : String := v

/-- `schemautil.FlattenToString`. -/
def FlattenToString (a : List String) : List String := a.map Sprint

/-- `staticIpsForServiceFromSchema`. -/
def staticIpsForServiceFromSchema (d : ResourceData) : List String :=
  FlattenToString d.static_ips

/-- `staticIpsEnabledInUserConfig`. -/
def staticIpsEnabledInUserConfig (d : ResourceData) : Bool :=
  match d.static_ips_cfg with
  | none => false
  | some v => v

/-- The loop of `backupsReady` over the integrations; `none` is the nil
dereference of `*i.DestinationService`. -/
def backupsReadyLoop (service : Service) : List ServiceIntegration → Option Bool
  | [] => some (decide (service.Backups.length > 0))
  | i :: rest =>
    if i.IntegrationType = "read_replica" then
      match i.DestinationService with
      | none => none
      | some dst => if dst = service.Name then some true else backupsReadyLoop service rest
    else backupsReadyLoop service rest

/-- `backupsReady`. -/
def backupsReady (service : Service) : Option Bool :=
  if service.Type_ ≠ "pg" ∧ service.Type_ ≠ "elasticsearch" ∧
      service.Type_ ≠ "redis" ∧ service.Type_ ≠ "influxdb" then
    some true
  else backupsReadyLoop service service.Integrations

/-- `strconv.Itoa`. -/
def Itoa (n : Int) : String := toString n

/-- The component loop of `grafanaReady`: the address of the last component
with route "public" and usage "primary", or "" when there is none. -/
def publicGrafana (components : List ServiceComponent) : String :=
  components.foldl
    (fun acc component =>
      if component.Route = "public" ∧ component.Usage = "primary" then
        component.Host ++ ":" ++ Itoa component.Port
      else acc)
    ""

/-- The tail of `grafanaReady`, from `var publicGrafana string` on. -/
def grafanaProbe (dial : String → Bool) (service : Service) : Bool :=
  let addr := publicGrafana service.Components
  if addr ≠ "" then
    if !dial addr then false else true
  else true

/-- `grafanaReady`; `none` is the panic of the type assertion
`ipFilters.([]interface{})`. -/
def grafanaReady (dial : String → Bool) (service : Service) : Option Bool :=
  if service.Type_ ≠ "grafana" then some true
  else
    match service.UserConfig.lookup "ip_filter" with
    | some (.slice f) =>
      if f.length > 1 then some true
      else
        match f with
        | [x] => if x.neString "0.0.0.0/0" then some true else some (grafanaProbe dial service)
        | _ => some (grafanaProbe dial service)
    | some _ => none
    | none => some (grafanaProbe dial service)

/-- The inner loop of `staticIpsReady`: some listing entry is the expected
identifier, belongs to the service and is assigned or available. -/
def staticIpFound (serviceName eip : String) : List StaticIP → Bool
  | [] => false
  | sip :: rest =>
    let assignedOrAvailable := sip.State == "assigned" || sip.State == "available"
    let belongsToService := sip.ServiceName == serviceName
    let isExpectedIp := sip.StaticIPAddressID == eip
    if isExpectedIp && belongsToService && assignedOrAvailable then true
    else staticIpFound serviceName eip rest

/-- The labelled loop `L` of `staticIpsReady`. -/
def staticIpsReadyLoop (serviceName : String) (listing : List StaticIP) : List String → Bool
  | [] => true
  | eip :: rest =>
    if staticIpFound serviceName eip listing then staticIpsReadyLoop serviceName listing rest
    else false

/-- `staticIpsReady`, returning the Go pair `(bool, error)`. -/
def staticIpsReady (d : ResourceData) (m : Client) : Bool × Option GoError :=
  if !staticIpsEnabledInUserConfig d then (true, none)
  else
    let expectedStaticIps := staticIpsForServiceFromSchema d
    if expectedStaticIps.length == 0 then (true, none)
    else
      match m.StaticIPsList d.project with
      | .error err =>
        (false, some (.wrap ("unable to fetch static ips for project '" ++ d.project ++ "': '") err))
      | .ok staticIpsList =>
        (staticIpsReadyLoop d.service_name staticIpsList.StaticIPs expectedStaticIps, none)

/-- The inner loop of `staticIpsDisassociated`: some listing entry is the
expected identifier and is still assigned. -/
def staticIpAssigned (eip : String) : List StaticIP → Bool
  | [] => false
  | sip :: rest =>
    let ipIsAssigned := sip.State == "assigned"
    let isExpectedIp := sip.StaticIPAddressID == eip
    if isExpectedIp && ipIsAssigned then true
    else staticIpAssigned eip rest

/-- The outer loop of `staticIpsDisassociated`. -/
def staticIpsDisassociatedLoop (listing : List StaticIP) : List String → Bool
  | [] => true
  | eip :: rest =>
    if staticIpAssigned eip listing then false
    else staticIpsDisassociatedLoop listing rest

/-- `staticIpsDisassociated`, returning the Go pair `(bool, error)`. -/
def staticIpsDisassociated (d : ResourceData) (m : Client) : Bool × Option GoError :=
  if !staticIpsEnabledInUserConfig d then (true, none)
  else
    let expectedStaticIps := staticIpsForServiceFromSchema d
    if expectedStaticIps.length == 0 then (true, none)
    else
      match m.StaticIPsList d.project with
      | .error err =>
        (false, some (.wrap ("unable to fetch static ips for project '" ++ d.project ++ "': '") err))
      | .ok staticIpsList =>
        (staticIpsDisassociatedLoop staticIpsList.StaticIPs expectedStaticIps, none)

/-- The `Pending` list of the configuration built by `waitForCreateOrUpdate`. -/
def createOrUpdatePending : List String :=
  [aivenPendingState, aivenRebalancingState, aivenServicesStartingState]

/-- The `Target` list of the configuration built by `waitForCreateOrUpdate`. -/
def createOrUpdateTarget : List String := [aivenTargetState]

/-- The `Refresh` closure of `waitForCreateOrUpdate`. -/
def waitForCreateOrUpdateRefresh (d : ResourceData) (m : Client) (dial : String → Bool)
    (isUpdate : Bool) : Refresh Service :=
  match m.ServicesGet d.project d.service_name with
  | .error err => .returned none "" (some (.wrap "unable to fetch service from api: " err))
  | .ok service =>
    let state := if isUpdate then aivenTargetState else service.State
    if state ≠ aivenTargetState then .returned (some service) state none
    else
      match backupsReady service with
      | none => .panic
      | some false => .returned (some service) aivenServicesStartingState none
      | some true =>
        match grafanaReady dial service with
        | none => .panic
        | some false => .returned (some service) aivenServicesStartingState none
        | some true =>
          match staticIpsReady d m with
          | (_, some err) =>
            .returned none "" (some (.wrap "unable to check if static ips are ready: " err))
          | (false, none) => .returned (some service) aivenServicesStartingState none
          | (true, none) => .returned (some service) state none

/-- The `Pending` list of the configuration built by `waitForDeletion`. -/
def deletionPending : List String := ["deleting"]

/-- The `Target` list of the configuration built by `waitForDeletion`. -/
def deletionTarget : List String := ["deleted"]

/-- The second half of the `Refresh` closure of `waitForDeletion`, from the
call of `staticIpsDisassociated` on; the result value `struct{}{}` is `Unit`. -/
def waitForDeletionStaticIps (d : ResourceData) (m : Client) : Refresh Unit :=
  match staticIpsDisassociated d m with
  | (_, some err) =>
    .returned none "" (some (.wrap "unable to check if static ips are disassociated: " err))
  | (false, none) => .returned (some ()) "deleting" none
  | (true, none) => .returned (some ()) "deleted" none

/-- The `Refresh` closure of `waitForDeletion`. -/
def waitForDeletionRefresh (d : ResourceData) (m : Client) : Refresh Unit :=
  match m.ServicesGet d.project d.service_name with
  | .error err =>
    if !IsNotFound err then
      .returned none "" (some (.wrap "unable to check if service is gone: " err))
    else waitForDeletionStaticIps d m
  | .ok _ => waitForDeletionStaticIps d m

/-! ## `resource_database.go` and `resource_kafka_topic.go` -/

/-- The part of `DatabaseDeleteWaiter` besides the client. -/
structure DatabaseDeleteWaiter where
  ProjectName : String
  ServiceName : String
  Database : String
  deriving Repr, DecidableEq

/-- `DatabaseDeleteWaiter.RefreshFunc`. -/
def DatabaseDeleteWaiter.RefreshFunc (w : DatabaseDeleteWaiter) (client : Client) :
    Refresh Aiven.Database :=
  match client.DatabasesDelete w.ProjectName w.ServiceName w.Database with
  | some err =>
    if !IsNotFound err then .returned none "REMOVING" none
    else .returned (some Database.empty) "DELETED" none
  | none => .returned (some Database.empty) "DELETED" none

/-- The `Pending` list of `DatabaseDeleteWaiter.Conf`. -/
def DatabaseDeleteWaiter.Pending : List String := ["REMOVING"]

/-- The `Target` list of `DatabaseDeleteWaiter.Conf`. -/
def DatabaseDeleteWaiter.Target : List String := ["DELETED"]

/-- The part of `KafkaTopicDeleteWaiter` besides the client. -/
structure KafkaTopicDeleteWaiter where
  ProjectName : String
  ServiceName : String
  TopicName : String
  deriving Repr, DecidableEq

/-- `KafkaTopicDeleteWaiter.RefreshFunc`. -/
def KafkaTopicDeleteWaiter.RefreshFunc (w : KafkaTopicDeleteWaiter) (client : Client) :
    Refresh KafkaTopic :=
  match client.KafkaTopicsDelete w.ProjectName w.ServiceName w.TopicName with
  | some err =>
    if !IsNotFound err then .returned none "REMOVING" none
    else .returned (some KafkaTopic.empty) "DELETED" none
  | none => .returned (some KafkaTopic.empty) "DELETED" none

/-- The `Pending` list of `KafkaTopicDeleteWaiter.Conf`. -/
def KafkaTopicDeleteWaiter.Pending : List String := ["REMOVING"]

/-- The `Target` list of `KafkaTopicDeleteWaiter.Conf`. -/
def KafkaTopicDeleteWaiter.Target : List String := ["DELETED"]

/-! ## `resource_static_ip.go` -/

/-- The loop of the `Refresh` closure of `resourceStaticIPWait` over the
listing entries. -/
def staticIPWaitLoop (staticIPAddressId : String) : List StaticIP → Refresh Unit
  | [] => .returned (some ()) "waiting" none
  | sip :: rest =>
    if sip.StaticIPAddressID == staticIPAddressId then .returned (some ()) sip.State none
    else staticIPWaitLoop staticIPAddressId rest

/-- The `Refresh` closure of `resourceStaticIPWait`; `project` and
`staticIPAddressId` are the two values captured from
`SplitResourceID2(d.Id())`. -/
def resourceStaticIPWaitRefresh (project staticIPAddressId : String) (m : Client) :
    Refresh Unit :=
  match m.StaticIPsList project with
  | .error err => .returned none "" (some (.wrap "unable to fetch static ips: " err))
  | .ok r => staticIPWaitLoop staticIPAddressId r.StaticIPs

/-- The `Pending` list of the configuration built by `resourceStaticIPWait`. -/
def staticIPWaitPending : List String := ["creating", "waiting"]

/-- The `Target` list of the configuration built by `resourceStaticIPWait`. -/
def staticIPWaitTarget : List String := ["created"]

/-! ## `internal/cache/kafka_topic_cache.go` -/

/-- `TopicCache`: the two maps, each keyed by `projectName+serviceName`. A map
is a function to `Option`, `none` for an absent key (the lock is not part of
the state). -/
structure TopicCache where
  internal : String → Option (String → Option KafkaTopic)
  inQueue : String → Option (List String)

/-- The cache created by `NewTopicCache`: two empty maps. -/
def NewTopicCache : TopicCache := ⟨fun _ => none, fun _ => none⟩

/-- `TopicCache.LoadByProjectAndServiceName`: the stored map (nil when absent)
and the `ok` flag. -/
def TopicCache.LoadByProjectAndServiceName (t : TopicCache) (projectName serviceName : String) :
    Option (String → Option KafkaTopic) × Bool :=
  match t.internal (projectName ++ serviceName) with
  | some result => (some result, true)
  | none => (none, false)

/-- `TopicCache.LoadByTopicName`. -/
def TopicCache.LoadByTopicName (t : TopicCache) (projectName serviceName topicName : String) :
    KafkaTopic × Bool :=
  match t.internal (projectName ++ serviceName) with
  | none => ({ KafkaTopic.empty with State := "CONFIGURING" }, false)
  | some topics =>
    match topics topicName with
    | some result => (result, true)
    | none => ({ KafkaTopic.empty with State := "CONFIGURING" }, false)

/-- `TopicCache.DeleteByProjectAndServiceName`. -/
def TopicCache.DeleteByProjectAndServiceName (t : TopicCache)
    (projectName serviceName : String) : TopicCache :=
  { t with internal := Function.update t.internal (projectName ++ serviceName) none }

/-- The slice expression `append(q[:i], q[i+1:]...)` of the removal loop, for
the stored slice `q` of length `m` over the backing array `arr`: the cells
`i+1 .. m-1` move one place down, the stored length becomes `m - 1`, and the
cells from `m - 1` on keep their contents. `none` is the run-time failure
"slice bounds out of range" of `q[i+1:]` when `i + 1 > m`. -/
def queueRemoveAt (arr : List String) (m i : Nat) : Option (List String × Nat) :=
  if i + 1 ≤ m then
    some (arr.take i ++ (arr.drop (i + 1)).take (m - (i + 1)) ++ arr.drop (m - 1), m - 1)
  else none

/-- The removal loop of `StoreByProjectAndServiceName`,
`for i, name := range t.inQueue[key]`, from index `i` for `k` more iterations.
The range runs over the slice as it was when the loop started, so over all
cells of the backing array `arr`, and reads cell `i` when it gets there; `m` is
the current length of the slice stored in the map. -/
def queueRemoveLoop (topicName : String) : Nat → Nat → List String → Nat →
    Option (List String × Nat)
  | _, 0, arr, m => some (arr, m)
  | i, k + 1, arr, m =>
    if arr[i]? = some topicName then
      match queueRemoveAt arr m i with
      | none => none
      | some (arr2, m2) => queueRemoveLoop topicName (i + 1) k arr2 m2
    else queueRemoveLoop topicName (i + 1) k arr m

/-- The removal loop run on a queue: the slice left in the map, or `none` when
a slice expression is out of range. -/
def queueRemove (topicName : String) (q : List String) : Option (List String) :=
  match queueRemoveLoop topicName 0 q.length q q.length with
  | none => none
  | some (arr, m) => some (arr.take m)

/-- One iteration of the outer loop of `StoreByProjectAndServiceName`. -/
def TopicCache.storeTopic (key : String) (t : TopicCache) (topic : KafkaTopic) :
    Option TopicCache :=
  let topics : String → Option KafkaTopic :=
    match t.internal key with
    | some existing => existing
    | none => fun _ => none
  let internal2 :=
    Function.update t.internal key (some (Function.update topics topic.TopicName (some topic)))
  match t.inQueue key with
  | none => some ⟨internal2, t.inQueue⟩
  | some q =>
    match queueRemove topic.TopicName q with
    | none => none
    | some q2 => some ⟨internal2, Function.update t.inQueue key (some q2)⟩

/-- The outer loop of `StoreByProjectAndServiceName` over the list. -/
def TopicCache.storeLoop (key : String) : TopicCache → List KafkaTopic → Option TopicCache
  | t, [] => some t
  | t, topic :: rest =>
    match t.storeTopic key topic with
    | none => none
    | some t2 => TopicCache.storeLoop key t2 rest

/-- `TopicCache.StoreByProjectAndServiceName`; the list holds the topics the
pointers of the Go list point to; `none` is a run-time failure in the removal
loop. -/
def TopicCache.StoreByProjectAndServiceName (t : TopicCache) (projectName serviceName : String)
    (list : List KafkaTopic) : Option TopicCache :=
  if list.length == 0 then some t
  else TopicCache.storeLoop (projectName ++ serviceName) t list

/-- `TopicCache.IsQueueEmpty`. -/
def TopicCache.IsQueueEmpty (t : TopicCache) (projectName serviceName : String) : Bool :=
  match t.inQueue (projectName ++ serviceName) with
  | some _ => !true
  | none => !false

/-- `TopicCache.AddToQueue`. -/
def TopicCache.AddToQueue (t : TopicCache) (projectName serviceName topicName : String) :
    TopicCache :=
  let q := (t.inQueue (projectName ++ serviceName)).getD []
  let isFound := q.any (fun name => name == topicName)
  let inCache :=
    match t.internal (projectName ++ serviceName) with
    | some topics => (topics topicName).isSome
    | none => false
  if !isFound && !inCache then
    ⟨t.internal, Function.update t.inQueue (projectName ++ serviceName) (some (q ++ [topicName]))⟩
  else t

/-- `TopicCache.GetQueue`. -/
def TopicCache.GetQueue (t : TopicCache) (projectName serviceName : String) : List String :=
  let q := (t.inQueue (projectName ++ serviceName)).getD []
  if q.length ≥ 100 then q.take 99 else q

/-- A call of a public operation that changes the cache. -/
inductive CacheOp where
  | addToQueue (projectName serviceName topicName : String)
  | store (projectName serviceName : String) (list : List KafkaTopic)
  | delete (projectName serviceName : String)

/-- The cache after one call; `none` when the call fails at run time. -/
def TopicCache.apply (t : TopicCache) : CacheOp → Option TopicCache
  | .addToQueue p s name => some (t.AddToQueue p s name)
  | .store p s list => t.StoreByProjectAndServiceName p s list
  | .delete p s => some (t.DeleteByProjectAndServiceName p s)

/-- The cache after a sequence of calls, in order. -/
def TopicCache.run : TopicCache → List CacheOp → Option TopicCache
  | t, [] => some t
  | t, op :: rest =>
    match t.apply op with
    | none => none
    | some t2 => TopicCache.run t2 rest

/-! ## `internal/service/custom_diff.go` -/

/-- The part of `*schema.ResourceDiff` read by the customize-diff functions.
`service_integrations_changed` is `d.HasChange("service_integrations")`;
`disk_space` is the result of `d.GetOk("disk_space")`, `none` when its `ok` is
false. -/
structure ResourceDiff where
  Id : String
  service_type : String
  service_integrations : List Iface
  service_integrations_changed : Bool
  disk_space : Option String

/-- `CustomizeDiffServiceIntegrationAfterCreation`; `len(d.Id())` is the length
in bytes. -/
def CustomizeDiffServiceIntegrationAfterCreation (d : ResourceDiff) : Option GoError :=
  if d.Id.utf8ByteSize > 0 && d.service_integrations_changed &&
      d.service_integrations.length != 0 then
    some (.other "service_integrations field can only be set during creation of a service")
  else none

/-- `aiven` plan parameters as returned by `GetServicePlanParametersFromSchema`
(type `PlanParameters` of a file of package `service` outside these sources):
the three disk sizes in MB, Go `int`s. -/
structure PlanParameters where
  DiskSizeMBDefault : Int
  DiskSizeMBStep : Int
  DiskSizeMBMax : Int
  deriving Repr, DecidableEq

/-- What `CustomizeDiffCheckDiskSpace` obtains from functions of package
`service` that are outside these sources, for the diff at hand: the result of
`GetServicePlanParametersFromSchema`, the function `ConvertToDiskSpaceMB`, the
result pair of `dynamicDiskSpaceIsAllowedByPricing`, and the function
`HumanReadableByteSize`. -/
structure DiskSpaceDeps where
  GetServicePlanParametersFromSchema : Except GoError PlanParameters
  ConvertToDiskSpaceMB : String → Int
  dynamicDiskSpaceIsAllowedByPricing : Bool × Option GoError
  HumanReadableByteSize : Int → String

/-- A value of Go's 64-bit `int` after an arithmetic operation: the result
wraps around modulo 2^64. -/
def wrapInt (x : Int) : Int := (x + 2 ^ 63) % 2 ^ 64 - 2 ^ 63

/-- `units.MiB`. -/
def MiB : Int := 1048576

/-- The first block of checks of `CustomizeDiffCheckDiskSpace`, entered when
the requested size differs from the plan default. -/
def dynamicDiskSpaceCheck (deps : DiskSpaceDeps) (servicePlanParams : PlanParameters)
    (requestedDiskSpaceMB : Int) : Option GoError :=
  if servicePlanParams.DiskSizeMBDefault != requestedDiskSpaceMB then
    if servicePlanParams.DiskSizeMBMax == 0 || servicePlanParams.DiskSizeMBStep == 0 then
      some (.other "dynamic disk space is not configurable for this service")
    else
      match deps.dynamicDiskSpaceIsAllowedByPricing with
      | (_, some err) =>
        some (.wrap "unable to check if dynamic disk space is allowed for this service: " err)
      | (false, none) => some (.other "dynamic disk space is not configurable for this service")
      | (true, none) => none
  else none

/-- `CustomizeDiffCheckDiskSpace`; `%` is Go's truncated remainder. -/
def CustomizeDiffCheckDiskSpace (deps : DiskSpaceDeps) (d : ResourceDiff) : Option GoError :=
  if d.service_type == "" then
    some (.other "cannot check dynamic disc space because service_type is empty")
  else
    match deps.GetServicePlanParametersFromSchema with
    | .error err => some (.wrap "unable to get service plan parameters: " err)
    | .ok servicePlanParams =>
      match d.disk_space with
      | none => none
      | some ds =>
        let requestedDiskSpaceMB := deps.ConvertToDiskSpaceMB ds
        match dynamicDiskSpaceCheck deps servicePlanParams requestedDiskSpaceMB with
        | some err => some err
        | none =>
          let humanReadableDiskSpaceDefault :=
            deps.HumanReadableByteSize (wrapInt (servicePlanParams.DiskSizeMBDefault * MiB))
          let humanReadableDiskSpaceMax :=
            deps.HumanReadableByteSize (wrapInt (servicePlanParams.DiskSizeMBMax * MiB))
          let humanReadableDiskSpaceStep :=
            deps.HumanReadableByteSize (wrapInt (servicePlanParams.DiskSizeMBStep * MiB))
          let humanReadableRequestedDiskSpace :=
            deps.HumanReadableByteSize (wrapInt (requestedDiskSpaceMB * MiB))
          if requestedDiskSpaceMB < servicePlanParams.DiskSizeMBDefault then
            some (.other ("requested disk size is too small: '" ++
              humanReadableRequestedDiskSpace ++ "' < '" ++ humanReadableDiskSpaceDefault
              ++ "'"))
          else if servicePlanParams.DiskSizeMBMax ≠ 0 ∧
              requestedDiskSpaceMB > servicePlanParams.DiskSizeMBMax then
            some (.other ("requested disk size is too large: '" ++
              humanReadableRequestedDiskSpace ++ "' > '" ++ humanReadableDiskSpaceMax ++ "'"))
          else if servicePlanParams.DiskSizeMBStep ≠ 0 ∧
              Int.tmod (wrapInt (requestedDiskSpaceMB - servicePlanParams.DiskSizeMBDefault))
                servicePlanParams.DiskSizeMBStep ≠ 0 then
            some (.other ("requested disk size has to increase from: '" ++
              humanReadableDiskSpaceDefault ++ "' in increments of '" ++
              humanReadableDiskSpaceStep ++ "'"))
          else none

/-! ## Delete handlers of `resource_database.go` and `resource_kafka_topic.go` -/

/-- `strings.SplitN(s, sep, n)` on the characters of `s`, for a one-character
separator and `n ≥ 0`: at most `n` parts, the last one the unsplit rest. -/
def SplitNChars (sep : Char) : Nat → List Char → List (List Char)
  | 0, _ => []
  | 1, cs => [cs]
  | n + 2, cs =>
    match cs.span (fun c => c != sep) with
    | (part, []) => [part]
    | (part, _ :: rest) => part :: SplitNChars sep (n + 1) rest

/-- `splitResourceID`; `PathUnescape` is `url.PathUnescape` with its error
dropped, as the source does. -/
def splitResourceID (PathUnescape : String → String) (resourceID : String) (n : Nat) :
    List String :=
  (SplitNChars '/' n resourceID.data).map (fun part => PathUnescape (String.mk part))

/-- `SplitResourceID3`; `none` is the run-time failure "index out of range" of
`parts[0], parts[1], parts[2]`. -/
def SplitResourceID3 (PathUnescape : String → String) (resourceID : String) :
    Option (String × String × String) :=
  match splitResourceID PathUnescape resourceID 3 with
  | p0 :: p1 :: p2 :: _ => some (p0, p1, p2)
  | _ => none

/-- A delete call received by the remote API. -/
inductive RemoteCall where
  | databasesDelete (project service database : String)
  | kafkaTopicsDelete (project service topic : String)
  deriving Repr, DecidableEq

/-- The remote API over the course of a handler run: the delete calls it has
received so far, in order, and what it answers after a given history of
calls. -/
structure Remote where
  calls : List RemoteCall
  answers : List RemoteCall → Client

/-- `client.Databases.Delete` issued to the remote API: the answer of the API
in its present state, and the API with the call received. -/
def Remote.DatabasesDelete (r : Remote) (project service database : String) :
    Option GoError × Remote :=
  ((r.answers r.calls).DatabasesDelete project service database,
    ⟨r.calls ++ [.databasesDelete project service database], r.answers⟩)

/-- `client.KafkaTopics.Delete` issued to the remote API: the answer of the API
in its present state, and the API with the call received. -/
def Remote.KafkaTopicsDelete (r : Remote) (project service topic : String) :
    Option GoError × Remote :=
  ((r.answers r.calls).KafkaTopicsDelete project service topic,
    ⟨r.calls ++ [.kafkaTopicsDelete project service topic], r.answers⟩)

/-- `DatabaseDeleteWaiter.RefreshFunc` run against the remote API: the closure
issues its delete call to `r`. -/
def DatabaseDeleteWaiter.RefreshFuncOn (w : DatabaseDeleteWaiter) (r : Remote) :
    Refresh Aiven.Database × Remote :=
  match r.DatabasesDelete w.ProjectName w.ServiceName w.Database with
  | (some err, r2) =>
    if !IsNotFound err then (.returned none "REMOVING" none, r2)
    else (.returned (some Database.empty) "DELETED" none, r2)
  | (none, r2) => (.returned (some Database.empty) "DELETED" none, r2)

/-- `KafkaTopicDeleteWaiter.RefreshFunc` run against the remote API: the
closure issues its delete call to `r`. -/
def KafkaTopicDeleteWaiter.RefreshFuncOn (w : KafkaTopicDeleteWaiter) (r : Remote) :
    Refresh KafkaTopic × Remote :=
  match r.KafkaTopicsDelete w.ProjectName w.ServiceName w.TopicName with
  | (some err, r2) =>
    if !IsNotFound err then (.returned none "REMOVING" none, r2)
    else (.returned (some KafkaTopic.empty) "DELETED" none, r2)
  | (none, r2) => (.returned (some KafkaTopic.empty) "DELETED" none, r2)

/-- `resource.StateChangeConf`, the fields the waiters set; durations are
`time.Duration` values in nanoseconds, `Refresh` is the closure, run against
the remote API. -/
structure StateChangeConf (α : Type) where
  Pending : List String
  Target : List String
  Refresh : Remote → Refresh α × Remote
  Delay : Int
  Timeout : Int
  MinTimeout : Int

/-- `time.Second`. -/
def Second : Int := 1000000000

/-- `DatabaseDeleteWaiter.Conf`. -/
def DatabaseDeleteWaiter.Conf (w : DatabaseDeleteWaiter) (timeout : Int) :
    StateChangeConf Aiven.Database :=
  { Pending := ["REMOVING"]
    Target := ["DELETED"]
    Refresh := w.RefreshFuncOn
    Delay := 5 * Second
    Timeout := timeout
    MinTimeout := 5 * Second }

/-- `KafkaTopicDeleteWaiter.Conf`. -/
def KafkaTopicDeleteWaiter.Conf (w : KafkaTopicDeleteWaiter) (timeout : Int) :
    StateChangeConf KafkaTopic :=
  { Pending := ["REMOVING"]
    Target := ["DELETED"]
    Refresh := w.RefreshFuncOn
    Delay := 1 * Second
    Timeout := timeout
    MinTimeout := 1 * Second }

/-- What the SDK's polling loop does after the observations made so far: poll
again, or return its two results. -/
inductive PollDecision (α : Type) where
  | again
  | stop (result : Option α) (err : Option GoError)

/-- The SDK's `WaitForStateContext` as the remote API sees it: the loop does
nothing to the API but invoke the `Refresh` closure of its configuration.
`policy` stands for the SDK's decision, from the configuration and the
observations made so far, to poll again or to return; `maxPolls` is the number
of polls the timeout leaves room for, after which the loop returns its timeout
error. The arguments are the polls left, the observations so far and the
remote API. -/
def WaitForStateContext {α : Type}
    (policy : StateChangeConf α → List (Refresh α) → PollDecision α)
    (conf : StateChangeConf α) :
    Nat → List (Refresh α) → Remote → (Option α × Option GoError) × Remote
  | 0, seen, r =>
    match policy conf seen with
    | .stop result err => ((result, err), r)
    | .again => ((none, some (.other "timeout while waiting for state")), r)
  | maxPolls + 1, seen, r =>
    match policy conf seen with
    | .stop result err => ((result, err), r)
    | .again =>
      match conf.Refresh r with
      | (observed, r2) => WaitForStateContext policy conf maxPolls (seen ++ [observed]) r2

/-- `diag.Diagnostics` as returned by the delete handlers: nil, or one error
with its format string and the error formatted into it. -/
inductive Diagnostics where
  | nil
  | error (summary : String) (cause : Option GoError)
  deriving Repr, DecidableEq

/-- The part of `*schema.ResourceData` read by the delete handlers. -/
structure DeleteResourceData where
  Id : String
  termination_protection : Bool
  timeoutDelete : Int
  deriving Repr, DecidableEq

/-- `resourceDatabaseDelete`, from the remote API before the call to the
diagnostics returned and the remote API after it; `none` is the run-time
failure of `SplitResourceID3`. -/
def resourceDatabaseDelete (PathUnescape : String → String)
    (policy : StateChangeConf Aiven.Database → List (Refresh Aiven.Database) →
      PollDecision Aiven.Database)
    (maxPolls : Nat) (d : DeleteResourceData) (r : Remote) : Option (Diagnostics × Remote) :=
  match SplitResourceID3 PathUnescape d.Id with
  | none => none
  | some (projectName, serviceName, databaseName) =>
    if d.termination_protection then
      some (.error "cannot delete a database termination_protection is enabled" none, r)
    else
      let waiter : DatabaseDeleteWaiter := ⟨projectName, serviceName, databaseName⟩
      match WaitForStateContext policy (waiter.Conf d.timeoutDelete) maxPolls [] r with
      | ((_, some err), r2) =>
        some (.error "error waiting for Aiven Database to be DELETED: %s" (some err), r2)
      | ((_, none), r2) => some (.nil, r2)

/-- `resourceKafkaTopicDelete`, from the remote API before the call to the
diagnostics returned and the remote API after it; `none` is the run-time
failure of `SplitResourceID3`. -/
def resourceKafkaTopicDelete (PathUnescape : String → String)
    (policy : StateChangeConf KafkaTopic → List (Refresh KafkaTopic) → PollDecision KafkaTopic)
    (maxPolls : Nat) (d : DeleteResourceData) (r : Remote) : Option (Diagnostics × Remote) :=
  match SplitResourceID3 PathUnescape d.Id with
  | none => none
  | some (projectName, serviceName, topicName) =>
    if d.termination_protection then
      some (.error "cannot delete kafka topic when termination_protection is enabled" none, r)
    else
      let waiter : KafkaTopicDeleteWaiter := ⟨projectName, serviceName, topicName⟩
      match WaitForStateContext policy (waiter.Conf d.timeoutDelete) maxPolls [] r with
      | ((_, some err), r2) =>
        some (.error "error waiting for Aiven Kafka Topic to be DELETED: %s" (some err), r2)
      | ((_, none), r2) => some (.nil, r2)

/-! ## `resource_service.go` -/

def ServiceTypePG : String := "pg"
def ServiceTypeCassandra : String := "cassandra"
def ServiceTypeElasticsearch : String := "elasticsearch"
def ServiceTypeOpensearch : String := "opensearch"
def ServiceTypeGrafana : String := "grafana"
def ServiceTypeInfluxDB : String := "influxdb"
def ServiceTypeRedis : String := "redis"
def ServiceTypeMySQL : String := "mysql"
def ServiceTypeKafka : String := "kafka"
def ServiceTypeKafkaConnect : String := "kafka_connect"
def ServiceTypeKafkaMirrormaker : String := "kafka_mirrormaker"
def ServiceTypeM3 : String := "m3db"
def ServiceTypeM3Aggregator : String := "m3aggregator"
def ServiceTypeFlink : String := "flink"
def ServiceTypeClickhouse : String := "clickhouse"

/-- `availableServiceTypes`. -/
def availableServiceTypes : List String :=
  [ServiceTypePG, ServiceTypeCassandra, ServiceTypeElasticsearch, ServiceTypeGrafana,
    ServiceTypeInfluxDB, ServiceTypeRedis, ServiceTypeMySQL, ServiceTypeKafka,
    ServiceTypeKafkaConnect, ServiceTypeKafkaMirrormaker, ServiceTypeM3,
    ServiceTypeM3Aggregator, ServiceTypeOpensearch, ServiceTypeFlink, ServiceTypeClickhouse]

/-- `aiven.PostgresParams`. -/
structure PostgresParams where
  DatabaseName : String
  Host : String
  Password : String
  Port : String
  SSLMode : String
  User : String
  deriving Repr, DecidableEq

/-- `aiven.ConnectionInfo`, the fields read by the dispatch. -/
structure ConnectionInfo where
  OpensearchDashboardsURI : String
  KibanaURI : String
  InfluxDBDatabaseName : String
  KafkaAccessCert : String
  KafkaAccessKey : String
  KafkaConnectURI : String
  KafkaRestURI : String
  SchemaRegistryURI : String
  PostgresURIs : List String
  PostgresParams : List PostgresParams
  PostgresReplicaURI : String
  FlinkHostPorts : List String
  deriving Repr, DecidableEq

/-- The `pg` case of the switch: the assignments to `props`, in order;
`ParseInt` is `strconv.ParseInt(_, 10, 32)`, `none` when it returns an error. -/
def pgConnectionProps (ParseInt : String → Option Int) (connectionInfo : ConnectionInfo) :
    List (String × Iface) :=
  (match connectionInfo.PostgresURIs with
    | uri :: _ => [("uri", Iface.str uri)]
    | [] => []) ++
  (match connectionInfo.PostgresParams with
    | params :: _ =>
      [("dbname", Iface.str params.DatabaseName), ("host", Iface.str params.Host),
        ("password", Iface.str params.Password)] ++
      (match ParseInt params.Port with
        | some port => [("port", Iface.num port)]
        | none => []) ++
      [("sslmode", Iface.str params.SSLMode), ("user", Iface.str params.User)]
    | [] => []) ++
  [("replica_uri", Iface.str connectionInfo.PostgresReplicaURI)]

/-- The `switch serviceType` of `copyConnectionInfoFromAPIResponseToTerraform`:
the entries put into `props`, or `none` for the `default` case, which panics
with "Unsupported service type". -/
def connectionInfoProps (ParseInt : String → Option Int) (serviceType : String)
    (connectionInfo : ConnectionInfo) : Option (List (String × Iface)) :=
  if serviceType = "cassandra" then some []
  else if serviceType = "opensearch" then
    some [("opensearch_dashboards_uri", .str connectionInfo.OpensearchDashboardsURI)]
  else if serviceType = "elasticsearch" then
    some [("kibana_uri", .str connectionInfo.KibanaURI)]
  else if serviceType = "grafana" then some []
  else if serviceType = "influxdb" then
    some [("database_name", .str connectionInfo.InfluxDBDatabaseName)]
  else if serviceType = "kafka" then
    some [("access_cert", .str connectionInfo.KafkaAccessCert),
      ("access_key", .str connectionInfo.KafkaAccessKey),
      ("connect_uri", .str connectionInfo.KafkaConnectURI),
      ("rest_uri", .str connectionInfo.KafkaRestURI),
      ("schema_registry_uri", .str connectionInfo.SchemaRegistryURI)]
  else if serviceType = "kafka_connect" then some []
  else if serviceType = "mysql" then some []
  else if serviceType = "pg" then some (pgConnectionProps ParseInt connectionInfo)
  else if serviceType = "clickhouse" then some []
  else if serviceType = "redis" then some []
  else if serviceType = "flink" then
    some [("host_ports", .slice (connectionInfo.FlinkHostPorts.map Iface.str))]
  else if serviceType = "kafka_mirrormaker" then some []
  else if serviceType = "m3db" then some []
  else if serviceType = "m3aggregator" then some []
  else none

/-- `copyConnectionInfoFromAPIResponseToTerraform`; `dSet` is `d.Set` of the
SDK, the outer `none` is the panic of the `default` case. -/
def copyConnectionInfoFromAPIResponseToTerraform (ParseInt : String → Option Int)
    (dSet : String → List (List (String × Iface)) → Option GoError) (serviceType : String)
    (connectionInfo : ConnectionInfo) : Option (Option GoError) :=
  match connectionInfoProps ParseInt serviceType connectionInfo with
  | none => none
  | some props => some (dSet serviceType [props])

/-- The part of `*schema.ResourceData` read by the opening block of
`resourceServiceUpdate`: `d.Get("karapace")` and `d.HasChange("karapace")`. -/
structure ServiceUpdateData where
  karapace : Iface
  karapace_changed : Bool

/-- Go's `v != nil` for an interface value. -/
def Iface.notNil : Iface → Bool
  | .null => false
  | _ => true

/-- The opening block of `resourceServiceUpdate`, which computes the value
sent as `Karapace` in the update request: `some none` is a nil pointer,
`some (some b)` a pointer to `b`, and `none` is the nil dereference of
`*karapace = true`, `karapace` being declared by `var karapace *bool` and
never assigned. -/
def resourceServiceUpdateKarapace (d : ServiceUpdateData) : Option (Option Bool) :=
  if d.karapace_changed && d.karapace.notNil then
    match d.karapace with
    | .bool k => if k then none else some none
    | _ => some none
  else some none

/-- The state invariant of the topic cache: in the queue of every key no name
occurs twice, and no queued name has an entry in the cached topic map of that
key. -/
def TopicCache.QueueInvariant (t : TopicCache) : Prop :=
  ∀ key q, t.inQueue key = some q →
    q.Nodup ∧ ∀ name ∈ q, ∀ topics, t.internal key = some topics → topics name = none

/-! ## `internal/schemautil/schemautil.go` -/

/-- `SplitResourceID2`; `none` is the run-time failure "index out of range" of
`parts[0], parts[1]`. -/
def SplitResourceID2 (PathUnescape : String → String) (resourceID : String) :
    Option (String × String) :=
  match splitResourceID PathUnescape resourceID 2 with
  | p0 :: p1 :: _ => some (p0, p1)
  | _ => none

/-- `SplitResourceID4`; `none` is the run-time failure "index out of range" of
`parts[0], parts[1], parts[2], parts[3]`. -/
def SplitResourceID4 (PathUnescape : String → String) (resourceID : String) :
    Option (String × String × String × String) :=
  match splitResourceID PathUnescape resourceID 4 with
  | p0 :: p1 :: p2 :: p3 :: _ => some (p0, p1, p2, p3)
  | _ => none

/-- `strings.Split(s, sep)` on the characters of `s`, for a one-character
separator: all the parts between the separators. -/
def SplitChars (sep : Char) : List Char → List (List Char)
  | [] => [[]]
  | c :: cs =>
    if c = sep then [] :: SplitChars sep cs
    else
      match SplitChars sep cs with
      | part :: parts => (c :: part) :: parts
      | [] => [[c]]

/-- `strings.Split(s, "/")`. -/
def Split (s : String) : List String := (SplitChars '/' s.data).map String.mk

/-- The identifier check that opens `resourceKafkaTopicState`: the error it
returns, nil when the identifier is accepted. -/
def resourceKafkaTopicStateCheck (id : String) : Option GoError :=
  if (Split id).length != 3 then
    some (.other ("invalid identifier " ++ id ++
      ", expected <project_name>/<service_name>/<topic_name>"))
  else none

/-- The identifier check that opens `resourceDatabaseState`. -/
def resourceDatabaseStateCheck (id : String) : Option GoError :=
  if (Split id).length != 3 then
    some (.other ("invalid identifier " ++ id ++
      ", expected <project_name>/<service_name>/<database_name>"))
  else none

/-- The identifier check that opens `resourceServiceState`. -/
def resourceServiceStateCheck (id : String) : Option GoError :=
  if (Split id).length != 2 then
    some (.other ("invalid identifier " ++ id ++ ", expected <project_name>/<service_name>"))
  else none

/-! ### `net/url` as used by the resource identifiers

A Go string is a sequence of bytes. In the functions below a string stands for
its bytes, one character per byte, so every character has a code below 256. -/

/-- `shouldEscape(c, encodePathSegment)` of `net/url`. -/
def shouldEscape (c : Char) : Bool :=
  if ('a' ≤ c ∧ c ≤ 'z') ∨ ('A' ≤ c ∧ c ≤ 'Z') ∨ ('0' ≤ c ∧ c ≤ '9') then false
  else if c = '-' ∨ c = '_' ∨ c = '.' ∨ c = '~' then false
  else if c = '$' ∨ c = '&' ∨ c = '+' ∨ c = ',' ∨ c = '/' ∨ c = ':' ∨ c = ';' ∨ c = '=' ∨
      c = '?' ∨ c = '@' then
    c == '/' || c == ';' || c == ',' || c == '?'
  else true

/-- The table `upperhex` ("0123456789ABCDEF") of `net/url`, by index. -/
def upperhex (d : Nat) : Char :=
  if d < 10 then Char.ofNat (48 + d) else Char.ofNat (55 + d)

/-- `ishex` of `net/url`. -/
def ishex (c : Char) : Bool :=
  ('0' ≤ c ∧ c ≤ '9') ∨ ('a' ≤ c ∧ c ≤ 'f') ∨ ('A' ≤ c ∧ c ≤ 'F')

/-- `unhex` of `net/url`. -/
def unhex (c : Char) : Nat :=
  if '0' ≤ c ∧ c ≤ '9' then c.toNat - 48
  else if 'a' ≤ c ∧ c ≤ 'f' then c.toNat - 97 + 10
  else if 'A' ≤ c ∧ c ≤ 'F' then c.toNat - 65 + 10
  else 0

/-- The loop of `escape(s, encodePathSegment)`: a byte to escape becomes '%'
followed by `upperhex[c>>4]` and `upperhex[c&15]`. -/
def escapeChars : List Char → List Char
  | [] => []
  | c :: cs =>
    if shouldEscape c then
      '%' :: upperhex (c.toNat / 16) :: upperhex (c.toNat % 16) :: escapeChars cs
    else c :: escapeChars cs

/-- `url.PathEscape`. -/
def PathEscape (s : String) : String := String.mk (escapeChars s.data)

/-- The decoding of `unescape(s, encodePathSegment)`: `none` is the
`EscapeError` for a '%' that is not followed by two hexadecimal digits. -/
def unescapeChars : List Char → Option (List Char)
  | [] => some []
  | c :: rest =>
    if c = '%' then
      match rest with
      | a :: b :: rest2 =>
        if ishex a && ishex b then
          (unescapeChars rest2).map (fun r => Char.ofNat (unhex a * 16 + unhex b) :: r)
        else none
      | _ => none
    else (unescapeChars rest).map (fun r => c :: r)

/-- The string result of `url.PathUnescape`, which is "" when it returns an
error. -/
def PathUnescape (s : String) : String :=
  match unescapeChars s.data with
  | some r => String.mk r
  | none => ""

/-- `strings.Join`. -/
def Join : List String → String → String
  | [], _ => ""
  | [a], _ => a
  | a :: b :: rest, sep => a ++ sep ++ Join (b :: rest) sep

/-- `BuildResourceID`. -/
def BuildResourceID (parts : List String) : String := Join (parts.map PathEscape) "/"

/-- `regexp.MatchString("^[1-9][0-9]*(GiB|G)$", v)` on the characters of `v`:
one digit from 1 to 9, then the longest run of digits, then exactly "GiB" or
"G" up to the end of the text. -/
def matchHumanByteSize : List Char → Bool
  | [] => false
  | c :: rest =>
    ('1' ≤ c ∧ c ≤ '9') &&
      (rest.dropWhile (fun d => '0' ≤ d ∧ d ≤ '9') == ['G', 'i', 'B'] ||
        rest.dropWhile (fun d => '0' ≤ d ∧ d ≤ '9') == ['G'])

/-- The verb `%q` of `fmt` applied to a string with no character that needs
escaping, as the schema keys are: the string between double quotes. -/
def Quote (s : String) : String :=
  String.singleton (Char.ofNat 34) ++ s ++ String.singleton (Char.ofNat 34)

/-- `ValidateHumanByteSizeString`, returning `(ws, errors)`; `RAMInBytes` is
`units.RAMInBytes` of the package go-units. -/
def ValidateHumanByteSizeString (RAMInBytes : String → Except GoError Int) (v k : String) :
    List String × List GoError :=
  if !matchHumanByteSize v.data then
    ([], [] ++ [.other (Quote k ++ ": configured string must match ^[1-9][0-9]*(G|GiB)")])
  else
    match RAMInBytes v with
    | .error _ => ([], [] ++ [.other (Quote k ++ ": invalid human readable byte size")])
    | .ok _ => ([], [])

/-- The claim's notion of a name stored under a project and service, read on
the calls made so far: after the calls, in order, starting from `stored`,
whether the name is stored under the pair `(projectName, serviceName)`, that
is whether the last call among the StoreByProjectAndServiceName calls for that
pair whose list holds a topic of that name and the
DeleteByProjectAndServiceName calls for that pair is a store. -/
def storedUnder (projectName serviceName topicName : String) : Bool → List CacheOp → Bool
  | stored, [] => stored
  | stored, .addToQueue _ _ _ :: rest => storedUnder projectName serviceName topicName stored rest
  | stored, .store p s list :: rest =>
    storedUnder projectName serviceName topicName
      (if p = projectName ∧ s = serviceName ∧
          list.any (fun tp => tp.TopicName == topicName) = true then true else stored) rest
  | stored, .delete p s :: rest =>
    storedUnder projectName serviceName topicName
      (if p = projectName ∧ s = serviceName then false else stored) rest

/-- The same reading on the map key the code uses: the calls that count are
those whose `projectName+serviceName` equals `key`. -/
def storedUnderKey (key topicName : String) : Bool → List CacheOp → Bool
  | stored, [] => stored
  | stored, .addToQueue _ _ _ :: rest => storedUnderKey key topicName stored rest
  | stored, .store p s list :: rest =>
    storedUnderKey key topicName
      (if p ++ s = key ∧ list.any (fun tp => tp.TopicName == topicName) = true then true
        else stored) rest
  | stored, .delete p s :: rest =>
    storedUnderKey key topicName (if p ++ s = key then false else stored) rest

/-! ## Concrete inputs -/

/-- A static IP entry of the example project. -/
def exIp (id serviceName state : String) : StaticIP :=
  ⟨"google-europe-west1", "203.0.113.7", serviceName, state, id⟩

/-- A client whose service fetch and static IP listing return the given values. -/
def exClient (fetched : Except GoError Service) (ips : Except GoError ListStaticIPResponse) :
    Client :=
  ⟨fun _ _ => fetched, fun _ => ips, fun _ _ _ => none, fun _ _ _ => none⟩

/-- A client for the delete waiters: both delete calls return the given error. -/
def exDeleteClient (err : Option GoError) : Client :=
  ⟨fun _ _ => .error (.api 404 "not found"), fun _ => .ok ⟨[]⟩, fun _ _ _ => err,
    fun _ _ _ => err⟩

/-- Resource data of a service "svc" in "proj" requesting the given static IPs. -/
def exData (ips : List String) (enabled : Option Bool) : ResourceData :=
  ⟨"proj", "svc", "pg", ips, enabled⟩

/-- A PostgreSQL service in the given state with the given backups. -/
def exPg (state : String) (backups : List Backup) : Service :=
  ⟨"svc", "pg", state, [], [], [⟨"read_replica", some "other"⟩], backups⟩

/-- One hundred distinct topic names: "t", "tt", "ttt", and so on. -/
def exNames : List String :=
  (List.range 100).map (fun i => String.mk (List.replicate (i + 1) 't'))

/-- The cache after `AddToQueue` was called once for each of the hundred names,
starting from the empty cache. -/
def exFullQueue : TopicCache :=
  exNames.foldl (fun c name => c.AddToQueue "proj" "svc" name) NewTopicCache

/-- Plan parameters of the example: default 81920 MB, step 10240 MB, maximum
1048576 MB. -/
def exPlan : PlanParameters := ⟨81920, 10240, 1048576⟩

/-- Dependencies of the disk space check for the example: the plan above, a
requested size of 102400 MB, pricing that allows dynamic disk space. -/
def exDiskDeps : DiskSpaceDeps :=
  ⟨.ok exPlan, fun _ => 102400, (true, none), fun n => toString n ++ "B"⟩

/-- A diff of a new PostgreSQL service requesting "100GiB" of disk space. -/
def exDiff : ResourceDiff := ⟨"", "pg", [], false, some "100GiB"⟩

/-- A Grafana service with one public primary component and the given user
configuration. -/
def exGrafana (cfg : List (String × Iface)) : Service :=
  ⟨"graf", "grafana", "RUNNING", cfg, [⟨"grafana", "graf.example.com", 443, "public", "primary"⟩],
    [], []⟩

/-- Connection information of a Kafka service of the example. -/
def exConnectionInfo : ConnectionInfo :=
  ⟨"", "", "", "cert", "key", "kafka.example.com:9093", "https://kafka.example.com:443",
    "https://kafka.example.com:444", [], [], "", []⟩

/-- A polling policy: return the result once the last observation carries a
label of the target set, return the error of an observation that carries one,
poll again otherwise. -/
def exPolicy {α : Type} (conf : StateChangeConf α) (seen : List (Refresh α)) :
    PollDecision α :=
  match seen.getLast? with
  | none => .again
  | some (.returned result state none) =>
    if state ∈ conf.Target then .stop result none else .again
  | some (.returned _ _ (some err)) => .stop none (some err)
  | some .panic => .stop none (some (.other "refresh failed"))

/-- A remote API that has received no call yet and answers every delete call
with the given error. -/
def exRemote (err : Option GoError) : Remote := ⟨[], fun _ => exDeleteClient err⟩

/-! ## Lemmas on the loops -/

theorem backupsReadyLoop_spec (service : Service) (l : List ServiceIntegration)
    (h : ∀ i ∈ l, i.IntegrationType = "read_replica" → i.DestinationService ≠ none) :
    ∃ b, backupsReadyLoop service l = some b ∧
      (b = true ↔
        (∃ i ∈ l, i.IntegrationType = "read_replica" ∧
            i.DestinationService = some service.Name) ∨
          service.Backups ≠ []) := by
  induction l with
  | nil =>
    refine ⟨decide (service.Backups.length > 0), rfl, ?_⟩
    simp [List.length_pos]
  | cons i rest ih =>
    have hrest : ∀ j ∈ rest, j.IntegrationType = "read_replica" →
        j.DestinationService ≠ none := fun j hj => h j (List.mem_cons_of_mem _ hj)
    obtain ⟨b, hb, hiff⟩ := ih hrest
    by_cases ht : i.IntegrationType = "read_replica"
    · cases hd : i.DestinationService with
      | none => exact absurd hd (h i (List.mem_cons_self _ _) ht)
      | some dst =>
        by_cases hn : dst = service.Name
        · refine ⟨true, ?_, ?_⟩
          · simp [backupsReadyLoop, ht, hd, hn]
          · simp only [true_iff]
            exact Or.inl ⟨i, List.mem_cons_self _ _, ht, by rw [hd, hn]⟩
        · refine ⟨b, ?_, ?_⟩
          · simp [backupsReadyLoop, ht, hd, hn, hb]
          · rw [hiff]
            constructor
            · rintro (⟨j, hj, hjt, hjd⟩ | hbk)
              · exact Or.inl ⟨j, List.mem_cons_of_mem _ hj, hjt, hjd⟩
              · exact Or.inr hbk
            · rintro (⟨j, hj, hjt, hjd⟩ | hbk)
              · rcases List.mem_cons.1 hj with rfl | hj
                · rw [hd] at hjd
                  exact absurd (Option.some.inj hjd) hn
                · exact Or.inl ⟨j, hj, hjt, hjd⟩
              · exact Or.inr hbk
    · refine ⟨b, ?_, ?_⟩
      · simp [backupsReadyLoop, ht, hb]
      · rw [hiff]
        constructor
        · rintro (⟨j, hj, hjt, hjd⟩ | hbk)
          · exact Or.inl ⟨j, List.mem_cons_of_mem _ hj, hjt, hjd⟩
          · exact Or.inr hbk
        · rintro (⟨j, hj, hjt, hjd⟩ | hbk)
          · rcases List.mem_cons.1 hj with rfl | hj
            · exact absurd hjt ht
            · exact Or.inl ⟨j, hj, hjt, hjd⟩
          · exact Or.inr hbk

theorem staticIpFound_iff (serviceName eip : String) (l : List StaticIP) :
    staticIpFound serviceName eip l = true ↔
      ∃ sip ∈ l, sip.StaticIPAddressID = eip ∧ sip.ServiceName = serviceName ∧
        (sip.State = "assigned" ∨ sip.State = "available") := by
  induction l with
  | nil => simp [staticIpFound]
  | cons sip rest ih =>
    simp only [staticIpFound, List.mem_cons, exists_eq_or_imp]
    split
    · rename_i hc
      simp only [Bool.and_eq_true, Bool.or_eq_true, beq_iff_eq] at hc
      simp [hc.1.1, hc.1.2, hc.2]
    · rename_i hc
      simp only [Bool.and_eq_true, Bool.or_eq_true, beq_iff_eq] at hc
      rw [ih]
      constructor
      · exact fun hx => Or.inr hx
      · rintro (⟨h1, h2, h3⟩ | hx)
        · exact absurd ⟨⟨h1, h2⟩, h3⟩ hc
        · exact hx

theorem staticIpsReadyLoop_iff (serviceName : String) (l : List StaticIP) (es : List String) :
    staticIpsReadyLoop serviceName l es = true ↔
      ∀ eip ∈ es, staticIpFound serviceName eip l = true := by
  induction es with
  | nil => simp [staticIpsReadyLoop]
  | cons e rest ih =>
    simp only [staticIpsReadyLoop, List.mem_cons, forall_eq_or_imp]
    by_cases hf : staticIpFound serviceName e l = true
    · simp [hf, ih]
    · simp [hf]

theorem staticIpAssigned_iff (eip : String) (l : List StaticIP) :
    staticIpAssigned eip l = true ↔
      ∃ sip ∈ l, sip.StaticIPAddressID = eip ∧ sip.State = "assigned" := by
  induction l with
  | nil => simp [staticIpAssigned]
  | cons sip rest ih =>
    simp only [staticIpAssigned, List.mem_cons, exists_eq_or_imp]
    split
    · rename_i hc
      simp only [Bool.and_eq_true, beq_iff_eq] at hc
      simp [hc.1, hc.2]
    · rename_i hc
      simp only [Bool.and_eq_true, beq_iff_eq] at hc
      rw [ih]
      constructor
      · exact fun hx => Or.inr hx
      · rintro (⟨h1, h2⟩ | hx)
        · exact absurd ⟨h1, h2⟩ hc
        · exact hx

theorem staticIpsDisassociatedLoop_iff (l : List StaticIP) (es : List String) :
    staticIpsDisassociatedLoop l es = true ↔
      ∀ eip ∈ es, staticIpAssigned eip l = false := by
  induction es with
  | nil => simp [staticIpsDisassociatedLoop]
  | cons e rest ih =>
    simp only [staticIpsDisassociatedLoop, List.mem_cons, forall_eq_or_imp]
    by_cases hf : staticIpAssigned e l = true
    · simp [hf]
    · simp [hf, ih]

theorem staticIpsReady_eq_of_ok (d : ResourceData) (m : Client) (resp : ListStaticIPResponse)
    (hl : m.StaticIPsList d.project = .ok resp) :
    staticIpsReady d m =
      (!staticIpsEnabledInUserConfig d || (staticIpsForServiceFromSchema d).length == 0 ||
        staticIpsReadyLoop d.service_name resp.StaticIPs (staticIpsForServiceFromSchema d),
        none) := by
  unfold staticIpsReady
  cases staticIpsEnabledInUserConfig d <;> simp [hl]
  split <;> simp_all

theorem staticIpsDisassociated_eq_of_ok (d : ResourceData) (m : Client)
    (resp : ListStaticIPResponse) (hl : m.StaticIPsList d.project = .ok resp) :
    staticIpsDisassociated d m =
      (!staticIpsEnabledInUserConfig d || (staticIpsForServiceFromSchema d).length == 0 ||
        staticIpsDisassociatedLoop resp.StaticIPs (staticIpsForServiceFromSchema d),
        none) := by
  unfold staticIpsDisassociated
  cases staticIpsEnabledInUserConfig d <;> simp [hl]
  split <;> simp_all

theorem address_ne_empty (host : String) (port : Int) : host ++ ":" ++ Itoa port ≠ "" := by
  intro h
  have hlen := congrArg String.length h
  simp only [String.length_append] at hlen
  have h1 : (":" : String).length = 1 := rfl
  have h0 : ("" : String).length = 0 := rfl
  omega

theorem publicGrafana_foldl_unchanged (acc : String) (l : List ServiceComponent)
    (h : ∀ x ∈ l, ¬ (x.Route = "public" ∧ x.Usage = "primary")) :
    l.foldl
      (fun acc component =>
        if component.Route = "public" ∧ component.Usage = "primary" then
          component.Host ++ ":" ++ Itoa component.Port
        else acc) acc = acc := by
  induction l generalizing acc with
  | nil => rfl
  | cons x rest ih =>
    rw [List.foldl_cons, if_neg (h x (List.mem_cons_self _ _))]
    exact ih acc (fun y hy => h y (List.mem_cons_of_mem _ hy))

theorem publicGrafana_of_last (pre post : List ServiceComponent) (c : ServiceComponent)
    (hc : c.Route = "public" ∧ c.Usage = "primary")
    (hpost : ∀ x ∈ post, ¬ (x.Route = "public" ∧ x.Usage = "primary")) :
    publicGrafana (pre ++ c :: post) = c.Host ++ ":" ++ Itoa c.Port := by
  unfold publicGrafana
  rw [List.foldl_append, List.foldl_cons, if_pos hc]
  exact publicGrafana_foldl_unchanged _ post hpost

theorem exists_last_public (l : List ServiceComponent)
    (h : ∃ c ∈ l, c.Route = "public" ∧ c.Usage = "primary") :
    ∃ pre c post, l = pre ++ c :: post ∧ (c.Route = "public" ∧ c.Usage = "primary") ∧
      ∀ x ∈ post, ¬ (x.Route = "public" ∧ x.Usage = "primary") := by
  induction l with
  | nil => simp at h
  | cons x rest ih =>
    by_cases hr : ∃ c ∈ rest, c.Route = "public" ∧ c.Usage = "primary"
    · obtain ⟨pre, c, post, hl, hc, hpost⟩ := ih hr
      exact ⟨x :: pre, c, post, by rw [hl]; rfl, hc, hpost⟩
    · obtain ⟨c, hmem, hc⟩ := h
      rcases List.mem_cons.1 hmem with rfl | hmem
      · exact ⟨[], c, rest, rfl, hc, fun y hy hy2 => hr ⟨y, hy, hy2⟩⟩
      · exact absurd ⟨c, hmem, hc⟩ hr

theorem grafanaProbe_eq_false_iff (dial : String → Bool) (service : Service) :
    grafanaProbe dial service = false ↔
      ∃ pre c post, service.Components = pre ++ c :: post ∧
        (c.Route = "public" ∧ c.Usage = "primary") ∧
        (∀ x ∈ post, ¬ (x.Route = "public" ∧ x.Usage = "primary")) ∧
        dial (c.Host ++ ":" ++ Itoa c.Port) = false := by
  constructor
  · intro hp
    by_cases hex : ∃ c ∈ service.Components, c.Route = "public" ∧ c.Usage = "primary"
    · obtain ⟨pre, c, post, hl, hc, hpost⟩ := exists_last_public _ hex
      refine ⟨pre, c, post, hl, hc, hpost, ?_⟩
      have haddr := publicGrafana_of_last pre post c hc hpost
      rw [← hl] at haddr
      unfold grafanaProbe at hp
      simp only [haddr] at hp
      rw [if_pos (address_ne_empty _ _)] at hp
      cases hd : dial (c.Host ++ ":" ++ Itoa c.Port) with
      | false => rfl
      | true => simp [hd] at hp
    · have hnone : publicGrafana service.Components = "" :=
        publicGrafana_foldl_unchanged "" _ (fun x hx hx2 => hex ⟨x, hx, hx2⟩)
      simp [grafanaProbe, hnone] at hp
  · rintro ⟨pre, c, post, hl, hc, hpost, hd⟩
    have haddr := publicGrafana_of_last pre post c hc hpost
    rw [← hl] at haddr
    unfold grafanaProbe
    simp only [haddr]
    rw [if_pos (address_ne_empty _ _)]
    simp [hd]

theorem Iface.neString_eq_false_iff (x : Iface) (s : String) :
    x.neString s = false ↔ x = .str s := by
  cases x <;> simp [Iface.neString]

theorem option_bool_cases (o : Option Bool) : o = none ∨ o = some false ∨ o = some true := by
  cases o with
  | none => exact Or.inl rfl
  | some b => cases b <;> simp

theorem createRefresh_of_ok (d : ResourceData) (m : Client) (dial : String → Bool)
    (service : Service) (hf : m.ServicesGet d.project d.service_name = .ok service) :
    waitForCreateOrUpdateRefresh d m dial false =
      if service.State ≠ aivenTargetState then .returned (some service) service.State none
      else
        match backupsReady service with
        | none => .panic
        | some false => .returned (some service) aivenServicesStartingState none
        | some true =>
          match grafanaReady dial service with
          | none => .panic
          | some false => .returned (some service) aivenServicesStartingState none
          | some true =>
            match staticIpsReady d m with
            | (_, some err) =>
              .returned none "" (some (.wrap "unable to check if static ips are ready: " err))
            | (false, none) => .returned (some service) aivenServicesStartingState none
            | (true, none) => .returned (some service) service.State none := by
  unfold waitForCreateOrUpdateRefresh
  simp only [hf]
  rfl

theorem updateRefresh_of_ok (d : ResourceData) (m : Client) (dial : String → Bool)
    (service : Service) (hf : m.ServicesGet d.project d.service_name = .ok service) :
    waitForCreateOrUpdateRefresh d m dial true =
      match backupsReady service with
      | none => .panic
      | some false => .returned (some service) aivenServicesStartingState none
      | some true =>
        match grafanaReady dial service with
        | none => .panic
        | some false => .returned (some service) aivenServicesStartingState none
        | some true =>
          match staticIpsReady d m with
          | (_, some err) =>
            .returned none "" (some (.wrap "unable to check if static ips are ready: " err))
          | (false, none) => .returned (some service) aivenServicesStartingState none
          | (true, none) => .returned (some service) aivenTargetState none := by
  unfold waitForCreateOrUpdateRefresh
  simp only [hf]
  simp

theorem backupsReadyLoop_state (service : Service) (st : String)
    (l : List ServiceIntegration) :
    backupsReadyLoop { service with State := st } l = backupsReadyLoop service l := by
  induction l with
  | nil => rfl
  | cons i rest ih =>
    simp only [backupsReadyLoop, ih]

theorem backupsReady_state (service : Service) (st : String) :
    backupsReady { service with State := st } = backupsReady service := by
  unfold backupsReady
  simp only [backupsReadyLoop_state]

theorem grafanaReady_state (dial : String → Bool) (service : Service) (st : String) :
    grafanaReady dial { service with State := st } = grafanaReady dial service := rfl

theorem staticIpsReady_congr (d : ResourceData) (m m2 : Client)
    (h : m2.StaticIPsList = m.StaticIPsList) : staticIpsReady d m2 = staticIpsReady d m := by
  unfold staticIpsReady
  rw [h]

theorem waitForDeletionRefresh_of_notFound (d : ResourceData) (m : Client) (err : GoError)
    (hf : m.ServicesGet d.project d.service_name = .error err) (hnf : IsNotFound err = true) :
    waitForDeletionRefresh d m = waitForDeletionStaticIps d m := by
  simp [waitForDeletionRefresh, hf, hnf]

theorem waitForDeletionRefresh_of_ok (d : ResourceData) (m : Client) (service : Service)
    (hf : m.ServicesGet d.project d.service_name = .ok service) :
    waitForDeletionRefresh d m = waitForDeletionStaticIps d m := by
  simp [waitForDeletionRefresh, hf]

/-! ## Readiness predicates -/

/-- C3: for a service whose read_replica integrations all carry a non-nil
destination name, `backupsReady` returns a value, and that value is true if and
only if the service type is none of pg, elasticsearch, redis, influxdb, or some
integration has type read_replica with destination equal to the service's own
name, or the backup list is non-empty. -/
theorem backupsReady_iff (service : Service)
    (h : ∀ i ∈ service.Integrations, i.IntegrationType = "read_replica" →
      i.DestinationService ≠ none) :
    ∃ b, backupsReady service = some b ∧
      (b = true ↔
        (service.Type_ ≠ "pg" ∧ service.Type_ ≠ "elasticsearch" ∧
            service.Type_ ≠ "redis" ∧ service.Type_ ≠ "influxdb") ∨
          (∃ i ∈ service.Integrations, i.IntegrationType = "read_replica" ∧
            i.DestinationService = some service.Name) ∨
          service.Backups ≠ []) := by
  by_cases ht : service.Type_ ≠ "pg" ∧ service.Type_ ≠ "elasticsearch" ∧
      service.Type_ ≠ "redis" ∧ service.Type_ ≠ "influxdb"
  · exact ⟨true, by simp [backupsReady, ht], by simp [ht]⟩
  · obtain ⟨b, hb, hiff⟩ := backupsReadyLoop_spec service service.Integrations h
    refine ⟨b, ?_, ?_⟩
    · unfold backupsReady
      rw [if_neg ht]
      exact hb
    · rw [hiff]
      constructor
      · exact fun hx => Or.inr hx
      · rintro (hx | hx)
        · exact absurd hx ht
        · exact hx

theorem backupsReady_iff_witness :
    (∀ i ∈ (exPg "RUNNING" []).Integrations, i.IntegrationType = "read_replica" →
      i.DestinationService ≠ none) ∧
    ∃ b, backupsReady (exPg "RUNNING" []) = some b ∧
      (b = true ↔
        ((exPg "RUNNING" []).Type_ ≠ "pg" ∧ (exPg "RUNNING" []).Type_ ≠ "elasticsearch" ∧
            (exPg "RUNNING" []).Type_ ≠ "redis" ∧ (exPg "RUNNING" []).Type_ ≠ "influxdb") ∨
          (∃ i ∈ (exPg "RUNNING" []).Integrations, i.IntegrationType = "read_replica" ∧
            i.DestinationService = some (exPg "RUNNING" []).Name) ∨
          (exPg "RUNNING" []).Backups ≠ []) :=
  ⟨by simp [exPg], backupsReady_iff (exPg "RUNNING" []) (by simp [exPg])⟩

/-- C5: given a successful project listing, `staticIpsReady` returns no error
and is true if and only if static IPs are not enabled in the user config, or no
identifier is requested, or every requested identifier has a listing entry with
that StaticIPAddressID, the target service's name, and state assigned or
available. -/
theorem staticIpsReady_iff (d : ResourceData) (m : Client) (resp : ListStaticIPResponse)
    (hl : m.StaticIPsList d.project = .ok resp) :
    (staticIpsReady d m).2 = none ∧
      ((staticIpsReady d m).1 = true ↔
        staticIpsEnabledInUserConfig d = false ∨
          staticIpsForServiceFromSchema d = [] ∨
          ∀ eip ∈ staticIpsForServiceFromSchema d,
            ∃ sip ∈ resp.StaticIPs, sip.StaticIPAddressID = eip ∧
              sip.ServiceName = d.service_name ∧
              (sip.State = "assigned" ∨ sip.State = "available")) := by
  rw [staticIpsReady_eq_of_ok d m resp hl]
  refine ⟨rfl, ?_⟩
  simp only [Bool.or_eq_true, Bool.not_eq_true', beq_iff_eq, List.length_eq_zero,
    staticIpsReadyLoop_iff, staticIpFound_iff, or_assoc]

theorem staticIpsReady_iff_witness :
    (staticIpsReady (exData ["ip-1"] (some true))
        (exClient (.ok (exPg "RUNNING" [])) (.ok ⟨[exIp "ip-1" "svc" "assigned"]⟩))).1 = true :=
  ((staticIpsReady_iff (exData ["ip-1"] (some true))
      (exClient (.ok (exPg "RUNNING" [])) (.ok ⟨[exIp "ip-1" "svc" "assigned"]⟩))
      ⟨[exIp "ip-1" "svc" "assigned"]⟩ rfl).2).2
    (Or.inr (Or.inr (by
      simp [staticIpsForServiceFromSchema, FlattenToString, Sprint, exData, exIp])))

/-- C6, as stated, fails: with static IPs enabled and the one requested
identifier "ip-1" listed for the target service in state "available" (so not in
state "assigned"), `staticIpsReady` is true. -/
theorem staticIpsReady_available_counterexample :
    staticIpsEnabledInUserConfig (exData ["ip-1"] (some true)) = true ∧
    staticIpsForServiceFromSchema (exData ["ip-1"] (some true)) = ["ip-1"] ∧
    (exClient (.ok (exPg "RUNNING" [])) (.ok ⟨[exIp "ip-1" "svc" "available"]⟩)).StaticIPsList
        (exData ["ip-1"] (some true)).project = .ok ⟨[exIp "ip-1" "svc" "available"]⟩ ∧
    (∃ eip ∈ staticIpsForServiceFromSchema (exData ["ip-1"] (some true)),
      ∃ sip ∈ [exIp "ip-1" "svc" "available"],
        sip.StaticIPAddressID = eip ∧ sip.State ≠ "assigned") ∧
    staticIpsReady (exData ["ip-1"] (some true))
        (exClient (.ok (exPg "RUNNING" [])) (.ok ⟨[exIp "ip-1" "svc" "available"]⟩)) =
      (true, none) := by
  refine ⟨rfl, rfl, rfl, ?_, ?_⟩
  · exact ⟨"ip-1", by simp [staticIpsForServiceFromSchema, FlattenToString, Sprint, exData],
      exIp "ip-1" "svc" "available", by simp, rfl, by simp [exIp]⟩
  · rw [staticIpsReady_eq_of_ok _ _ ⟨[exIp "ip-1" "svc" "available"]⟩ rfl]
    simp [staticIpsForServiceFromSchema, FlattenToString, Sprint, exData, exIp,
      staticIpsEnabledInUserConfig, staticIpsReadyLoop, staticIpFound]

/-- C6, amended: with static IPs enabled, a non-empty set of requested
identifiers and a successful listing, `staticIpsReady` is false whenever for
some requested identifier every listing entry carrying it (none, when it is
missing) is bound to a different service or is in neither the assigned nor the
available state. -/
theorem staticIpsReady_false_of_unmatched (d : ResourceData) (m : Client)
    (resp : ListStaticIPResponse) (hl : m.StaticIPsList d.project = .ok resp)
    (hen : staticIpsEnabledInUserConfig d = true)
    (hne : staticIpsForServiceFromSchema d ≠ [])
    (h : ∃ eip ∈ staticIpsForServiceFromSchema d,
      ∀ sip ∈ resp.StaticIPs, sip.StaticIPAddressID = eip →
        sip.ServiceName ≠ d.service_name ∨
          (sip.State ≠ "assigned" ∧ sip.State ≠ "available")) :
    staticIpsReady d m = (false, none) := by
  have hnot : staticIpsReadyLoop d.service_name resp.StaticIPs
      (staticIpsForServiceFromSchema d) = false := by
    rw [← Bool.not_eq_true, staticIpsReadyLoop_iff]
    intro hall
    obtain ⟨eip, hmem, hbad⟩ := h
    obtain ⟨sip, hsip, hid, hname, hstate⟩ := (staticIpFound_iff _ _ _).1 (hall eip hmem)
    rcases hbad sip hsip hid with hx | ⟨hx, hy⟩
    · exact hx hname
    · rcases hstate with hs | hs
      · exact hx hs
      · exact hy hs
  rw [staticIpsReady_eq_of_ok d m resp hl, hen, hnot]
  simp [hne]

theorem staticIpsReady_false_of_unmatched_witness :
    staticIpsReady (exData ["ip-1", "ip-2"] (some true))
        (exClient (.ok (exPg "RUNNING" []))
          (.ok ⟨[exIp "ip-1" "svc" "assigned", exIp "ip-2" "svc" "creating"]⟩)) =
      (false, none) :=
  staticIpsReady_false_of_unmatched (exData ["ip-1", "ip-2"] (some true))
    (exClient (.ok (exPg "RUNNING" []))
      (.ok ⟨[exIp "ip-1" "svc" "assigned", exIp "ip-2" "svc" "creating"]⟩))
    ⟨[exIp "ip-1" "svc" "assigned", exIp "ip-2" "svc" "creating"]⟩ rfl rfl
    (by simp [staticIpsForServiceFromSchema, FlattenToString, Sprint, exData])
    ⟨"ip-2", by simp [staticIpsForServiceFromSchema, FlattenToString, Sprint, exData],
      by simp [exIp]⟩

/-- C7: given a successful project listing, `staticIpsDisassociated` returns no
error and is true if and only if static IPs are not enabled, or no identifier is
requested, or no listing entry has both a requested StaticIPAddressID and state
assigned; the ServiceName of the entries (and of the resource) never influences
the result. -/
theorem staticIpsDisassociated_iff (d : ResourceData) (m : Client)
    (resp : ListStaticIPResponse) (hl : m.StaticIPsList d.project = .ok resp) :
    (staticIpsDisassociated d m).2 = none ∧
      ((staticIpsDisassociated d m).1 = true ↔
        staticIpsEnabledInUserConfig d = false ∨
          staticIpsForServiceFromSchema d = [] ∨
          ¬ ∃ sip ∈ resp.StaticIPs,
            sip.StaticIPAddressID ∈ staticIpsForServiceFromSchema d ∧
              sip.State = "assigned") ∧
      (∀ (m2 : Client) (resp2 : ListStaticIPResponse) (name : String),
        m2.StaticIPsList d.project = .ok resp2 →
        resp2.StaticIPs.map (fun sip => (sip.StaticIPAddressID, sip.State)) =
          resp.StaticIPs.map (fun sip => (sip.StaticIPAddressID, sip.State)) →
        staticIpsDisassociated { d with service_name := name } m2 =
          staticIpsDisassociated d m) := by
  have key : ∀ (l : List StaticIP) (es : List String),
      staticIpsDisassociatedLoop l es = true ↔
        ¬ ∃ p ∈ l.map (fun sip => (sip.StaticIPAddressID, sip.State)),
          p.1 ∈ es ∧ p.2 = "assigned" := by
    intro l es
    rw [staticIpsDisassociatedLoop_iff]
    simp only [← Bool.not_eq_true, staticIpAssigned_iff, List.mem_map]
    constructor
    · rintro hall ⟨p, ⟨sip, hsip, rfl⟩, hmem, hst⟩
      exact hall _ hmem ⟨sip, hsip, rfl, hst⟩
    · rintro hno eip hmem ⟨sip, hsip, hid, hst⟩
      exact hno ⟨_, ⟨sip, hsip, rfl⟩, by rw [hid]; exact hmem, hst⟩
  refine ⟨?_, ?_, ?_⟩
  · rw [staticIpsDisassociated_eq_of_ok d m resp hl]
  · rw [staticIpsDisassociated_eq_of_ok d m resp hl]
    simp only [Bool.or_eq_true, Bool.not_eq_true', beq_iff_eq, List.length_eq_zero, key,
      or_assoc, List.mem_map]
    refine or_congr Iff.rfl (or_congr Iff.rfl (not_congr ?_))
    constructor
    · rintro ⟨p, ⟨sip, hsip, rfl⟩, hmem, hst⟩
      exact ⟨sip, hsip, hmem, hst⟩
    · rintro ⟨sip, hsip, hmem, hst⟩
      exact ⟨_, ⟨sip, hsip, rfl⟩, hmem, hst⟩
  · intro m2 resp2 name hl2 hmap
    rw [staticIpsDisassociated_eq_of_ok d m resp hl,
      staticIpsDisassociated_eq_of_ok { d with service_name := name } m2 resp2 hl2]
    have hloop : staticIpsDisassociatedLoop resp2.StaticIPs (staticIpsForServiceFromSchema d) =
        staticIpsDisassociatedLoop resp.StaticIPs (staticIpsForServiceFromSchema d) := by
      rw [Bool.eq_iff_iff, key, key, hmap]
    simp only [staticIpsEnabledInUserConfig, staticIpsForServiceFromSchema] at hloop ⊢
    rw [hloop]

theorem staticIpsDisassociated_iff_witness :
    (staticIpsDisassociated (exData ["ip-1"] (some true))
        (exClient (.error (.api 404 "gone")) (.ok ⟨[exIp "ip-1" "" "created"]⟩))).1 = true :=
  ((staticIpsDisassociated_iff (exData ["ip-1"] (some true))
      (exClient (.error (.api 404 "gone")) (.ok ⟨[exIp "ip-1" "" "created"]⟩))
      ⟨[exIp "ip-1" "" "created"]⟩ rfl).2.1).2
    (Or.inr (Or.inr (by simp [exIp])))

/-- C4: with the TCP dial as an oracle, `grafanaReady` is false exactly when the
service type is grafana, the user config has no ip_filter, an empty ip_filter or
exactly the filter ["0.0.0.0/0"], the service has a component with route public
and usage primary, and the dial to the address of the last such component
fails. It panics exactly when the type is grafana and ip_filter is present but
not a list, and is true in every other case; a one-element ip_filter other than
"0.0.0.0/0" gives true whatever the dial returns. -/
theorem grafanaReady_spec (dial : String → Bool) (service : Service) :
    (grafanaReady dial service = some false ↔
      service.Type_ = "grafana" ∧
        (service.UserConfig.lookup "ip_filter" = none ∨
          service.UserConfig.lookup "ip_filter" = some (.slice []) ∨
          service.UserConfig.lookup "ip_filter" = some (.slice [.str "0.0.0.0/0"])) ∧
        ∃ pre c post, service.Components = pre ++ c :: post ∧
          (c.Route = "public" ∧ c.Usage = "primary") ∧
          (∀ x ∈ post, ¬ (x.Route = "public" ∧ x.Usage = "primary")) ∧
          dial (c.Host ++ ":" ++ Itoa c.Port) = false) ∧
    (grafanaReady dial service = none ↔
      service.Type_ = "grafana" ∧
        ∃ v, service.UserConfig.lookup "ip_filter" = some v ∧ ∀ f, v ≠ .slice f) ∧
    (grafanaReady dial service ≠ some false → grafanaReady dial service ≠ none →
      grafanaReady dial service = some true) ∧
    (∀ x, x ≠ .str "0.0.0.0/0" → service.UserConfig.lookup "ip_filter" = some (.slice [x]) →
      ∀ dial2, grafanaReady dial2 service = some true) := by
  refine ⟨?_, ?_, ?_, ?_⟩
  · rw [← grafanaProbe_eq_false_iff]
    by_cases ht : service.Type_ = "grafana"
    · cases hL : service.UserConfig.lookup "ip_filter" with
      | none => simp [grafanaReady, ht, hL]
      | some v =>
        cases v with
        | slice f =>
          match f with
          | [] => simp [grafanaReady, ht, hL]
          | [x] =>
            by_cases hx : x.neString "0.0.0.0/0" = true
            · have hne : x ≠ .str "0.0.0.0/0" := by
                intro he
                rw [(Iface.neString_eq_false_iff x _).2 he] at hx
                exact Bool.false_ne_true hx
              simp [grafanaReady, ht, hL, hx, hne]
            · have he : x = .str "0.0.0.0/0" :=
                (Iface.neString_eq_false_iff x _).1 (by simpa using hx)
              subst he
              simp [grafanaReady, ht, hL, Iface.neString]
          | x :: y :: rest => simp [grafanaReady, ht, hL]
        | null => simp [grafanaReady, ht, hL]
        | bool b => simp [grafanaReady, ht, hL]
        | num n => simp [grafanaReady, ht, hL]
        | str t => simp [grafanaReady, ht, hL]
        | dict kv => simp [grafanaReady, ht, hL]
    · simp [grafanaReady, ht]
  · by_cases ht : service.Type_ = "grafana"
    · cases hL : service.UserConfig.lookup "ip_filter" with
      | none => simp [grafanaReady, ht, hL]
      | some v =>
        cases v with
        | slice f =>
          match f with
          | [] => simp [grafanaReady, ht, hL]
          | [x] =>
            by_cases hx : x.neString "0.0.0.0/0" = true <;> simp [grafanaReady, ht, hL, hx]
          | x :: y :: rest => simp [grafanaReady, ht, hL]
        | null => simp [grafanaReady, ht, hL]
        | bool b => simp [grafanaReady, ht, hL]
        | num n => simp [grafanaReady, ht, hL]
        | str t => simp [grafanaReady, ht, hL]
        | dict kv => simp [grafanaReady, ht, hL]
    · simp [grafanaReady, ht]
  · intro h1 h2
    cases hr : grafanaReady dial service with
    | none => exact absurd hr h2
    | some b =>
      cases b with
      | false => exact absurd hr h1
      | true => rfl
  · intro x hx hL dial2
    have hn : x.neString "0.0.0.0/0" = true := by
      cases hb : x.neString "0.0.0.0/0" with
      | true => rfl
      | false => exact absurd ((Iface.neString_eq_false_iff x _).1 hb) hx
    by_cases ht : service.Type_ = "grafana"
    · simp [grafanaReady, ht, hL, hn]
    · simp [grafanaReady, ht]

/-! ## Refresh steps of the service waiters -/

/-- C1: in the creation refresh step (isUpdate = false), for a successfully
fetched service and a static-IP check that returned no error: a state other than
RUNNING is returned unchanged as the label; in state RUNNING the label is
WAITING_FOR_SERVICES as soon as backupsReady, grafanaReady or staticIpsReady is
false and RUNNING when all three hold; so a returned label is RUNNING if and only
if the state is RUNNING and the three readiness facts hold (the step panics
exactly when a readiness predicate it evaluates panics). For the observations
REBUILDING, REBUILDING, RUNNING without backups, RUNNING with backups of a
backup-requiring service only the fourth label is RUNNING. -/
theorem createRefresh_label (d : ResourceData) (m : Client) (dial : String → Bool)
    (service : Service) (ips : Bool) (r : Refresh Service)
    (hr : r = waitForCreateOrUpdateRefresh d m dial false)
    (hf : m.ServicesGet d.project d.service_name = .ok service)
    (hs : staticIpsReady d m = (ips, none)) :
    (service.State ≠ "RUNNING" → r = .returned (some service) service.State none) ∧
    (service.State = "RUNNING" → backupsReady service = some false →
      r = .returned (some service) "WAITING_FOR_SERVICES" none) ∧
    (service.State = "RUNNING" → backupsReady service = some true →
      grafanaReady dial service = some false →
      r = .returned (some service) "WAITING_FOR_SERVICES" none) ∧
    (service.State = "RUNNING" → backupsReady service = some true →
      grafanaReady dial service = some true → ips = false →
      r = .returned (some service) "WAITING_FOR_SERVICES" none) ∧
    (service.State = "RUNNING" → backupsReady service = some true →
      grafanaReady dial service = some true → ips = true →
      r = .returned (some service) "RUNNING" none) ∧
    (r = .panic ↔
      service.State = "RUNNING" ∧
        (backupsReady service = none ∨
          (backupsReady service = some true ∧ grafanaReady dial service = none))) ∧
    (∀ label, r.label = some label →
      (label = "RUNNING" ↔
        service.State = "RUNNING" ∧ backupsReady service = some true ∧
          grafanaReady dial service = some true ∧ ips = true)) ∧
    (∀ (dial2 : String → Bool) (b : Backup) (bs : List Backup),
      [exPg "REBUILDING" [], exPg "REBUILDING" [], exPg "RUNNING" [],
          exPg "RUNNING" (b :: bs)].map
        (fun s =>
          (waitForCreateOrUpdateRefresh (exData [] none) (exClient (.ok s) (.ok ⟨[]⟩)) dial2
            false).label) =
        [some "REBUILDING", some "REBUILDING", some "WAITING_FOR_SERVICES", some "RUNNING"]) := by
  subst hr
  rw [createRefresh_of_ok d m dial service hf, hs]
  refine ⟨?_, ?_, ?_, ?_, ?_, ?_, ?_, ?_⟩
  · intro hst
    simp [aivenTargetState, hst]
  · intro hst hB
    simp [aivenTargetState, aivenServicesStartingState, hst, hB]
  · intro hst hB hG
    simp [aivenTargetState, aivenServicesStartingState, hst, hB, hG]
  · intro hst hB hG hi
    simp [aivenTargetState, aivenServicesStartingState, hst, hB, hG, hi]
  · intro hst hB hG hi
    simp [aivenTargetState, aivenServicesStartingState, hst, hB, hG, hi]
  · by_cases hst : service.State = "RUNNING"
    · rcases option_bool_cases (backupsReady service) with hB | hB | hB <;>
        rcases option_bool_cases (grafanaReady dial service) with hG | hG | hG <;>
        cases ips <;>
        simp [aivenTargetState, aivenServicesStartingState, hst, hB, hG]
    · simp [aivenTargetState, hst]
  · intro label
    by_cases hst : service.State = "RUNNING"
    · rcases option_bool_cases (backupsReady service) with hB | hB | hB <;>
        rcases option_bool_cases (grafanaReady dial service) with hG | hG | hG <;>
        cases ips <;>
        simp [aivenTargetState, aivenServicesStartingState, hst, hB, hG, Refresh.label] <;>
        (intro h; subst h; decide)
    · simp only [aivenTargetState, ne_eq, hst, not_false_eq_true, if_true, Refresh.label,
        Option.some.injEq, false_and, iff_false]
      intro h
      subst h
      exact hst
  · intro dial2 b bs
    simp [waitForCreateOrUpdateRefresh, exClient, exPg, exData, aivenTargetState,
      aivenServicesStartingState, backupsReady, backupsReadyLoop, grafanaReady, staticIpsReady,
      staticIpsEnabledInUserConfig, Refresh.label]

theorem createRefresh_label_witness :
    (waitForCreateOrUpdateRefresh (exData ["ip-1"] (some true))
        (exClient (.ok (exPg "RUNNING" [⟨"2021-06-01T00:00:00Z", 1024⟩]))
          (.ok ⟨[exIp "ip-1" "svc" "assigned"]⟩))
        (fun _ => false) false).label = some "RUNNING" := by
  have h := createRefresh_label (exData ["ip-1"] (some true))
    (exClient (.ok (exPg "RUNNING" [⟨"2021-06-01T00:00:00Z", 1024⟩]))
      (.ok ⟨[exIp "ip-1" "svc" "assigned"]⟩))
    (fun _ => false) (exPg "RUNNING" [⟨"2021-06-01T00:00:00Z", 1024⟩]) true _ rfl rfl
    (by
      rw [staticIpsReady_eq_of_ok _ _ ⟨[exIp "ip-1" "svc" "assigned"]⟩ rfl]
      simp [staticIpsForServiceFromSchema, FlattenToString, Sprint, exData, exIp,
        staticIpsEnabledInUserConfig, staticIpsReadyLoop, staticIpFound])
  rw [h.2.2.2.2.1 rfl (by simp [backupsReady, backupsReadyLoop, exPg])
    (by simp [grafanaReady, exPg]) rfl]
  rfl

/-- C2: in the update refresh step (isUpdate = true), for a fetched service the
label does not depend on service.State: a service differing only in State gets
the same label. The label is RUNNING when backupsReady, grafanaReady and
staticIpsReady all hold and WAITING_FOR_SERVICES when one of them is false, and a
returned label is always in the configured pending or target set. -/
theorem updateRefresh_label (d : ResourceData) (m : Client) (dial : String → Bool)
    (service : Service) (r : Refresh Service)
    (hr : r = waitForCreateOrUpdateRefresh d m dial true)
    (hf : m.ServicesGet d.project d.service_name = .ok service) :
    (∀ (st : String) (m2 : Client),
      m2.ServicesGet d.project d.service_name = .ok { service with State := st } →
      m2.StaticIPsList = m.StaticIPsList →
      (waitForCreateOrUpdateRefresh d m2 dial true).label = r.label) ∧
    (backupsReady service = some true → grafanaReady dial service = some true →
      staticIpsReady d m = (true, none) → r = .returned (some service) "RUNNING" none) ∧
    (backupsReady service = some false →
      r = .returned (some service) "WAITING_FOR_SERVICES" none) ∧
    (backupsReady service = some true → grafanaReady dial service = some false →
      r = .returned (some service) "WAITING_FOR_SERVICES" none) ∧
    (backupsReady service = some true → grafanaReady dial service = some true →
      staticIpsReady d m = (false, none) →
      r = .returned (some service) "WAITING_FOR_SERVICES" none) ∧
    (∀ label, r.label = some label →
      (label = "RUNNING" ↔
        backupsReady service = some true ∧ grafanaReady dial service = some true ∧
          staticIpsReady d m = (true, none)) ∧
      (label ≠ "RUNNING" → label = "WAITING_FOR_SERVICES") ∧
      label ∈ createOrUpdatePending ++ createOrUpdateTarget) := by
  subst hr
  refine ⟨?_, ?_⟩
  · intro st m2 hf2 hl
    rw [updateRefresh_of_ok d m2 dial _ hf2, updateRefresh_of_ok d m dial service hf,
      backupsReady_state, grafanaReady_state, staticIpsReady_congr d m m2 hl]
    rcases option_bool_cases (backupsReady service) with hB | hB | hB <;>
      rcases option_bool_cases (grafanaReady dial service) with hG | hG | hG <;>
      simp only [hB, hG, Refresh.label]
    all_goals
      rcases hS : staticIpsReady d m with ⟨b, e⟩
      cases b <;> cases e <;> simp [Refresh.label]
  · rw [updateRefresh_of_ok d m dial service hf]
    refine ⟨?_, ?_, ?_, ?_, ?_⟩
    · intro hB hG hS
      simp [hB, hG, hS, aivenTargetState]
    · intro hB
      simp [hB, aivenServicesStartingState]
    · intro hB hG
      simp [hB, hG, aivenServicesStartingState]
    · intro hB hG hS
      simp [hB, hG, hS, aivenServicesStartingState]
    · intro label
      rcases option_bool_cases (backupsReady service) with hB | hB | hB <;>
        rcases option_bool_cases (grafanaReady dial service) with hG | hG | hG <;>
        simp only [hB, hG, Refresh.label]
      all_goals first
        | (intro h
           cases h <;>
             simp [aivenServicesStartingState, aivenTargetState, createOrUpdatePending,
               createOrUpdateTarget])
        | (rcases hS : staticIpsReady d m with ⟨b, e⟩
           cases b <;> cases e <;> simp only [Refresh.label] <;> intro h <;> cases h <;>
             simp [aivenServicesStartingState, aivenTargetState, createOrUpdatePending,
               createOrUpdateTarget])

theorem updateRefresh_label_witness :
    (waitForCreateOrUpdateRefresh (exData [] none)
        (exClient (.ok (exPg "REBUILDING" [⟨"2021-06-01T00:00:00Z", 1024⟩])) (.ok ⟨[]⟩))
        (fun _ => false) true).label = some "RUNNING" := by
  have h := updateRefresh_label (exData [] none)
    (exClient (.ok (exPg "REBUILDING" [⟨"2021-06-01T00:00:00Z", 1024⟩])) (.ok ⟨[]⟩))
    (fun _ => false) (exPg "REBUILDING" [⟨"2021-06-01T00:00:00Z", 1024⟩]) _ rfl rfl
  rw [h.2.1 (by simp [backupsReady, backupsReadyLoop, exPg]) (by simp [grafanaReady, exPg])
    (by simp [staticIpsReady, staticIpsEnabledInUserConfig, exData])]
  rfl

/-! ## Deletion waiters -/

/-- C8: the deletion refresh step evaluated where the claim fails: the service
is still fetched successfully (no error at all) and no static IPs are enabled,
and the step yields the target label "deleted" instead of "deleting". -/
theorem waitForDeletionRefresh_fetched_deleted :
    (exClient (.ok (exPg "RUNNING" [])) (.ok ⟨[]⟩)).ServicesGet (exData [] none).project
        (exData [] none).service_name = .ok (exPg "RUNNING" []) ∧
    waitForDeletionRefresh (exData [] none) (exClient (.ok (exPg "RUNNING" [])) (.ok ⟨[]⟩)) =
      .returned (some ()) "deleted" none ∧
    "deleted" ∈ deletionTarget := by
  refine ⟨rfl, ?_, by simp [deletionTarget]⟩
  simp [waitForDeletionRefresh, waitForDeletionStaticIps, staticIpsDisassociated,
    staticIpsEnabledInUserConfig, exClient, exData]

/-- C9, as stated, fails for the service deletion waiter: the fetch reports
not-found, the requested static IP "ip-1" is still listed as assigned, and the
step yields the pending label "deleting", not the target label. -/
theorem waitForDeletionRefresh_notFound_counterexample :
    IsNotFound (.api 404 "service does not exist") = true ∧
    (exClient (.error (.api 404 "service does not exist"))
        (.ok ⟨[exIp "ip-1" "" "assigned"]⟩)).ServicesGet (exData ["ip-1"] (some true)).project
        (exData ["ip-1"] (some true)).service_name =
      .error (.api 404 "service does not exist") ∧
    waitForDeletionRefresh (exData ["ip-1"] (some true))
        (exClient (.error (.api 404 "service does not exist"))
          (.ok ⟨[exIp "ip-1" "" "assigned"]⟩)) =
      .returned (some ()) "deleting" none ∧
    "deleting" ∉ deletionTarget := by
  refine ⟨rfl, rfl, ?_, by simp [deletionTarget]⟩
  have hd : staticIpsDisassociated (exData ["ip-1"] (some true))
      (exClient (.error (.api 404 "service does not exist"))
        (.ok ⟨[exIp "ip-1" "" "assigned"]⟩)) = (false, none) := by
    rw [staticIpsDisassociated_eq_of_ok _ _ ⟨[exIp "ip-1" "" "assigned"]⟩ rfl]
    simp [staticIpsForServiceFromSchema, FlattenToString, Sprint, exData, exIp,
      staticIpsEnabledInUserConfig, staticIpsDisassociatedLoop, staticIpAssigned]
  rw [waitForDeletionRefresh_of_notFound _ _ (.api 404 "service does not exist") rfl rfl]
  unfold waitForDeletionStaticIps
  rw [hd]

/-- C9, amended: when the remote call of the refresh step reports not-found,
the Kafka topic and database deletion steps yield their target label DELETED on
that same poll; the service deletion step yields its target label "deleted" on
that same poll when staticIpsDisassociated holds, and the pending label
"deleting" when it does not. -/
theorem deletion_notFound_label (client : Client) (err : GoError)
    (hnf : IsNotFound err = true) :
    (∀ w : KafkaTopicDeleteWaiter,
      client.KafkaTopicsDelete w.ProjectName w.ServiceName w.TopicName = some err →
      w.RefreshFunc client = .returned (some KafkaTopic.empty) "DELETED" none ∧
        "DELETED" ∈ KafkaTopicDeleteWaiter.Target) ∧
    (∀ w : DatabaseDeleteWaiter,
      client.DatabasesDelete w.ProjectName w.ServiceName w.Database = some err →
      w.RefreshFunc client = .returned (some Database.empty) "DELETED" none ∧
        "DELETED" ∈ DatabaseDeleteWaiter.Target) ∧
    (∀ d : ResourceData, client.ServicesGet d.project d.service_name = .error err →
      (staticIpsDisassociated d client = (true, none) →
        waitForDeletionRefresh d client = .returned (some ()) "deleted" none) ∧
      (staticIpsDisassociated d client = (false, none) →
        waitForDeletionRefresh d client = .returned (some ()) "deleting" none) ∧
      "deleted" ∈ deletionTarget ∧ "deleting" ∈ deletionPending) := by
  refine ⟨?_, ?_, ?_⟩
  · intro w hw
    exact ⟨by simp [KafkaTopicDeleteWaiter.RefreshFunc, hw, hnf],
      by simp [KafkaTopicDeleteWaiter.Target]⟩
  · intro w hw
    exact ⟨by simp [DatabaseDeleteWaiter.RefreshFunc, hw, hnf],
      by simp [DatabaseDeleteWaiter.Target]⟩
  · intro d hd
    refine ⟨?_, ?_, by simp [deletionTarget], by simp [deletionPending]⟩
    · intro hs
      simp [waitForDeletionRefresh, waitForDeletionStaticIps, hd, hnf, hs]
    · intro hs
      simp [waitForDeletionRefresh, waitForDeletionStaticIps, hd, hnf, hs]

theorem deletion_notFound_label_witness :
    (⟨"proj", "svc", "db"⟩ : DatabaseDeleteWaiter).RefreshFunc
        (exDeleteClient (some (.api 404 "database not found"))) =
      .returned (some Database.empty) "DELETED" none :=
  ((deletion_notFound_label (exDeleteClient (some (.api 404 "database not found")))
      (.api 404 "database not found") rfl).2.1 ⟨"proj", "svc", "db"⟩ rfl).1

/-- C10: the database deletion refresh step returns label DELETED with an empty
Database snapshot when the delete call succeeds or reports not-found, and label
REMOVING with a nil snapshot and a nil error for any other failure; the returned
label is always in the waiter's pending set {REMOVING} or target set {DELETED}. -/
theorem databaseDelete_refresh (w : DatabaseDeleteWaiter) (client : Client) :
    (client.DatabasesDelete w.ProjectName w.ServiceName w.Database = none →
      w.RefreshFunc client = .returned (some Database.empty) "DELETED" none) ∧
    (∀ err, client.DatabasesDelete w.ProjectName w.ServiceName w.Database = some err →
      IsNotFound err = true →
      w.RefreshFunc client = .returned (some Database.empty) "DELETED" none) ∧
    (∀ err, client.DatabasesDelete w.ProjectName w.ServiceName w.Database = some err →
      IsNotFound err = false → w.RefreshFunc client = .returned none "REMOVING" none) ∧
    (∃ label, (w.RefreshFunc client).label = some label ∧
      label ∈ DatabaseDeleteWaiter.Pending ++ DatabaseDeleteWaiter.Target) ∧
    DatabaseDeleteWaiter.Pending = ["REMOVING"] ∧ DatabaseDeleteWaiter.Target = ["DELETED"] := by
  refine ⟨?_, ?_, ?_, ?_, rfl, rfl⟩
  · intro h
    simp [DatabaseDeleteWaiter.RefreshFunc, h]
  · intro err h hnf
    simp [DatabaseDeleteWaiter.RefreshFunc, h, hnf]
  · intro err h hnf
    simp [DatabaseDeleteWaiter.RefreshFunc, h, hnf]
  · cases h : client.DatabasesDelete w.ProjectName w.ServiceName w.Database with
    | none =>
      exact ⟨"DELETED", by simp [DatabaseDeleteWaiter.RefreshFunc, h, Refresh.label],
        by simp [DatabaseDeleteWaiter.Pending, DatabaseDeleteWaiter.Target]⟩
    | some err =>
      cases hnf : IsNotFound err with
      | true =>
        exact ⟨"DELETED", by simp [DatabaseDeleteWaiter.RefreshFunc, h, hnf, Refresh.label],
          by simp [DatabaseDeleteWaiter.Pending, DatabaseDeleteWaiter.Target]⟩
      | false =>
        exact ⟨"REMOVING", by simp [DatabaseDeleteWaiter.RefreshFunc, h, hnf, Refresh.label],
          by simp [DatabaseDeleteWaiter.Pending, DatabaseDeleteWaiter.Target]⟩

/-! ## Error propagation of the refresh steps -/

/-- C11, as stated, fails for the database deletion waiter: the delete call
fails with HTTP status 500, which is not a not-found error, and the refresh
step returns the label REMOVING with a nil error. -/
theorem databaseDelete_swallows_counterexample :
    (exDeleteClient (some (.api 500 "internal server error"))).DatabasesDelete "proj" "svc"
        "db" = some (.api 500 "internal server error") ∧
    IsNotFound (.api 500 "internal server error") = false ∧
    (⟨"proj", "svc", "db"⟩ : DatabaseDeleteWaiter).RefreshFunc
        (exDeleteClient (some (.api 500 "internal server error"))) =
      .returned none "REMOVING" none := by
  refine ⟨rfl, rfl, ?_⟩
  simp [DatabaseDeleteWaiter.RefreshFunc, exDeleteClient, IsNotFound]

/-- C11, amended: when the remote call fails with an error other than
not-found, the refresh steps of the service create/update waiter and of the
service deletion waiter return a non-nil error (wrapping that failure), a nil
result and no status label; the refresh steps of the Kafka topic and database
deletion waiters return the pending label REMOVING with a nil error. -/
theorem refresh_on_remote_failure (err : GoError) (hnf : IsNotFound err = false) :
    (∀ (d : ResourceData) (m : Client) (dial : String → Bool) (isUpdate : Bool),
      m.ServicesGet d.project d.service_name = .error err →
      waitForCreateOrUpdateRefresh d m dial isUpdate =
          .returned none "" (some (.wrap "unable to fetch service from api: " err)) ∧
        (waitForCreateOrUpdateRefresh d m dial isUpdate).label = none) ∧
    (∀ (d : ResourceData) (m : Client),
      m.ServicesGet d.project d.service_name = .error err →
      waitForDeletionRefresh d m =
          .returned none "" (some (.wrap "unable to check if service is gone: " err)) ∧
        (waitForDeletionRefresh d m).label = none) ∧
    (∀ (w : KafkaTopicDeleteWaiter) (client : Client),
      client.KafkaTopicsDelete w.ProjectName w.ServiceName w.TopicName = some err →
      w.RefreshFunc client = .returned none "REMOVING" none) ∧
    (∀ (w : DatabaseDeleteWaiter) (client : Client),
      client.DatabasesDelete w.ProjectName w.ServiceName w.Database = some err →
      w.RefreshFunc client = .returned none "REMOVING" none) := by
  refine ⟨?_, ?_, ?_, ?_⟩
  · intro d m dial isUpdate hf
    simp [waitForCreateOrUpdateRefresh, hf, Refresh.label]
  · intro d m hf
    simp [waitForDeletionRefresh, hf, hnf, Refresh.label]
  · intro w client hw
    simp [KafkaTopicDeleteWaiter.RefreshFunc, hw, hnf]
  · intro w client hw
    simp [DatabaseDeleteWaiter.RefreshFunc, hw, hnf]

theorem refresh_on_remote_failure_witness :
    waitForDeletionRefresh (exData [] none)
        (exClient (.error (.api 503 "service unavailable")) (.ok ⟨[]⟩)) =
      .returned none ""
        (some (.wrap "unable to check if service is gone: " (.api 503 "service unavailable"))) :=
  ((refresh_on_remote_failure (.api 503 "service unavailable") rfl).2.1 (exData [] none)
    (exClient (.error (.api 503 "service unavailable")) (.ok ⟨[]⟩)) rfl).1

/-! ## Static IP creation waiter -/

theorem staticIPWaitLoop_of_first (id : String) (pre post : List StaticIP) (sip : StaticIP)
    (hsip : sip.StaticIPAddressID = id) (hpre : ∀ x ∈ pre, x.StaticIPAddressID ≠ id) :
    staticIPWaitLoop id (pre ++ sip :: post) = .returned (some ()) sip.State none := by
  induction pre with
  | nil => simp [staticIPWaitLoop, hsip]
  | cons x rest ih =>
    have hx : x.StaticIPAddressID ≠ id := hpre x (List.mem_cons_self _ _)
    simp only [List.cons_append, staticIPWaitLoop, beq_iff_eq, hx, if_false]
    exact ih (fun y hy => hpre y (List.mem_cons_of_mem _ hy))

theorem staticIPWaitLoop_of_none (id : String) (l : List StaticIP)
    (h : ∀ x ∈ l, x.StaticIPAddressID ≠ id) :
    staticIPWaitLoop id l = .returned (some ()) "waiting" none := by
  induction l with
  | nil => rfl
  | cons x rest ih =>
    have hx : x.StaticIPAddressID ≠ id := h x (List.mem_cons_self _ _)
    simp only [staticIPWaitLoop, beq_iff_eq, hx, if_false]
    exact ih (fun y hy => h y (List.mem_cons_of_mem _ hy))

theorem staticIPWaitLoop_label (id : String) (l : List StaticIP) :
    (staticIPWaitLoop id l).label =
      some (match l.find? (fun sip => sip.StaticIPAddressID == id) with
        | some sip => sip.State
        | none => "waiting") := by
  induction l with
  | nil => rfl
  | cons x rest ih =>
    by_cases hx : x.StaticIPAddressID = id
    · simp [staticIPWaitLoop, hx, Refresh.label]
    · simp only [staticIPWaitLoop, beq_iff_eq, hx, if_false]
      rw [ih, List.find?_cons_of_neg _ (by simpa using hx)]

/-- C12: in the static-IP creation refresh step, for every successful project
listing the label is the State of the first listing entry whose
StaticIPAddressID equals the awaited identifier and "waiting" when no entry
matches, returned without error; a listing failure yields an error and no
label. The pending set is {"creating", "waiting"} and the target set is
{"created"}. -/
theorem resourceStaticIPWaitRefresh_spec (project id : String) (m : Client) :
    (∀ r, m.StaticIPsList project = .ok r →
      (∀ pre sip post, r.StaticIPs = pre ++ sip :: post → sip.StaticIPAddressID = id →
        (∀ x ∈ pre, x.StaticIPAddressID ≠ id) →
        resourceStaticIPWaitRefresh project id m = .returned (some ()) sip.State none) ∧
      ((∀ x ∈ r.StaticIPs, x.StaticIPAddressID ≠ id) →
        resourceStaticIPWaitRefresh project id m = .returned (some ()) "waiting" none) ∧
      (resourceStaticIPWaitRefresh project id m).label =
        some (match r.StaticIPs.find? (fun sip => sip.StaticIPAddressID == id) with
          | some sip => sip.State
          | none => "waiting")) ∧
    (∀ err, m.StaticIPsList project = .error err →
      resourceStaticIPWaitRefresh project id m =
          .returned none "" (some (.wrap "unable to fetch static ips: " err)) ∧
        (resourceStaticIPWaitRefresh project id m).label = none) ∧
    staticIPWaitPending = ["creating", "waiting"] ∧ staticIPWaitTarget = ["created"] := by
  refine ⟨?_, ?_, rfl, rfl⟩
  · intro r hr
    refine ⟨?_, ?_, ?_⟩
    · intro pre sip post hl hsip hpre
      simp only [resourceStaticIPWaitRefresh, hr, hl]
      exact staticIPWaitLoop_of_first id pre post sip hsip hpre
    · intro hnone
      simp only [resourceStaticIPWaitRefresh, hr]
      exact staticIPWaitLoop_of_none id _ hnone
    · simp only [resourceStaticIPWaitRefresh, hr]
      exact staticIPWaitLoop_label id _
  · intro err he
    simp [resourceStaticIPWaitRefresh, he, Refresh.label]

/-! ## Topic cache: the removal loop -/

theorem queueRemoveLoop_skip (name : String) (k1 k2 : Nat) :
    ∀ (i : Nat) (arr : List String) (m : Nat),
      (∀ j, i ≤ j → j < i + k1 → arr[j]? ≠ some name) →
      queueRemoveLoop name i (k1 + k2) arr m = queueRemoveLoop name (i + k1) k2 arr m := by
  induction k1 with
  | zero => intro i arr m _; simp
  | succ k ih =>
    intro i arr m h
    have hi : arr[i]? ≠ some name := h i (Nat.le_refl _) (by omega)
    have hrest : ∀ j, i + 1 ≤ j → j < i + 1 + k → arr[j]? ≠ some name :=
      fun j h1 h2 => h j (by omega) (by omega)
    have hk : k + 1 + k2 = (k + k2) + 1 := by omega
    rw [hk, queueRemoveLoop, if_neg hi, ih (i + 1) arr m hrest]
    congr 1
    omega

theorem queueRemoveLoop_none_found (name : String) (k i : Nat) (arr : List String) (m : Nat)
    (h : ∀ j, i ≤ j → j < i + k → arr[j]? ≠ some name) :
    queueRemoveLoop name i k arr m = some (arr, m) := by
  have hs := queueRemoveLoop_skip name k 0 i arr m h
  simpa [queueRemoveLoop] using hs

theorem queueRemove_of_not_mem (name : String) (q : List String) (h : name ∉ q) :
    queueRemove name q = some q := by
  have hl : queueRemoveLoop name 0 q.length q q.length = some (q, q.length) :=
    queueRemoveLoop_none_found name q.length 0 q q.length
      (fun j _ _ hj => h (List.getElem?_mem hj))
  simp [queueRemove, hl]

theorem queueRemove_of_split (name : String) (pre post : List String)
    (hpre : name ∉ pre) (hpost : name ∉ post) :
    queueRemove name (pre ++ name :: post) = some (pre ++ post) := by
  have hlen : (pre ++ name :: post).length = pre.length + (post.length + 1) := by simp
  have hskip : queueRemoveLoop name 0 (pre.length + (post.length + 1)) (pre ++ name :: post)
        (pre.length + (post.length + 1)) =
      queueRemoveLoop name (0 + pre.length) (post.length + 1) (pre ++ name :: post)
        (pre.length + (post.length + 1)) := by
    apply queueRemoveLoop_skip
    intro j _ hj hget
    rw [List.getElem?_append_left (by omega)] at hget
    exact hpre (List.getElem?_mem hget)
  have hat : (pre ++ name :: post)[0 + pre.length]? = some name := by
    rw [Nat.zero_add, List.getElem?_append_right (Nat.le_refl _)]
    simp
  have hdrop1 : List.drop (pre.length + 1) (pre ++ name :: post) = post := by
    rw [List.drop_append 1]
    rfl
  have htake : List.take pre.length (pre ++ name :: post) = pre := List.take_left _ _
  have hshift : queueRemoveAt (pre ++ name :: post) (pre.length + (post.length + 1))
        (0 + pre.length) =
      some (pre ++ post ++ List.drop post.length (name :: post), pre.length + post.length) := by
    have h1 : pre.length + (post.length + 1) - (pre.length + 1) = post.length := by omega
    have h2 : pre.length + (post.length + 1) - 1 = pre.length + post.length := by omega
    unfold queueRemoveAt
    rw [Nat.zero_add, if_pos (by omega), hdrop1, htake, h1, h2, List.take_length,
      List.drop_append post.length]
  have hrest : queueRemoveLoop name (0 + pre.length + 1) post.length
        (pre ++ post ++ List.drop post.length (name :: post)) (pre.length + post.length) =
      some (pre ++ post ++ List.drop post.length (name :: post), pre.length + post.length) := by
    apply queueRemoveLoop_none_found
    intro j hj1 hj2 hget
    rw [List.append_assoc, List.getElem?_append_right (by omega)] at hget
    have hmem := List.getElem?_mem hget
    rcases List.mem_append.1 hmem with hm | hm
    · exact hpost hm
    · cases post with
      | nil => simp at hj2; omega
      | cons p ps =>
        rw [List.length_cons, List.drop_succ_cons] at hm
        exact hpost (List.mem_of_mem_drop hm)
  unfold queueRemove
  rw [hlen, hskip, queueRemoveLoop, if_pos hat, hshift]
  simp only
  rw [hrest]
  simp only [Option.some.injEq]
  have h3 : pre.length + post.length = (pre ++ post).length := by simp
  rw [h3, List.take_left]

theorem queueRemove_of_nodup (name : String) (q : List String) (h : q.Nodup) :
    queueRemove name q = some (q.filter (fun x => x != name)) := by
  by_cases hmem : name ∈ q
  · obtain ⟨pre, post, rfl⟩ := List.append_of_mem hmem
    have hnd := List.nodup_append.1 h
    have hpost : name ∉ post := (List.nodup_cons.1 hnd.2.1).1
    have hpre : name ∉ pre := fun hx => hnd.2.2 hx (List.mem_cons_self _ _)
    rw [queueRemove_of_split name pre post hpre hpost]
    have f1 : pre.filter (fun x => x != name) = pre :=
      List.filter_eq_self.2 (fun a ha => by
        have : a ≠ name := fun e => hpre (e ▸ ha)
        simpa using this)
    have f2 : post.filter (fun x => x != name) = post :=
      List.filter_eq_self.2 (fun a ha => by
        have : a ≠ name := fun e => hpost (e ▸ ha)
        simpa using this)
    rw [List.filter_append, List.filter_cons_of_neg (by simp), f1, f2]
  · rw [queueRemove_of_not_mem name q hmem]
    have f : q.filter (fun x => x != name) = q :=
      List.filter_eq_self.2 (fun a ha => by
        have : a ≠ name := fun e => hmem (e ▸ ha)
        simpa using this)
    rw [f]

/-! ## Topic cache: the store loop -/

theorem storeTopic_internal (key : String) (t t2 : TopicCache) (topic : KafkaTopic)
    (h : t.storeTopic key topic = some t2) :
    t2.internal =
      Function.update t.internal key
        (some (Function.update ((t.internal key).getD (fun _ => none)) topic.TopicName
          (some topic))) := by
  unfold TopicCache.storeTopic at h
  have hbase : (match t.internal key with
      | some existing => existing
      | none => fun _ => none) = (t.internal key).getD (fun _ => none) := by
    cases t.internal key <;> rfl
  rw [hbase] at h
  cases hq : t.inQueue key with
  | none =>
    simp only [hq, Option.some.injEq] at h
    rw [← h]
  | some q =>
    simp only [hq] at h
    cases hr : queueRemove topic.TopicName q with
    | none => simp [hr] at h
    | some q2 =>
      simp only [hr, Option.some.injEq] at h
      rw [← h]

theorem storeTopic_of_nodup (key : String) (t : TopicCache) (topic : KafkaTopic)
    (hq : ∀ q, t.inQueue key = some q → q.Nodup) :
    t.storeTopic key topic =
      some ⟨Function.update t.internal key
          (some (Function.update ((t.internal key).getD (fun _ => none)) topic.TopicName
            (some topic))),
        Function.update t.inQueue key
          ((t.inQueue key).map (fun q => q.filter (fun x => x != topic.TopicName)))⟩ := by
  unfold TopicCache.storeTopic
  have hbase : (match t.internal key with
      | some existing => existing
      | none => fun _ => none) = (t.internal key).getD (fun _ => none) := by
    cases t.internal key <;> rfl
  rw [hbase]
  cases hk : t.inQueue key with
  | none =>
    simp only [Option.map_none']
    rw [← hk, Function.update_eq_self]
  | some q =>
    simp only [queueRemove_of_nodup topic.TopicName q (hq q hk), Option.map_some']

theorem storeLoop_internal (key : String) :
    ∀ (list : List KafkaTopic) (t t2 : TopicCache) (topic : KafkaTopic),
      TopicCache.storeLoop key t (topic :: list) = some t2 →
      t2.internal =
        Function.update t.internal key
          (some ((topic :: list).foldl
            (fun mp tp => Function.update mp tp.TopicName (some tp))
            ((t.internal key).getD (fun _ => none)))) := by
  intro list
  induction list with
  | nil =>
    intro t t2 topic h
    simp only [TopicCache.storeLoop] at h
    cases hs : t.storeTopic key topic with
    | none => simp [hs] at h
    | some t3 =>
      simp only [hs, Option.some.injEq] at h
      subst h
      rw [storeTopic_internal key t t3 topic hs]
      rfl
  | cons r rest ih =>
    intro t t2 topic h
    rw [TopicCache.storeLoop] at h
    cases hs : t.storeTopic key topic with
    | none => simp [hs] at h
    | some t3 =>
      simp only [hs] at h
      rw [ih t3 t2 r h, storeTopic_internal key t t3 topic hs]
      simp only [Function.update_same, Option.getD_some, Function.update_idem, List.foldl_cons]

theorem storeLoop_of_nodup (key : String) :
    ∀ (list : List KafkaTopic) (t : TopicCache) (topic : KafkaTopic),
      (∀ q, t.inQueue key = some q → q.Nodup) →
      TopicCache.storeLoop key t (topic :: list) =
        some ⟨Function.update t.internal key
            (some ((topic :: list).foldl
              (fun mp tp => Function.update mp tp.TopicName (some tp))
              ((t.internal key).getD (fun _ => none)))),
          Function.update t.inQueue key
            ((t.inQueue key).map (fun q =>
              q.filter (fun x => (topic :: list).all (fun tp => x != tp.TopicName))))⟩ := by
  intro list
  induction list with
  | nil =>
    intro t topic hq
    rw [TopicCache.storeLoop, storeTopic_of_nodup key t topic hq]
    simp [TopicCache.storeLoop]
  | cons r rest ih =>
    intro t topic hq
    rw [TopicCache.storeLoop, storeTopic_of_nodup key t topic hq]
    simp only
    rw [ih _ r]
    · simp only [Function.update_same, Option.getD_some, Function.update_idem, List.foldl_cons,
        Option.map_map, Option.some.injEq, TopicCache.mk.injEq, true_and]
      have hp : ∀ a : String,
          ((a != r.TopicName && rest.all fun tp => a != tp.TopicName) && a != topic.TopicName) =
            (a != topic.TopicName &&
              (a != r.TopicName && rest.all fun tp => a != tp.TopicName)) :=
        fun a => Bool.and_comm _ _
      cases t.inQueue key with
      | none => rfl
      | some q =>
        simp only [Option.map_some', Function.comp_apply, List.filter_filter, List.all_cons, hp]
    · intro q hq2
      simp only [Function.update_same] at hq2
      cases hk : t.inQueue key with
      | none => simp [hk] at hq2
      | some q0 =>
        simp only [hk, Option.map_some', Option.some.injEq] at hq2
        subst hq2
        exact (hq q0 hk).filter _

theorem storedTopics_unchanged (name : String) :
    ∀ (post : List KafkaTopic) (base : String → Option KafkaTopic),
      (∀ x ∈ post, x.TopicName ≠ name) →
      (post.foldl (fun (mp : String → Option KafkaTopic) tp =>
          Function.update mp tp.TopicName (some tp)) base) name = base name := by
  intro post
  induction post with
  | nil => intro base _; rfl
  | cons x rest ih =>
    intro base h
    rw [List.foldl_cons, ih _ (fun y hy => h y (List.mem_cons_of_mem _ hy))]
    exact Function.update_noteq (Ne.symm (h x (List.mem_cons_self _ _))) _ _

theorem storedTopics_last (base : String → Option KafkaTopic) (pre post : List KafkaTopic)
    (last : KafkaTopic) (name : String) (hlast : last.TopicName = name)
    (hpost : ∀ x ∈ post, x.TopicName ≠ name) :
    ((pre ++ last :: post).foldl (fun (mp : String → Option KafkaTopic) tp =>
        Function.update mp tp.TopicName (some tp)) base) name = some last := by
  rw [List.foldl_append, List.foldl_cons, storedTopics_unchanged name post _ hpost, hlast]
  exact Function.update_same _ _ _

theorem exists_last_topic (list : List KafkaTopic) (name : String)
    (h : ∃ x ∈ list, x.TopicName = name) :
    ∃ pre last post, list = pre ++ last :: post ∧ last.TopicName = name ∧
      ∀ x ∈ post, x.TopicName ≠ name := by
  induction list with
  | nil => simp at h
  | cons x rest ih =>
    by_cases hr : ∃ y ∈ rest, y.TopicName = name
    · obtain ⟨pre, last, post, hl, hn, hpost⟩ := ih hr
      exact ⟨x :: pre, last, post, by rw [hl]; rfl, hn, hpost⟩
    · obtain ⟨y, hmem, hy⟩ := h
      rcases List.mem_cons.1 hmem with rfl | hmem
      · exact ⟨[], y, rest, rfl, hy, fun z hz hz2 => hr ⟨z, hz, hz2⟩⟩
      · exact absurd ⟨y, hmem, hy⟩ hr

theorem store_eq_storeLoop (t : TopicCache) (p s : String) (topic : KafkaTopic)
    (rest : List KafkaTopic) :
    t.StoreByProjectAndServiceName p s (topic :: rest) =
      TopicCache.storeLoop (p ++ s) t (topic :: rest) := by
  simp [TopicCache.StoreByProjectAndServiceName]

/-! ## Topic cache: loads, queue and keys -/

/-- Load after store: for a non-empty list, after a completed
StoreByProjectAndServiceName(p, s, list) LoadByTopicName(p, s, t.TopicName)
returns (last, true) for every topic t of the list, where last is the last
element of the list with that name; the store completes whenever the queue of
(p, s) holds no name twice. Right after DeleteByProjectAndServiceName(p, s)
LoadByTopicName(p, s, name) returns ok=false and the placeholder topic with
State "CONFIGURING" for every name. -/
theorem loadByTopicName_after_store (t : TopicCache) (p s : String) (list : List KafkaTopic)
    (hne : list ≠ []) :
    ((∀ q, t.inQueue (p ++ s) = some q → q.Nodup) →
      ∃ t2, t.StoreByProjectAndServiceName p s list = some t2) ∧
    (∀ t2, t.StoreByProjectAndServiceName p s list = some t2 →
      ∀ topic ∈ list, ∃ pre last post, list = pre ++ last :: post ∧
        last.TopicName = topic.TopicName ∧
        (∀ x ∈ post, x.TopicName ≠ topic.TopicName) ∧
        t2.LoadByTopicName p s topic.TopicName = (last, true)) ∧
    (∀ (c : TopicCache) (name : String),
      (c.DeleteByProjectAndServiceName p s).LoadByTopicName p s name =
        (⟨"", "CONFIGURING", 0, 0⟩, false)) := by
  obtain ⟨first, rest, rfl⟩ := List.exists_cons_of_ne_nil hne
  refine ⟨?_, ?_, ?_⟩
  · intro hq
    exact ⟨_, by rw [store_eq_storeLoop, storeLoop_of_nodup (p ++ s) rest t first hq]⟩
  · intro t2 hstore topic hmem
    rw [store_eq_storeLoop] at hstore
    have hint := storeLoop_internal (p ++ s) rest t t2 first hstore
    obtain ⟨pre, last, post, hl, hn, hpost⟩ :=
      exists_last_topic (first :: rest) topic.TopicName ⟨topic, hmem, rfl⟩
    refine ⟨pre, last, post, hl, hn, hpost, ?_⟩
    have hval := storedTopics_last ((t.internal (p ++ s)).getD (fun _ => none)) pre post last
      topic.TopicName hn hpost
    rw [← hl] at hval
    simp only [TopicCache.LoadByTopicName, hint, Function.update_same, hval]
  · intro c name
    simp [TopicCache.LoadByTopicName, TopicCache.DeleteByProjectAndServiceName, KafkaTopic.empty]

theorem loadByTopicName_after_store_witness :
    ∃ t2, NewTopicCache.StoreByProjectAndServiceName "proj" "svc"
        [⟨"orders", "ACTIVE", 3, 2⟩, ⟨"orders", "ACTIVE", 6, 2⟩] = some t2 ∧
      t2.LoadByTopicName "proj" "svc" "orders" = (⟨"orders", "ACTIVE", 6, 2⟩, true) := by
  have h := loadByTopicName_after_store NewTopicCache "proj" "svc"
    [⟨"orders", "ACTIVE", 3, 2⟩, ⟨"orders", "ACTIVE", 6, 2⟩] (by simp)
  obtain ⟨t2, ht2⟩ := h.1 (by simp [NewTopicCache])
  refine ⟨t2, ht2, ?_⟩
  obtain ⟨pre, last, post, hl, _, hpost, hload⟩ :=
    h.2.1 t2 ht2 ⟨"orders", "ACTIVE", 6, 2⟩ (by simp)
  rw [hload]
  have hlast : last = ⟨"orders", "ACTIVE", 6, 2⟩ := by
    have hmem : (⟨"orders", "ACTIVE", 6, 2⟩ : KafkaTopic) ∈ pre ++ last :: post := by
      rw [← hl]; simp
    rcases List.mem_append.1 hmem with hm | hm
    · have hlen := congrArg List.length hl
      simp only [List.length_cons, List.length_nil, List.length_append] at hlen
      have hpost0 : post = [] := by
        cases post with
        | nil => rfl
        | cons x xs =>
          have hx : x ∈ [(⟨"orders", "ACTIVE", 3, 2⟩ : KafkaTopic), ⟨"orders", "ACTIVE", 6, 2⟩] := by
            rw [hl]; simp
          have hxn := hpost x (List.mem_cons_self _ _)
          simp only [List.mem_cons, List.mem_singleton, List.not_mem_nil, or_false] at hx
          rcases hx with rfl | rfl <;> exact absurd rfl hxn
      subst hpost0
      have h2 := congrArg List.getLast? hl
      simp at h2
      exact h2.symm
    · rcases List.mem_cons.1 hm with he | hm2
      · exact he.symm
      · exact absurd rfl (hpost _ hm2)
  rw [hlast]

theorem addToQueue_of_fresh (t : TopicCache) (p s name : String)
    (hq : name ∉ (t.inQueue (p ++ s)).getD [])
    (hc : ∀ topics, t.internal (p ++ s) = some topics → topics name = none) :
    t.AddToQueue p s name =
      ⟨t.internal,
        Function.update t.inQueue (p ++ s) (some ((t.inQueue (p ++ s)).getD [] ++ [name]))⟩ := by
  have h1 : ((t.inQueue (p ++ s)).getD []).any (fun x => x == name) = false := by
    rw [Bool.eq_false_iff]
    intro h
    rw [List.any_eq_true] at h
    obtain ⟨x, hx, hxe⟩ := h
    exact hq (by rw [← beq_iff_eq.1 hxe]; exact hx)
  have h2 : (match t.internal (p ++ s) with
      | some topics => (topics name).isSome
      | none => false) = false := by
    cases hi : t.internal (p ++ s) with
    | none => rfl
    | some topics => simp [hc topics hi]
  unfold TopicCache.AddToQueue
  simp only [h1, h2, Bool.not_false, Bool.and_self, if_true]

theorem addToQueue_of_known (t : TopicCache) (p s name : String)
    (h : name ∈ (t.inQueue (p ++ s)).getD [] ∨
      ∃ topics, t.internal (p ++ s) = some topics ∧ topics name ≠ none) :
    t.AddToQueue p s name = t := by
  unfold TopicCache.AddToQueue
  rcases h with h | ⟨topics, hi, hn⟩
  · have h1 : ((t.inQueue (p ++ s)).getD []).any (fun x => x == name) = true :=
      List.any_eq_true.2 ⟨name, h, by simp⟩
    simp [h1]
  · have h2 : (topics name).isSome = true := by
      cases hv : topics name with
      | none => exact absurd hv hn
      | some v => rfl
    simp [hi, h2]

theorem addToQueue_fold (p s : String) :
    ∀ (names : List String) (t : TopicCache),
      t.internal (p ++ s) = none →
      ((t.inQueue (p ++ s)).getD [] ++ names).Nodup →
      ((names.foldl (fun c name => c.AddToQueue p s name) t).inQueue (p ++ s)).getD [] =
        (t.inQueue (p ++ s)).getD [] ++ names := by
  intro names
  induction names with
  | nil => intro t _ _; simp
  | cons n rest ih =>
    intro t hi hnd
    have hfresh : n ∉ (t.inQueue (p ++ s)).getD [] := by
      intro hx
      have := (List.nodup_append.1 hnd).2.2 hx (List.mem_cons_self _ _)
      exact this
    rw [List.foldl_cons, addToQueue_of_fresh t p s n hfresh (by simp [hi])]
    have hstep := ih
      ⟨t.internal,
        Function.update t.inQueue (p ++ s) (some ((t.inQueue (p ++ s)).getD [] ++ [n]))⟩ hi
      (by
        simp only [Function.update_same, Option.getD_some, List.append_assoc,
          List.singleton_append]
        exact hnd)
    rw [hstep]
    simp

theorem exNames_nodup : exNames.Nodup := by
  unfold exNames
  refine List.Nodup.map ?_ (List.nodup_range 100)
  intro a b hab
  have h := congrArg (fun x : String => x.data.length) hab
  simpa using h

theorem exFullQueue_queue : (exFullQueue.inQueue ("proj" ++ "svc")).getD [] = exNames := by
  have h := addToQueue_fold "proj" "svc" exNames NewTopicCache rfl
    (by simpa [NewTopicCache] using exNames_nodup)
  simpa [NewTopicCache, exFullQueue] using h

/-- C14: GetQueue evaluated where the claim fails: after one hundred distinct
names were added to the queue of one project and service, the queue holds 100
names and GetQueue returns only the first 99 of them. -/
theorem getQueue_hundred_returns_99 :
    ((exFullQueue.inQueue ("proj" ++ "svc")).getD []).length = 100 ∧
    exFullQueue.GetQueue "proj" "svc" = exNames.take 99 ∧
    (exFullQueue.GetQueue "proj" "svc").length = 99 := by
  have hq := exFullQueue_queue
  have hlen : exNames.length = 100 := by simp [exNames]
  have hg : exFullQueue.GetQueue "proj" "svc" = exNames.take 99 := by
    unfold TopicCache.GetQueue
    simp only [hq, hlen]
    rfl
  refine ⟨by rw [hq, hlen], hg, ?_⟩
  rw [hg, List.length_take, hlen]
  rfl

/-- C15: IsQueueEmpty evaluated where the claim fails: a name is added to the
queue and then stored in the cache, which removes it from the queue; GetQueue
has no elements, and IsQueueEmpty returns false. -/
theorem isQueueEmpty_after_store_false :
    ∃ c, NewTopicCache.run
        [.addToQueue "proj" "svc" "orders", .store "proj" "svc" [⟨"orders", "ACTIVE", 3, 2⟩]] =
        some c ∧
      c.GetQueue "proj" "svc" = [] ∧ c.IsQueueEmpty "proj" "svc" = false := by
  have hadd : NewTopicCache.AddToQueue "proj" "svc" "orders" =
      ⟨NewTopicCache.internal,
        Function.update NewTopicCache.inQueue ("proj" ++ "svc") (some ["orders"])⟩ := by
    rw [addToQueue_of_fresh NewTopicCache "proj" "svc" "orders" (by simp [NewTopicCache])
      (by simp [NewTopicCache])]
    simp [NewTopicCache]
  have hstore := storeLoop_of_nodup ("proj" ++ "svc") []
    ⟨NewTopicCache.internal,
      Function.update NewTopicCache.inQueue ("proj" ++ "svc") (some ["orders"])⟩
    ⟨"orders", "ACTIVE", 3, 2⟩ (by simp)
  have hrun : NewTopicCache.run
        [.addToQueue "proj" "svc" "orders", .store "proj" "svc" [⟨"orders", "ACTIVE", 3, 2⟩]] =
      TopicCache.storeLoop ("proj" ++ "svc")
        ⟨NewTopicCache.internal,
          Function.update NewTopicCache.inQueue ("proj" ++ "svc") (some ["orders"])⟩
        [⟨"orders", "ACTIVE", 3, 2⟩] := by
    simp only [TopicCache.run, TopicCache.apply, hadd, store_eq_storeLoop, hstore]
  rw [hrun, hstore]
  exact ⟨_, rfl, by simp [TopicCache.GetQueue], by simp [TopicCache.IsQueueEmpty]⟩

theorem loadByTopicName_not_ok_iff (t : TopicCache) (p s name : String) :
    (t.LoadByTopicName p s name).2 = false ↔
      ∀ topics, t.internal (p ++ s) = some topics → topics name = none := by
  unfold TopicCache.LoadByTopicName
  cases hi : t.internal (p ++ s) with
  | none => simp
  | some topics =>
    cases hv : topics name with
    | none => simp [hv]
    | some v => simp [hv]

/-- C16: AddToQueue(p, s, name) appends name to the end of the queue of (p, s),
leaving the cached topics and every other queue as they were, exactly when name
is neither in that queue nor present in the cache for (p, s); otherwise the
whole cache state is unchanged. Calling it twice with the same arguments gives
the same state as calling it once. -/
theorem addToQueue_spec (t : TopicCache) (p s name : String) :
    (name ∉ (t.inQueue (p ++ s)).getD [] ∧ (t.LoadByTopicName p s name).2 = false →
      (t.AddToQueue p s name).inQueue (p ++ s) =
          some ((t.inQueue (p ++ s)).getD [] ++ [name]) ∧
        (t.AddToQueue p s name).internal = t.internal ∧
        ∀ k, k ≠ p ++ s → (t.AddToQueue p s name).inQueue k = t.inQueue k) ∧
    (¬ (name ∉ (t.inQueue (p ++ s)).getD [] ∧ (t.LoadByTopicName p s name).2 = false) →
      t.AddToQueue p s name = t) ∧
    (t.AddToQueue p s name).AddToQueue p s name = t.AddToQueue p s name := by
  have hfresh : name ∉ (t.inQueue (p ++ s)).getD [] ∧ (t.LoadByTopicName p s name).2 = false →
      t.AddToQueue p s name =
        ⟨t.internal,
          Function.update t.inQueue (p ++ s)
            (some ((t.inQueue (p ++ s)).getD [] ++ [name]))⟩ := fun h =>
    addToQueue_of_fresh t p s name h.1 ((loadByTopicName_not_ok_iff t p s name).1 h.2)
  have hknown : ¬ (name ∉ (t.inQueue (p ++ s)).getD [] ∧
      (t.LoadByTopicName p s name).2 = false) → t.AddToQueue p s name = t := by
    intro h
    apply addToQueue_of_known
    by_cases hq : name ∈ (t.inQueue (p ++ s)).getD []
    · exact Or.inl hq
    · right
      have hl : ¬ (t.LoadByTopicName p s name).2 = false := fun hx => h ⟨hq, hx⟩
      rw [loadByTopicName_not_ok_iff] at hl
      by_contra hno
      apply hl
      intro topics hi
      by_contra hv
      exact hno ⟨topics, hi, hv⟩
  refine ⟨?_, hknown, ?_⟩
  · intro h
    rw [hfresh h]
    refine ⟨by simp, rfl, ?_⟩
    intro k hk
    exact Function.update_noteq hk _ _
  · by_cases h : name ∉ (t.inQueue (p ++ s)).getD [] ∧ (t.LoadByTopicName p s name).2 = false
    · rw [hfresh h]
      apply addToQueue_of_known
      left
      simp
    · rw [hknown h, hknown h]

/-- C17: the cache evaluated where the claim fails: the pairs ("ab", "c") and
("a", "bc") differ, yet storing a topic under ("ab", "c") changes what
LoadByTopicName and LoadByProjectAndServiceName return for ("a", "bc"), and
adding a name to the queue of ("ab", "c") changes what GetQueue and
IsQueueEmpty return for ("a", "bc"). -/
theorem cache_key_collision :
    (("ab", "c") : String × String) ≠ ("a", "bc") ∧
    NewTopicCache.LoadByTopicName "a" "bc" "orders" = (⟨"", "CONFIGURING", 0, 0⟩, false) ∧
    (NewTopicCache.LoadByProjectAndServiceName "a" "bc").2 = false ∧
    NewTopicCache.GetQueue "a" "bc" = [] ∧
    NewTopicCache.IsQueueEmpty "a" "bc" = true ∧
    (∃ c, NewTopicCache.StoreByProjectAndServiceName "ab" "c" [⟨"orders", "ACTIVE", 3, 2⟩] =
        some c ∧
      c.LoadByTopicName "a" "bc" "orders" = (⟨"orders", "ACTIVE", 3, 2⟩, true) ∧
      (c.LoadByProjectAndServiceName "a" "bc").2 = true) ∧
    (NewTopicCache.AddToQueue "ab" "c" "orders").GetQueue "a" "bc" = ["orders"] ∧
    (NewTopicCache.AddToQueue "ab" "c" "orders").IsQueueEmpty "a" "bc" = false := by
  have hk : "a" ++ "bc" = "ab" ++ "c" := by decide
  have hstore := storeLoop_of_nodup ("ab" ++ "c") [] NewTopicCache ⟨"orders", "ACTIVE", 3, 2⟩
    (by simp [NewTopicCache])
  have hadd := addToQueue_of_fresh NewTopicCache "ab" "c" "orders" (by simp [NewTopicCache])
    (by simp [NewTopicCache])
  refine ⟨by decide, ?_, ?_, ?_, ?_, ?_, ?_, ?_⟩
  · simp [TopicCache.LoadByTopicName, NewTopicCache, KafkaTopic.empty]
  · simp [TopicCache.LoadByProjectAndServiceName, NewTopicCache]
  · simp [TopicCache.GetQueue, NewTopicCache]
  · simp [TopicCache.IsQueueEmpty, NewTopicCache]
  · rw [store_eq_storeLoop, hstore]
    refine ⟨_, rfl, ?_, ?_⟩
    · simp only [TopicCache.LoadByTopicName]
      rw [hk]
      simp only [Function.update_same, List.foldl_cons, List.foldl_nil]
    · simp only [TopicCache.LoadByProjectAndServiceName]
      rw [hk]
      simp only [Function.update_same]
  · rw [hadd]
    simp only [TopicCache.GetQueue]
    rw [hk]
    simp only [Function.update_same]
    simp [NewTopicCache]
  · rw [hadd]
    simp only [TopicCache.IsQueueEmpty]
    rw [hk]
    simp only [Function.update_same]
    rfl

/-! ## Customize-diff checks -/

theorem utf8ByteSize_pos_iff (s : String) : s.utf8ByteSize > 0 ↔ s ≠ "" := by
  cases s with
  | mk data =>
    cases data with
    | nil => simp [String.utf8ByteSize, String.utf8ByteSize.go]
    | cons c cs =>
      have hc := Char.utf8Size_pos c
      have hne : (String.mk (c :: cs)) ≠ "" := by
        intro h
        have := congrArg String.data h
        simp at this
      simp only [String.utf8ByteSize, String.utf8ByteSize.go, gt_iff_lt, ne_eq, hne,
        not_false_eq_true, iff_true]
      omega

theorem wrapInt_of_range (x : Int) (h0 : 0 ≤ x) (h1 : x < 2 ^ 63) : wrapInt x = x := by
  unfold wrapInt
  rw [Int.emod_eq_of_lt (by omega) (by omega)]
  omega

/-- C19: whenever CustomizeDiffCheckDiskSpace returns no error for a set
disk_space, with the sizes in MB: requested >= default; requested <= max if max
is non-zero; if step is non-zero the difference requested - default as the code
computes it is a multiple of step, and so is the exact difference for a
non-negative default and a requested size within the 64-bit range; and if
requested differs from default then max and step are both non-zero and the
pricing check allowed dynamic disk space without error. -/
theorem checkDiskSpace_accepts (deps : DiskSpaceDeps) (d : ResourceDiff) (ds : String)
    (params : PlanParameters)
    (hp : deps.GetServicePlanParametersFromSchema = .ok params)
    (hds : d.disk_space = some ds)
    (hok : CustomizeDiffCheckDiskSpace deps d = none) :
    deps.ConvertToDiskSpaceMB ds ≥ params.DiskSizeMBDefault ∧
    (params.DiskSizeMBMax ≠ 0 → deps.ConvertToDiskSpaceMB ds ≤ params.DiskSizeMBMax) ∧
    (params.DiskSizeMBStep ≠ 0 →
      params.DiskSizeMBStep ∣
        wrapInt (deps.ConvertToDiskSpaceMB ds - params.DiskSizeMBDefault)) ∧
    (params.DiskSizeMBStep ≠ 0 → 0 ≤ params.DiskSizeMBDefault →
      deps.ConvertToDiskSpaceMB ds < 2 ^ 63 →
      params.DiskSizeMBStep ∣ deps.ConvertToDiskSpaceMB ds - params.DiskSizeMBDefault) ∧
    (deps.ConvertToDiskSpaceMB ds ≠ params.DiskSizeMBDefault →
      params.DiskSizeMBMax ≠ 0 ∧ params.DiskSizeMBStep ≠ 0 ∧
        deps.dynamicDiskSpaceIsAllowedByPricing = (true, none)) := by
  unfold CustomizeDiffCheckDiskSpace at hok
  split at hok
  · exact absurd hok (by simp)
  · simp only [hp, hds] at hok
    cases hdyn : dynamicDiskSpaceCheck deps params (deps.ConvertToDiskSpaceMB ds) with
    | some e => simp [hdyn] at hok
    | none =>
      simp only [hdyn] at hok
      split at hok
      · exact absurd hok (by simp)
      · rename_i hsmall
        split at hok
        · exact absurd hok (by simp)
        · rename_i hlarge
          split at hok
          · exact absurd hok (by simp)
          · rename_i hstep
            have hge : deps.ConvertToDiskSpaceMB ds ≥ params.DiskSizeMBDefault := by omega
            have hdvd : params.DiskSizeMBStep ≠ 0 →
                params.DiskSizeMBStep ∣
                  wrapInt (deps.ConvertToDiskSpaceMB ds - params.DiskSizeMBDefault) := by
              intro hs
              apply Int.dvd_of_tmod_eq_zero
              by_contra hne
              exact hstep ⟨hs, hne⟩
            refine ⟨hge, ?_, hdvd, ?_, ?_⟩
            · intro hmax
              by_contra hgt
              exact hlarge ⟨hmax, by omega⟩
            · intro hs hdef hreq
              have := hdvd hs
              rwa [wrapInt_of_range _ (by omega) (by omega)] at this
            · intro hne
              unfold dynamicDiskSpaceCheck at hdyn
              have hne2 : (params.DiskSizeMBDefault != deps.ConvertToDiskSpaceMB ds) = true := by
                simpa using Ne.symm hne
              rw [if_pos hne2] at hdyn
              split at hdyn
              · exact absurd hdyn (by simp)
              · rename_i hzero
                simp only [Bool.or_eq_true, beq_iff_eq, not_or] at hzero
                refine ⟨hzero.1, hzero.2, ?_⟩
                rcases hpr : deps.dynamicDiskSpaceIsAllowedByPricing with ⟨b, e⟩
                rw [hpr] at hdyn
                cases e with
                | some err => simp at hdyn
                | none =>
                  cases b with
                  | false => simp at hdyn
                  | true => rfl

theorem checkDiskSpace_accepts_witness :
    CustomizeDiffCheckDiskSpace exDiskDeps exDiff = none ∧
    exDiskDeps.ConvertToDiskSpaceMB "100GiB" ≥ exPlan.DiskSizeMBDefault ∧
    exPlan.DiskSizeMBStep ∣ exDiskDeps.ConvertToDiskSpaceMB "100GiB" - exPlan.DiskSizeMBDefault := by
  have hok : CustomizeDiffCheckDiskSpace exDiskDeps exDiff = none := by
    simp [CustomizeDiffCheckDiskSpace, dynamicDiskSpaceCheck, exDiskDeps, exDiff, exPlan, wrapInt]
    decide
  have h := checkDiskSpace_accepts exDiskDeps exDiff "100GiB" exPlan rfl rfl hok
  exact ⟨hok, h.1, h.2.2.2.1 (by decide) (by decide) (by decide)⟩

/-- C20: CustomizeDiffServiceIntegrationAfterCreation returns an error if and
only if the resource has a non-empty ID, the service_integrations field has
changed, and its new value is a non-empty list; in every other case it returns
nil. -/
theorem serviceIntegrationAfterCreation_iff (d : ResourceDiff) :
    (CustomizeDiffServiceIntegrationAfterCreation d ≠ none ↔
      d.Id ≠ "" ∧ d.service_integrations_changed = true ∧ d.service_integrations ≠ []) ∧
    (d.Id ≠ "" ∧ d.service_integrations_changed = true ∧ d.service_integrations ≠ [] →
      CustomizeDiffServiceIntegrationAfterCreation d =
        some (.other "service_integrations field can only be set during creation of a service")) ∧
    (¬ (d.Id ≠ "" ∧ d.service_integrations_changed = true ∧ d.service_integrations ≠ []) →
      CustomizeDiffServiceIntegrationAfterCreation d = none) := by
  have hcond : (d.Id.utf8ByteSize > 0 && d.service_integrations_changed &&
      d.service_integrations.length != 0) = true ↔
      d.Id ≠ "" ∧ d.service_integrations_changed = true ∧ d.service_integrations ≠ [] := by
    simp only [Bool.and_eq_true, decide_eq_true_eq, utf8ByteSize_pos_iff, bne_iff_ne, ne_eq,
      List.length_eq_zero, and_assoc]
  unfold CustomizeDiffServiceIntegrationAfterCreation
  by_cases h : d.Id ≠ "" ∧ d.service_integrations_changed = true ∧ d.service_integrations ≠ []
  · rw [if_pos (hcond.2 h)]
    simp [h]
  · have hc : ¬ (d.Id.utf8ByteSize > 0 && d.service_integrations_changed &&
        d.service_integrations.length != 0) = true := fun hx => h (hcond.1 hx)
    rw [if_neg hc]
    simp [h]

/-! ## Termination protection of the delete handlers -/

theorem databaseRefreshFuncOn_eq (w : DatabaseDeleteWaiter) (r : Remote) :
    w.RefreshFuncOn r =
      (w.RefreshFunc (r.answers r.calls),
        ⟨r.calls ++ [.databasesDelete w.ProjectName w.ServiceName w.Database], r.answers⟩) := by
  unfold DatabaseDeleteWaiter.RefreshFuncOn DatabaseDeleteWaiter.RefreshFunc
    Remote.DatabasesDelete
  cases h : (r.answers r.calls).DatabasesDelete w.ProjectName w.ServiceName w.Database with
  | none => rfl
  | some err => cases hn : IsNotFound err <;> simp [hn]

theorem kafkaTopicRefreshFuncOn_eq (w : KafkaTopicDeleteWaiter) (r : Remote) :
    w.RefreshFuncOn r =
      (w.RefreshFunc (r.answers r.calls),
        ⟨r.calls ++ [.kafkaTopicsDelete w.ProjectName w.ServiceName w.TopicName], r.answers⟩) := by
  unfold KafkaTopicDeleteWaiter.RefreshFuncOn KafkaTopicDeleteWaiter.RefreshFunc
    Remote.KafkaTopicsDelete
  cases h : (r.answers r.calls).KafkaTopicsDelete w.ProjectName w.ServiceName w.TopicName with
  | none => rfl
  | some err => cases hn : IsNotFound err <;> simp [hn]

theorem waitForStateContext_calls {α : Type}
    (policy : StateChangeConf α → List (Refresh α) → PollDecision α)
    (conf : StateChangeConf α) (c : RemoteCall)
    (hconf : ∀ r, (conf.Refresh r).2 = ⟨r.calls ++ [c], r.answers⟩) :
    ∀ (maxPolls : Nat) (seen : List (Refresh α)) (r : Remote),
      ∃ k, k ≤ maxPolls ∧
        (WaitForStateContext policy conf maxPolls seen r).2 =
          ⟨r.calls ++ List.replicate k c, r.answers⟩ := by
  intro maxPolls
  induction maxPolls with
  | zero =>
    intro seen r
    refine ⟨0, Nat.le_refl _, ?_⟩
    unfold WaitForStateContext
    cases policy conf seen <;> simp
  | succ n ih =>
    intro seen r
    unfold WaitForStateContext
    cases policy conf seen with
    | stop result err => exact ⟨0, Nat.zero_le _, by simp⟩
    | again =>
      obtain ⟨k, hk, hcalls⟩ :=
        ih (seen ++ [(conf.Refresh r).1]) ⟨r.calls ++ [c], r.answers⟩
      refine ⟨k + 1, by omega, ?_⟩
      simp only [hconf r]
      rw [hcalls]
      simp only [List.replicate_succ, List.append_assoc, List.singleton_append]

theorem resourceDatabaseDelete_unprotected (U : String → String)
    (policy : StateChangeConf Aiven.Database → List (Refresh Aiven.Database) →
      PollDecision Aiven.Database)
    (maxPolls : Nat) (d : DeleteResourceData) (r : Remote) (p s n : String)
    (htp : d.termination_protection = false) (hsplit : SplitResourceID3 U d.Id = some (p, s, n)) :
    ∃ diags, resourceDatabaseDelete U policy maxPolls d r =
        some (diags,
          (WaitForStateContext policy (DatabaseDeleteWaiter.Conf ⟨p, s, n⟩ d.timeoutDelete)
            maxPolls [] r).2) ∧
      (diags = .nil ↔
        (WaitForStateContext policy (DatabaseDeleteWaiter.Conf ⟨p, s, n⟩ d.timeoutDelete)
          maxPolls [] r).1.2 = none) := by
  unfold resourceDatabaseDelete
  simp only [hsplit, htp, Bool.false_eq_true, if_false]
  rcases hw : WaitForStateContext policy (DatabaseDeleteWaiter.Conf ⟨p, s, n⟩ d.timeoutDelete)
    maxPolls [] r with ⟨⟨res, err⟩, r2⟩
  cases err with
  | none => exact ⟨.nil, rfl, by simp⟩
  | some e => exact ⟨_, rfl, by simp⟩

theorem resourceKafkaTopicDelete_unprotected (U : String → String)
    (policy : StateChangeConf KafkaTopic → List (Refresh KafkaTopic) → PollDecision KafkaTopic)
    (maxPolls : Nat) (d : DeleteResourceData) (r : Remote) (p s n : String)
    (htp : d.termination_protection = false) (hsplit : SplitResourceID3 U d.Id = some (p, s, n)) :
    ∃ diags, resourceKafkaTopicDelete U policy maxPolls d r =
        some (diags,
          (WaitForStateContext policy (KafkaTopicDeleteWaiter.Conf ⟨p, s, n⟩ d.timeoutDelete)
            maxPolls [] r).2) ∧
      (diags = .nil ↔
        (WaitForStateContext policy (KafkaTopicDeleteWaiter.Conf ⟨p, s, n⟩ d.timeoutDelete)
          maxPolls [] r).1.2 = none) := by
  unfold resourceKafkaTopicDelete
  simp only [hsplit, htp, Bool.false_eq_true, if_false]
  rcases hw : WaitForStateContext policy (KafkaTopicDeleteWaiter.Conf ⟨p, s, n⟩ d.timeoutDelete)
    maxPolls [] r with ⟨⟨res, err⟩, r2⟩
  cases err with
  | none => exact ⟨.nil, rfl, by simp⟩
  | some e => exact ⟨_, rfl, by simp⟩

/-- C18: in the delete handlers of the Kafka topic and database resources,
whenever termination_protection is true the handler leaves the remote API as it
was, so it issues no delete call and the waiter's refresh step is never invoked,
and for an ID that splits into its three parts it returns its error. When
termination_protection is false the handler runs the deletion wait on the
waiter's configuration: the remote API receives one delete call of that waiter
for each invocation of the refresh step and nothing else, and the handler
returns nil exactly when the wait returns no error. For a database whose delete
call succeeds the unprotected handler issues one delete call and the protected
handler none. -/
theorem delete_termination_protection (PathUnescape : String → String)
    (policyDb : StateChangeConf Aiven.Database → List (Refresh Aiven.Database) →
      PollDecision Aiven.Database)
    (policyTopic : StateChangeConf KafkaTopic → List (Refresh KafkaTopic) →
      PollDecision KafkaTopic)
    (maxPolls : Nat) (d : DeleteResourceData) (r : Remote) :
    (d.termination_protection = true →
      (∀ out r2, resourceDatabaseDelete PathUnescape policyDb maxPolls d r = some (out, r2) →
        r2 = r ∧ r2.calls = r.calls ∧ out ≠ .nil) ∧
      (∀ out r2, resourceKafkaTopicDelete PathUnescape policyTopic maxPolls d r =
          some (out, r2) →
        r2 = r ∧ r2.calls = r.calls ∧ out ≠ .nil) ∧
      (∀ parts, SplitResourceID3 PathUnescape d.Id = some parts →
        resourceDatabaseDelete PathUnescape policyDb maxPolls d r =
            some (.error "cannot delete a database termination_protection is enabled" none, r) ∧
          resourceKafkaTopicDelete PathUnescape policyTopic maxPolls d r =
            some (.error "cannot delete kafka topic when termination_protection is enabled"
              none, r))) ∧
    (d.termination_protection = false →
      ∀ p s n, SplitResourceID3 PathUnescape d.Id = some (p, s, n) →
        (∃ diags k, k ≤ maxPolls ∧
          resourceDatabaseDelete PathUnescape policyDb maxPolls d r =
            some (diags,
              (WaitForStateContext policyDb (DatabaseDeleteWaiter.Conf ⟨p, s, n⟩ d.timeoutDelete)
                maxPolls [] r).2) ∧
          (WaitForStateContext policyDb (DatabaseDeleteWaiter.Conf ⟨p, s, n⟩ d.timeoutDelete)
              maxPolls [] r).2 =
            ⟨r.calls ++ List.replicate k (.databasesDelete p s n), r.answers⟩ ∧
          (diags = .nil ↔
            (WaitForStateContext policyDb (DatabaseDeleteWaiter.Conf ⟨p, s, n⟩ d.timeoutDelete)
              maxPolls [] r).1.2 = none)) ∧
        (∃ diags k, k ≤ maxPolls ∧
          resourceKafkaTopicDelete PathUnescape policyTopic maxPolls d r =
            some (diags,
              (WaitForStateContext policyTopic
                (KafkaTopicDeleteWaiter.Conf ⟨p, s, n⟩ d.timeoutDelete) maxPolls [] r).2) ∧
          (WaitForStateContext policyTopic
              (KafkaTopicDeleteWaiter.Conf ⟨p, s, n⟩ d.timeoutDelete) maxPolls [] r).2 =
            ⟨r.calls ++ List.replicate k (.kafkaTopicsDelete p s n), r.answers⟩ ∧
          (diags = .nil ↔
            (WaitForStateContext policyTopic
              (KafkaTopicDeleteWaiter.Conf ⟨p, s, n⟩ d.timeoutDelete) maxPolls [] r).1.2 =
              none))) ∧
    (∀ (w : DatabaseDeleteWaiter) (timeout : Int) (r0 : Remote),
      (w.Conf timeout).Refresh r0 =
        (w.RefreshFunc (r0.answers r0.calls),
          ⟨r0.calls ++ [.databasesDelete w.ProjectName w.ServiceName w.Database],
            r0.answers⟩)) ∧
    (∀ (w : KafkaTopicDeleteWaiter) (timeout : Int) (r0 : Remote),
      (w.Conf timeout).Refresh r0 =
        (w.RefreshFunc (r0.answers r0.calls),
          ⟨r0.calls ++ [.kafkaTopicsDelete w.ProjectName w.ServiceName w.TopicName],
            r0.answers⟩)) ∧
    (∃ r2, resourceDatabaseDelete (fun x => x) exPolicy 5 ⟨"proj/svc/db", false, 120 * Second⟩
        (exRemote none) = some (.nil, r2) ∧
      r2.calls = [.databasesDelete "proj" "svc" "db"]) ∧
    (∃ r2, resourceDatabaseDelete (fun x => x) exPolicy 5 ⟨"proj/svc/db", true, 120 * Second⟩
        (exRemote none) =
        some (.error "cannot delete a database termination_protection is enabled" none, r2) ∧
      r2.calls = []) := by
  have hsplitEx : SplitResourceID3 (fun x => x) "proj/svc/db" = some ("proj", "svc", "db") := by
    decide
  refine ⟨?_, ?_, fun w t r0 => databaseRefreshFuncOn_eq w r0,
    fun w t r0 => kafkaTopicRefreshFuncOn_eq w r0, ?_, ?_⟩
  · intro htp
    refine ⟨?_, ?_, ?_⟩
    · intro out r2 hrun
      unfold resourceDatabaseDelete at hrun
      cases hsplit : SplitResourceID3 PathUnescape d.Id with
      | none => simp [hsplit] at hrun
      | some parts =>
        obtain ⟨p, s, n⟩ := parts
        simp only [hsplit, htp, if_true, Option.some.injEq, Prod.mk.injEq] at hrun
        obtain ⟨h1, h2⟩ := hrun
        subst h1 h2
        exact ⟨rfl, rfl, by simp⟩
    · intro out r2 hrun
      unfold resourceKafkaTopicDelete at hrun
      cases hsplit : SplitResourceID3 PathUnescape d.Id with
      | none => simp [hsplit] at hrun
      | some parts =>
        obtain ⟨p, s, n⟩ := parts
        simp only [hsplit, htp, if_true, Option.some.injEq, Prod.mk.injEq] at hrun
        obtain ⟨h1, h2⟩ := hrun
        subst h1 h2
        exact ⟨rfl, rfl, by simp⟩
    · intro parts hsplit
      obtain ⟨p, s, n⟩ := parts
      exact ⟨by simp [resourceDatabaseDelete, hsplit, htp],
        by simp [resourceKafkaTopicDelete, hsplit, htp]⟩
  · intro htp p s n hsplit
    refine ⟨?_, ?_⟩
    · obtain ⟨diags, hrun, hnil⟩ :=
        resourceDatabaseDelete_unprotected PathUnescape policyDb maxPolls d r p s n htp hsplit
      obtain ⟨k, hk, hcalls⟩ := waitForStateContext_calls policyDb
        (DatabaseDeleteWaiter.Conf ⟨p, s, n⟩ d.timeoutDelete) (.databasesDelete p s n)
        (fun r0 => by
          show (DatabaseDeleteWaiter.RefreshFuncOn ⟨p, s, n⟩ r0).2 = _
          rw [databaseRefreshFuncOn_eq])
        maxPolls [] r
      exact ⟨diags, k, hk, hrun, hcalls, hnil⟩
    · obtain ⟨diags, hrun, hnil⟩ :=
        resourceKafkaTopicDelete_unprotected PathUnescape policyTopic maxPolls d r p s n htp
          hsplit
      obtain ⟨k, hk, hcalls⟩ := waitForStateContext_calls policyTopic
        (KafkaTopicDeleteWaiter.Conf ⟨p, s, n⟩ d.timeoutDelete) (.kafkaTopicsDelete p s n)
        (fun r0 => by
          show (KafkaTopicDeleteWaiter.RefreshFuncOn ⟨p, s, n⟩ r0).2 = _
          rw [kafkaTopicRefreshFuncOn_eq])
        maxPolls [] r
      exact ⟨diags, k, hk, hrun, hcalls, hnil⟩
  · refine ⟨⟨[.databasesDelete "proj" "svc" "db"], (exRemote none).answers⟩, ?_, rfl⟩
    simp [resourceDatabaseDelete, hsplitEx, WaitForStateContext, exPolicy,
      DatabaseDeleteWaiter.Conf, databaseRefreshFuncOn_eq, DatabaseDeleteWaiter.RefreshFunc,
      exRemote, exDeleteClient]
  · exact ⟨exRemote none, by simp [resourceDatabaseDelete, hsplitEx], rfl⟩

/-! ## Service resource: dispatch on the service type and the update request -/

/-- C22: for every service type returned by availableServiceTypes the switch
of copyConnectionInfoFromAPIResponseToTerraform reaches a non-default case: the
function does not panic and returns what d.Set returns. -/
theorem copyConnectionInfo_exhaustive (ParseInt : String → Option Int)
    (dSet : String → List (List (String × Iface)) → Option GoError)
    (connectionInfo : ConnectionInfo) :
    ∀ serviceType ∈ availableServiceTypes,
      ∃ props, connectionInfoProps ParseInt serviceType connectionInfo = some props ∧
        copyConnectionInfoFromAPIResponseToTerraform ParseInt dSet serviceType connectionInfo =
          some (dSet serviceType [props]) := by
  intro serviceType hmem
  simp only [availableServiceTypes, ServiceTypePG, ServiceTypeCassandra,
    ServiceTypeElasticsearch, ServiceTypeGrafana, ServiceTypeInfluxDB, ServiceTypeRedis,
    ServiceTypeMySQL, ServiceTypeKafka, ServiceTypeKafkaConnect, ServiceTypeKafkaMirrormaker,
    ServiceTypeM3, ServiceTypeM3Aggregator, ServiceTypeOpensearch, ServiceTypeFlink,
    ServiceTypeClickhouse, List.mem_cons, List.mem_singleton, List.not_mem_nil, or_false]
    at hmem
  rcases hmem with h | h | h | h | h | h | h | h | h | h | h | h | h | h | h <;> subst h <;>
    simp [copyConnectionInfoFromAPIResponseToTerraform, connectionInfoProps]

theorem copyConnectionInfo_exhaustive_witness :
    "kafka" ∈ availableServiceTypes ∧
    ∃ props, connectionInfoProps (fun _ => none) "kafka" exConnectionInfo = some props ∧
      copyConnectionInfoFromAPIResponseToTerraform (fun _ => none) (fun _ _ => none) "kafka"
        exConnectionInfo = some ((fun _ _ => none) "kafka" [props]) :=
  ⟨by decide,
    copyConnectionInfo_exhaustive (fun _ => none) (fun _ _ => none) exConnectionInfo "kafka"
      (by decide)⟩

/-- C26: the computation of `karapace` in resourceServiceUpdate evaluated where
the claim fails: the karapace field has changed and its value is true, and the
assignment through the nil pointer fails; in every other state the request
carries a nil Karapace, so no state yields a pointer to true. -/
theorem resourceServiceUpdateKarapace_nil_dereference :
    resourceServiceUpdateKarapace ⟨.bool true, true⟩ = none ∧
    (∀ d : ServiceUpdateData,
      (resourceServiceUpdateKarapace d = none ↔
        d.karapace_changed = true ∧ d.karapace = .bool true) ∧
      (resourceServiceUpdateKarapace d ≠ none → resourceServiceUpdateKarapace d = some none) ∧
      resourceServiceUpdateKarapace d ≠ some (some true)) := by
  refine ⟨rfl, ?_⟩
  intro d
  obtain ⟨v, ch⟩ := d
  cases ch <;> cases v <;> simp [resourceServiceUpdateKarapace, Iface.notNil]

/-- C24: grafanaReady evaluated where the claim fails: a grafana service whose
ip_filter is the empty list and which has a public primary component; the
result follows the dial (false when the dial fails, true when it succeeds), so
the availability check is not skipped. -/
theorem grafanaReady_empty_filter_dials :
    (exGrafana [("ip_filter", .slice [])]).Type_ = "grafana" ∧
    (exGrafana [("ip_filter", .slice [])]).UserConfig.lookup "ip_filter" = some (.slice []) ∧
    grafanaReady (fun _ => false) (exGrafana [("ip_filter", .slice [])]) = some false ∧
    grafanaReady (fun _ => true) (exGrafana [("ip_filter", .slice [])]) = some true ∧
    publicGrafana (exGrafana [("ip_filter", .slice [])]).Components = "graf.example.com:443" := by
  have haddr : publicGrafana (exGrafana [("ip_filter", .slice [])]).Components =
      "graf.example.com:443" := by
    simp [publicGrafana, exGrafana, Itoa]
    decide
  refine ⟨rfl, ?_, ?_, ?_, haddr⟩
  · simp [exGrafana, List.lookup]
  · have hp : grafanaProbe (fun _ => false) (exGrafana [("ip_filter", .slice [])]) = false := by
      simp only [grafanaProbe, haddr]
      decide
    have hl : (exGrafana [("ip_filter", .slice [])]).UserConfig.lookup "ip_filter" =
        some (.slice []) := by simp [exGrafana, List.lookup]
    have ht : (exGrafana [("ip_filter", .slice [])]).Type_ = "grafana" := rfl
    simp [grafanaReady, ht, hl, hp]
  · have hp : grafanaProbe (fun _ => true) (exGrafana [("ip_filter", .slice [])]) = true := by
      simp only [grafanaProbe, haddr]
      decide
    have hl : (exGrafana [("ip_filter", .slice [])]).UserConfig.lookup "ip_filter" =
        some (.slice []) := by simp [exGrafana, List.lookup]
    have ht : (exGrafana [("ip_filter", .slice [])]).Type_ = "grafana" := rfl
    simp [grafanaReady, ht, hl, hp]

/-! ## Topic cache: the state invariant -/

theorem queueInvariant_new : NewTopicCache.QueueInvariant := by
  intro key q h
  simp [NewTopicCache] at h

theorem queueInvariant_delete (t : TopicCache) (p s : String) (h : t.QueueInvariant) :
    (t.DeleteByProjectAndServiceName p s).QueueInvariant := by
  intro key q hq
  refine ⟨(h key q hq).1, ?_⟩
  intro name hname topics htopics
  simp only [TopicCache.DeleteByProjectAndServiceName] at htopics
  by_cases hk : key = p ++ s
  · subst hk
    simp at htopics
  · rw [Function.update_noteq hk] at htopics
    exact (h key q hq).2 name hname topics htopics

theorem queueInvariant_addToQueue (t : TopicCache) (p s name : String)
    (h : t.QueueInvariant) : (t.AddToQueue p s name).QueueInvariant := by
  by_cases hfresh : name ∉ (t.inQueue (p ++ s)).getD [] ∧
      ∀ topics, t.internal (p ++ s) = some topics → topics name = none
  · rw [addToQueue_of_fresh t p s name hfresh.1 hfresh.2]
    intro key q hq
    by_cases hk : key = p ++ s
    · subst hk
      simp only [Function.update_same, Option.some.injEq] at hq
      subst hq
      have hold : ((t.inQueue (p ++ s)).getD []).Nodup ∧
          ∀ n ∈ (t.inQueue (p ++ s)).getD [], ∀ topics,
            t.internal (p ++ s) = some topics → topics n = none := by
        cases hq0 : t.inQueue (p ++ s) with
        | none => simp
        | some q0 => simpa using h (p ++ s) q0 hq0
      refine ⟨?_, ?_⟩
      · rw [List.nodup_append]
        refine ⟨hold.1, by simp, ?_⟩
        intro a ha hb
        have : a = name := by simpa using hb
        exact hfresh.1 (this ▸ ha)
      · intro n hn topics htopics
        rcases List.mem_append.1 hn with hn | hn
        · exact hold.2 n hn topics htopics
        · have : n = name := by simpa using hn
          rw [this]
          exact hfresh.2 topics htopics
    · simp only [Function.update_noteq hk] at hq
      exact h key q hq
  · have hknown : t.AddToQueue p s name = t := by
      apply addToQueue_of_known
      by_cases hq : name ∈ (t.inQueue (p ++ s)).getD []
      · exact Or.inl hq
      · right
        by_contra hno
        apply hfresh
        refine ⟨hq, ?_⟩
        intro topics hi
        by_contra hv
        exact hno ⟨topics, hi, hv⟩
    rw [hknown]
    exact h

theorem queueInvariant_storeLoop (key : String) (t : TopicCache) (topic : KafkaTopic)
    (rest : List KafkaTopic) (h : t.QueueInvariant) :
    ∃ t2, TopicCache.storeLoop key t (topic :: rest) = some t2 ∧ t2.QueueInvariant := by
  refine ⟨_, storeLoop_of_nodup key rest t topic (fun q hq => (h key q hq).1), ?_⟩
  intro k q hq
  by_cases hk : k = key
  · subst hk
    simp only [Function.update_same] at hq
    cases hq0 : t.inQueue k with
    | none => simp [hq0] at hq
    | some q0 =>
      simp only [hq0, Option.map_some', Option.some.injEq] at hq
      subst hq
      refine ⟨(h k q0 hq0).1.filter _, ?_⟩
      intro name hname topics htopics
      simp only [Function.update_same, Option.some.injEq] at htopics
      subst htopics
      rw [List.mem_filter] at hname
      have hnot : ∀ x ∈ topic :: rest, x.TopicName ≠ name := by
        intro x hx hxe
        have := List.all_eq_true.1 hname.2 x hx
        simp [hxe] at this
      rw [storedTopics_unchanged name (topic :: rest) _ hnot]
      cases hi : t.internal k with
      | none => rfl
      | some mp => exact (h k q0 hq0).2 name hname.1 mp hi
  · simp only [Function.update_noteq hk] at hq
    refine ⟨(h k q hq).1, ?_⟩
    intro name hname topics htopics
    simp only [Function.update_noteq hk] at htopics
    exact (h k q hq).2 name hname topics htopics

theorem queueInvariant_store (t : TopicCache) (p s : String) (list : List KafkaTopic)
    (h : t.QueueInvariant) :
    ∃ t2, t.StoreByProjectAndServiceName p s list = some t2 ∧ t2.QueueInvariant := by
  cases list with
  | nil => exact ⟨t, by simp [TopicCache.StoreByProjectAndServiceName], h⟩
  | cons topic rest =>
    rw [store_eq_storeLoop]
    exact queueInvariant_storeLoop (p ++ s) t topic rest h

theorem queueInvariant_run :
    ∀ (ops : List CacheOp) (t : TopicCache), t.QueueInvariant →
      ∃ t2, t.run ops = some t2 ∧ t2.QueueInvariant := by
  intro ops
  induction ops with
  | nil => intro t h; exact ⟨t, rfl, h⟩
  | cons op rest ih =>
    intro t h
    have hstep : ∃ t1, t.apply op = some t1 ∧ t1.QueueInvariant := by
      cases op with
      | addToQueue p s name => exact ⟨_, rfl, queueInvariant_addToQueue t p s name h⟩
      | store p s list => exact queueInvariant_store t p s list h
      | delete p s => exact ⟨_, rfl, queueInvariant_delete t p s h⟩
    obtain ⟨t1, h1, hinv1⟩ := hstep
    obtain ⟨t2, h2, hinv2⟩ := ih t1 hinv1
    exact ⟨t2, by simp [TopicCache.run, h1, h2], hinv2⟩

/-- C25: for a cache state whose queue for (p, s) holds no name twice and a
non-empty list, StoreByProjectAndServiceName(p, s, list) completes and leaves as
queue for (p, s) the old queue without the names occurring in the list: a name
is in the new queue exactly when it was in the old one and is the name of no
topic of the list, and the remaining names keep their order; the queues of all
other keys are unchanged. With an empty list the cache state is unchanged. -/
theorem store_removes_from_queue (t : TopicCache) (p s : String) (list : List KafkaTopic)
    (hq : ∀ q, t.inQueue (p ++ s) = some q → q.Nodup) :
    (list ≠ [] →
      ∃ t2, t.StoreByProjectAndServiceName p s list = some t2 ∧
        t2.inQueue (p ++ s) =
          (t.inQueue (p ++ s)).map
            (fun q => q.filter (fun x => list.all (fun tp => x != tp.TopicName))) ∧
        (∀ q q2, t.inQueue (p ++ s) = some q → t2.inQueue (p ++ s) = some q2 →
          q2.Sublist q ∧ ∀ x, x ∈ q2 ↔ x ∈ q ∧ ∀ tp ∈ list, tp.TopicName ≠ x) ∧
        (∀ k, k ≠ p ++ s → t2.inQueue k = t.inQueue k)) ∧
    t.StoreByProjectAndServiceName p s [] = some t := by
  refine ⟨?_, by simp [TopicCache.StoreByProjectAndServiceName]⟩
  intro hne
  obtain ⟨first, rest, rfl⟩ := List.exists_cons_of_ne_nil hne
  refine ⟨_, by rw [store_eq_storeLoop]; exact storeLoop_of_nodup (p ++ s) rest t first hq,
    by simp only [Function.update_same], ?_, ?_⟩
  · intro q q2 hq0 hq2
    simp only [Function.update_same, hq0, Option.map_some', Option.some.injEq] at hq2
    subst hq2
    refine ⟨List.filter_sublist _, ?_⟩
    intro x
    rw [List.mem_filter, List.all_eq_true]
    constructor
    · rintro ⟨hx, hall⟩
      refine ⟨hx, ?_⟩
      intro tp htp he
      have := hall tp htp
      simp [he] at this
    · rintro ⟨hx, hall⟩
      refine ⟨hx, ?_⟩
      intro tp htp
      have := hall tp htp
      simpa using Ne.symm this
  · intro k hk
    simp only [Function.update_noteq hk]

theorem store_removes_from_queue_witness :
    ∃ t2, (TopicCache.mk (fun _ => none) (fun _ => some ["a", "b", "c"])).StoreByProjectAndServiceName
        "proj" "svc" [⟨"b", "ACTIVE", 1, 1⟩] = some t2 ∧
      t2.inQueue ("proj" ++ "svc") = some ["a", "c"] := by
  obtain ⟨t2, h1, h2, _⟩ :=
    (store_removes_from_queue (TopicCache.mk (fun _ => none) (fun _ => some ["a", "b", "c"])) "proj"
      "svc" [⟨"b", "ACTIVE", 1, 1⟩]
      (by intro q hq; simp only [Option.some.injEq] at hq; subst hq; decide)).1 (by simp)
  refine ⟨t2, h1, ?_⟩
  rw [h2]
  decide

/-- C28: starting from the empty cache, every sequence of AddToQueue,
StoreByProjectAndServiceName and DeleteByProjectAndServiceName calls completes,
and in the resulting state no topic name occurs twice in the queue of any key
and no name in the queue of a key has an entry in the cached topic map of that
key. -/
theorem cache_queue_invariant (ops : List CacheOp) :
    ∃ t, NewTopicCache.run ops = some t ∧
      ∀ key q, t.inQueue key = some q →
        q.Nodup ∧ ∀ name ∈ q, ∀ topics, t.internal key = some topics → topics name = none :=
  queueInvariant_run ops NewTopicCache queueInvariant_new

/-- C29: in every cache state reached from the empty cache through the public
operations, StoreByProjectAndServiceName completes for every project, service
and list: no slice expression of its removal loop is out of range. A queue
holding the same name twice makes the call fail. -/
theorem store_completes_when_reachable :
    (∀ (ops : List CacheOp) (t : TopicCache), NewTopicCache.run ops = some t →
      ∀ (p s : String) (list : List KafkaTopic),
        ∃ t2, t.StoreByProjectAndServiceName p s list = some t2) ∧
    (∀ ops : List CacheOp, ∃ t, NewTopicCache.run ops = some t) ∧
    queueRemoveAt ["a", "a"] 1 1 = none ∧
    (TopicCache.mk (fun _ => none) (fun _ => some ["a", "a"])).StoreByProjectAndServiceName
      "proj" "svc" [⟨"a", "ACTIVE", 1, 1⟩] = none := by
  have hr : queueRemove "a" ["a", "a"] = none := by decide
  refine ⟨?_, ?_, by decide, ?_⟩
  rotate_left 2
  · simp [TopicCache.StoreByProjectAndServiceName, TopicCache.storeLoop,
      TopicCache.storeTopic, hr]
  · intro ops t hrun p s list
    obtain ⟨t1, h1, hinv⟩ := queueInvariant_run ops NewTopicCache queueInvariant_new
    rw [hrun] at h1
    cases Option.some.inj h1
    obtain ⟨t2, h2, _⟩ := queueInvariant_store t p s list hinv
    exact ⟨t2, h2⟩
  · intro ops
    obtain ⟨t1, h1, _⟩ := queueInvariant_run ops NewTopicCache queueInvariant_new
    exact ⟨t1, h1⟩

/-! ## Resource identifiers: splitting -/

theorem splitNChars_length (sep : Char) :
    ∀ (n : Nat) (cs : List Char),
      (SplitNChars sep (n + 1) cs).length = min (n + 1) (cs.count sep + 1) := by
  intro n
  induction n with
  | zero => intro cs; simp [SplitNChars]
  | succ n ih =>
    intro cs
    have hsplit := List.takeWhile_append_dropWhile (fun c => c != sep) cs
    have hzero : (cs.takeWhile (fun c => c != sep)).count sep = 0 := by
      apply List.count_eq_zero_of_not_mem
      intro hmem
      have := List.mem_takeWhile_imp hmem
      simp at this
    have hcount : cs.count sep = (cs.dropWhile (fun c => c != sep)).count sep := by
      conv => lhs; rw [← hsplit]
      rw [List.count_append, hzero, Nat.zero_add]
    rw [SplitNChars, List.span_eq_take_drop, hcount]
    cases hd : cs.dropWhile (fun c => c != sep) with
    | nil => simp
    | cons d rest =>
      have hhead := List.head_dropWhile_not (fun c => c != sep) cs (by rw [hd]; simp)
      simp only [hd, List.head_cons, bne_eq_false_iff_eq] at hhead
      subst hhead
      simp only [List.length_cons, ih rest, List.count_cons_self]
      omega

theorem splitResourceID_length (U : String → String) (id : String) (n : Nat) :
    (splitResourceID U id (n + 1)).length = min (n + 1) (id.data.count '/' + 1) := by
  simp only [splitResourceID, List.length_map, splitNChars_length]

theorem splitChars_length (sep : Char) :
    ∀ cs : List Char, (SplitChars sep cs).length = cs.count sep + 1 := by
  intro cs
  induction cs with
  | nil => rfl
  | cons c rest ih =>
    by_cases hc : c = sep
    · subst hc
      simp [SplitChars, ih]
    · have hne : (SplitChars sep rest) ≠ [] := by
        intro h
        rw [h] at ih
        simp at ih
      obtain ⟨part, parts, hp⟩ := List.exists_cons_of_ne_nil hne
      simp only [SplitChars, hc, if_false, hp, List.length_cons]
      rw [hp] at ih
      rw [List.count_cons_of_ne (Ne.symm hc)]
      simpa using ih

theorem split_length (id : String) : (Split id).length = id.data.count '/' + 1 := by
  simp only [Split, List.length_map, splitChars_length]

theorem splitResourceID2_isSome_iff (U : String → String) (id : String) :
    (SplitResourceID2 U id).isSome = true ↔ 1 ≤ id.data.count '/' := by
  have hlen := splitResourceID_length U id 1
  unfold SplitResourceID2
  rcases hs : splitResourceID U id 2 with _ | ⟨a, _ | ⟨b, r⟩⟩ <;>
    rw [hs] at hlen <;>
    simp only [List.length_cons, List.length_nil] at hlen <;>
    constructor <;> intro h <;> first | omega | rfl | (simp at h)

theorem splitResourceID3_isSome_iff (U : String → String) (id : String) :
    (SplitResourceID3 U id).isSome = true ↔ 2 ≤ id.data.count '/' := by
  have hlen := splitResourceID_length U id 2
  unfold SplitResourceID3
  rcases hs : splitResourceID U id 3 with _ | ⟨a, _ | ⟨b, _ | ⟨c, r⟩⟩⟩ <;>
    rw [hs] at hlen <;>
    simp only [List.length_cons, List.length_nil] at hlen <;>
    constructor <;> intro h <;> first | omega | rfl | (simp at h)

theorem splitResourceID4_isSome_iff (U : String → String) (id : String) :
    (SplitResourceID4 U id).isSome = true ↔ 3 ≤ id.data.count '/' := by
  have hlen := splitResourceID_length U id 3
  unfold SplitResourceID4
  rcases hs : splitResourceID U id 4 with _ | ⟨a, _ | ⟨b, _ | ⟨c, _ | ⟨e, r⟩⟩⟩⟩ <;>
    rw [hs] at hlen <;>
    simp only [List.length_cons, List.length_nil] at hlen <;>
    constructor <;> intro h <;> first | omega | rfl | (simp at h)

/-- C30: SplitResourceID2, SplitResourceID3 and SplitResourceID4 return their
2, 3 and 4 components for every ID with at least 1, 2 and 3 '/' characters and
fail with an index out of range for every ID with fewer; so every ID accepted
by the import checks of the Kafka topic, database and service resources
(exactly 3, 3 and 2 slash-separated parts) is split without failure. -/
theorem splitResourceID_in_range (PathUnescape : String → String) (id : String) :
    ((1 ≤ id.data.count '/' → ∃ parts, SplitResourceID2 PathUnescape id = some parts) ∧
      (id.data.count '/' < 1 → SplitResourceID2 PathUnescape id = none)) ∧
    ((2 ≤ id.data.count '/' → ∃ parts, SplitResourceID3 PathUnescape id = some parts) ∧
      (id.data.count '/' < 2 → SplitResourceID3 PathUnescape id = none)) ∧
    ((3 ≤ id.data.count '/' → ∃ parts, SplitResourceID4 PathUnescape id = some parts) ∧
      (id.data.count '/' < 3 → SplitResourceID4 PathUnescape id = none)) ∧
    (resourceKafkaTopicStateCheck id = none →
      ∃ parts, SplitResourceID3 PathUnescape id = some parts) ∧
    (resourceDatabaseStateCheck id = none →
      ∃ parts, SplitResourceID3 PathUnescape id = some parts) ∧
    (resourceServiceStateCheck id = none →
      ∃ parts, SplitResourceID2 PathUnescape id = some parts) := by
  have h2 := splitResourceID2_isSome_iff PathUnescape id
  have h3 := splitResourceID3_isSome_iff PathUnescape id
  have h4 := splitResourceID4_isSome_iff PathUnescape id
  have hs := split_length id
  have some_of {α : Type} (o : Option α) (h : o.isSome = true) : ∃ x, o = some x :=
    Option.isSome_iff_exists.1 h
  have none_of {α : Type} (o : Option α) (h : ¬ o.isSome = true) : o = none := by
    cases o with
    | none => rfl
    | some x => simp at h
  refine ⟨⟨fun h => some_of _ (h2.2 h), fun h => none_of _ (fun hx => ?_)⟩,
    ⟨fun h => some_of _ (h3.2 h), fun h => none_of _ (fun hx => ?_)⟩,
    ⟨fun h => some_of _ (h4.2 h), fun h => none_of _ (fun hx => ?_)⟩, ?_, ?_, ?_⟩
  · have := h2.1 hx
    omega
  · have := h3.1 hx
    omega
  · have := h4.1 hx
    omega
  · intro hc
    apply some_of
    apply h3.2
    unfold resourceKafkaTopicStateCheck at hc
    split at hc
    · simp at hc
    · rename_i hlen
      simp only [bne_iff_ne, ne_eq, Decidable.not_not] at hlen
      omega
  · intro hc
    apply some_of
    apply h3.2
    unfold resourceDatabaseStateCheck at hc
    split at hc
    · simp at hc
    · rename_i hlen
      simp only [bne_iff_ne, ne_eq, Decidable.not_not] at hlen
      omega
  · intro hc
    apply some_of
    apply h2.2
    unfold resourceServiceStateCheck at hc
    split at hc
    · simp at hc
    · rename_i hlen
      simp only [bne_iff_ne, ne_eq, Decidable.not_not] at hlen
      omega

/-! ## Resource identifiers: the round trip -/

theorem unhex_upperhex (d : Nat) (h : d < 16) : unhex (upperhex d) = d := by
  interval_cases d <;> decide

theorem ishex_upperhex (d : Nat) (h : d < 16) : ishex (upperhex d) = true := by
  interval_cases d <;> decide

theorem upperhex_ne_slash (d : Nat) (h : d < 16) : upperhex d ≠ '/' := by
  interval_cases d <;> decide

theorem not_shouldEscape_ne (c : Char) (h : shouldEscape c = false) : c ≠ '%' ∧ c ≠ '/' := by
  constructor <;> intro hc <;> subst hc <;> exact absurd h (by decide)

theorem unescapeChars_cons_of_ne (c : Char) (rest : List Char) (h : c ≠ '%') :
    unescapeChars (c :: rest) = (unescapeChars rest).map (fun r => c :: r) := by
  rcases rest with _ | ⟨a, _ | ⟨b, r⟩⟩ <;> simp only [unescapeChars, h, if_false]

theorem unescapeChars_escapeChars :
    ∀ cs : List Char, (∀ c ∈ cs, c.toNat < 256) → unescapeChars (escapeChars cs) = some cs := by
  intro cs
  induction cs with
  | nil => intro _; rfl
  | cons c rest ih =>
    intro h
    have hc : c.toNat < 256 := h c (List.mem_cons_self _ _)
    have hrest := ih (fun x hx => h x (List.mem_cons_of_mem _ hx))
    cases hs : shouldEscape c with
    | true =>
      have h1 : c.toNat / 16 < 16 := by omega
      have h2 : c.toNat % 16 < 16 := by omega
      have hval : Char.ofNat (c.toNat / 16 * 16 + c.toNat % 16) = c := by
        rw [Nat.div_add_mod']
        exact Char.ofNat_toNat c
      simp only [escapeChars, hs, if_true, unescapeChars, ishex_upperhex _ h1,
        ishex_upperhex _ h2, Bool.and_self, unhex_upperhex _ h1, unhex_upperhex _ h2, hval,
        hrest, Option.map_some']
    | false =>
      have hne := (not_shouldEscape_ne c hs).1
      simp only [escapeChars, hs, Bool.false_eq_true, if_false]
      rw [unescapeChars_cons_of_ne c _ hne, hrest]
      rfl

theorem slash_not_mem_escapeChars :
    ∀ cs : List Char, (∀ c ∈ cs, c.toNat < 256) → '/' ∉ escapeChars cs := by
  intro cs
  induction cs with
  | nil => intro _; simp [escapeChars]
  | cons c rest ih =>
    intro h
    have hc : c.toNat < 256 := h c (List.mem_cons_self _ _)
    have hrest := ih (fun x hx => h x (List.mem_cons_of_mem _ hx))
    cases hs : shouldEscape c with
    | true =>
      have h1 : c.toNat / 16 < 16 := by omega
      have h2 : c.toNat % 16 < 16 := by omega
      simp only [escapeChars, hs, if_true, List.mem_cons, not_or]
      exact ⟨by decide, Ne.symm (upperhex_ne_slash _ h1), Ne.symm (upperhex_ne_slash _ h2),
        hrest⟩
    | false =>
      simp only [escapeChars, hs, Bool.false_eq_true, if_false, List.mem_cons, not_or]
      exact ⟨Ne.symm (not_shouldEscape_ne c hs).2, hrest⟩

theorem pathUnescape_pathEscape (p : String) (h : ∀ c ∈ p.data, c.toNat < 256) :
    PathUnescape (PathEscape p) = p := by
  simp only [PathUnescape, PathEscape, unescapeChars_escapeChars p.data h]

theorem splitNChars_of_no_sep (sep : Char) (k : Nat) (e rest : List Char) (h : sep ∉ e) :
    SplitNChars sep (k + 2) (e ++ sep :: rest) = e :: SplitNChars sep (k + 1) rest := by
  have hall : ∀ a ∈ e, (fun c => c != sep) a = true := by
    intro a ha
    have : a ≠ sep := fun hx => h (hx ▸ ha)
    simpa using this
  rw [SplitNChars, List.span_eq_take_drop, List.takeWhile_append_of_pos hall,
    List.dropWhile_append_of_pos hall]
  simp

theorem join_cons_cons_data (a b : String) (rest : List String) (sep : String) :
    (Join (a :: b :: rest) sep).data = a.data ++ sep.data ++ (Join (b :: rest) sep).data := by
  simp [Join, String.data_append]

theorem splitNChars_build :
    ∀ (parts : List String) (first : String),
      (∀ p ∈ first :: parts, ∀ c ∈ p.data, c.toNat < 256) →
      SplitNChars '/' (parts.length + 1) (BuildResourceID (first :: parts)).data =
        (first :: parts).map (fun p => escapeChars p.data) := by
  intro parts
  induction parts with
  | nil => intro first _; simp [SplitNChars, BuildResourceID, Join, PathEscape]
  | cons b rest ih =>
    intro first h
    have hfirst := slash_not_mem_escapeChars first.data (h first (List.mem_cons_self _ _))
    have hrest := ih b (fun p hp => h p (List.mem_cons_of_mem _ hp))
    simp only [BuildResourceID, List.map_cons, join_cons_cons_data, List.length_cons] at hrest ⊢
    rw [List.append_assoc, List.singleton_append,
      show (PathEscape first).data = escapeChars first.data from rfl,
      splitNChars_of_no_sep '/' rest.length _ _ hfirst, hrest]

theorem count_slash_build :
    ∀ (parts : List String) (first : String),
      (∀ p ∈ first :: parts, ∀ c ∈ p.data, c.toNat < 256) →
      (BuildResourceID (first :: parts)).data.count '/' = parts.length := by
  intro parts
  induction parts with
  | nil =>
    intro first h
    have := slash_not_mem_escapeChars first.data (h first (List.mem_cons_self _ _))
    simpa [BuildResourceID, Join, PathEscape] using List.count_eq_zero_of_not_mem this
  | cons b rest ih =>
    intro first h
    have hfirst := slash_not_mem_escapeChars first.data (h first (List.mem_cons_self _ _))
    have hrest := ih b (fun p hp => h p (List.mem_cons_of_mem _ hp))
    simp only [BuildResourceID, List.map_cons, join_cons_cons_data, List.length_cons] at hrest ⊢
    rw [List.count_append, List.count_append, hrest,
      show (PathEscape first).data = escapeChars first.data from rfl,
      List.count_eq_zero_of_not_mem hfirst]
    simp
    omega

theorem splitResourceID_build (parts : List String) (first : String)
    (h : ∀ p ∈ first :: parts, ∀ c ∈ p.data, c.toNat < 256) :
    splitResourceID PathUnescape (BuildResourceID (first :: parts)) (parts.length + 1) =
      first :: parts := by
  unfold splitResourceID
  rw [splitNChars_build parts first h, List.map_map]
  have hid : ∀ p ∈ first :: parts,
      ((fun part => PathUnescape (String.mk part)) ∘ fun p => escapeChars p.data) p = p := by
    intro p hp
    exact pathUnescape_pathEscape p (h p hp)
  rw [List.map_congr_left hid, List.map_id']

/-- C27: for n in {2, 3, 4} and all strings p1..pn (given by their bytes, so
each character has a code below 256; they may contain '/', '%' and any other
byte), SplitResourceIDn(BuildResourceID(p1, ..., pn)) returns exactly
(p1, ..., pn), and the output of BuildResourceID contains exactly n-1 '/'
characters. -/
theorem resourceID_round_trip (p1 p2 p3 p4 : String)
    (h1 : ∀ c ∈ p1.data, c.toNat < 256) (h2 : ∀ c ∈ p2.data, c.toNat < 256)
    (h3 : ∀ c ∈ p3.data, c.toNat < 256) (h4 : ∀ c ∈ p4.data, c.toNat < 256) :
    (SplitResourceID2 PathUnescape (BuildResourceID [p1, p2]) = some (p1, p2) ∧
      (BuildResourceID [p1, p2]).data.count '/' = 1) ∧
    (SplitResourceID3 PathUnescape (BuildResourceID [p1, p2, p3]) = some (p1, p2, p3) ∧
      (BuildResourceID [p1, p2, p3]).data.count '/' = 2) ∧
    (SplitResourceID4 PathUnescape (BuildResourceID [p1, p2, p3, p4]) =
        some (p1, p2, p3, p4) ∧
      (BuildResourceID [p1, p2, p3, p4]).data.count '/' = 3) := by
  have hb2 : ∀ p ∈ [p1, p2], ∀ c ∈ p.data, c.toNat < 256 := by
    intro p hp
    simp only [List.mem_cons, List.mem_singleton, List.not_mem_nil, or_false] at hp
    rcases hp with rfl | rfl <;> assumption
  have hb3 : ∀ p ∈ [p1, p2, p3], ∀ c ∈ p.data, c.toNat < 256 := by
    intro p hp
    simp only [List.mem_cons, List.mem_singleton, List.not_mem_nil, or_false] at hp
    rcases hp with rfl | rfl | rfl <;> assumption
  have hb4 : ∀ p ∈ [p1, p2, p3, p4], ∀ c ∈ p.data, c.toNat < 256 := by
    intro p hp
    simp only [List.mem_cons, List.mem_singleton, List.not_mem_nil, or_false] at hp
    rcases hp with rfl | rfl | rfl | rfl <;> assumption
  have e2 : splitResourceID PathUnescape (BuildResourceID [p1, p2]) 2 = [p1, p2] :=
    splitResourceID_build [p2] p1 hb2
  have e3 : splitResourceID PathUnescape (BuildResourceID [p1, p2, p3]) 3 = [p1, p2, p3] :=
    splitResourceID_build [p2, p3] p1 hb3
  have e4 : splitResourceID PathUnescape (BuildResourceID [p1, p2, p3, p4]) 4 =
      [p1, p2, p3, p4] := splitResourceID_build [p2, p3, p4] p1 hb4
  refine ⟨⟨?_, count_slash_build [p2] p1 hb2⟩, ⟨?_, count_slash_build [p2, p3] p1 hb3⟩,
    ⟨?_, count_slash_build [p2, p3, p4] p1 hb4⟩⟩
  · simp only [SplitResourceID2, e2]
  · simp only [SplitResourceID3, e3]
  · simp only [SplitResourceID4, e4]

theorem resourceID_round_trip_witness :
    SplitResourceID3 PathUnescape (BuildResourceID ["my/proj", "50%", "a b"]) =
      some ("my/proj", "50%", "a b") ∧
    BuildResourceID ["my/proj", "50%", "a b"] = "my%2Fproj/50%25/a%20b" :=
  ⟨(resourceID_round_trip "my/proj" "50%" "a b" "" (by decide) (by decide) (by decide)
    (by decide)).2.1.1, by decide⟩

/-! ## Validation of the disk space string -/

theorem matchHumanByteSize_iff (cs : List Char) :
    matchHumanByteSize cs = true ↔
      ∃ d ds suffix, cs = d :: (ds ++ suffix) ∧ ('1' ≤ d ∧ d ≤ '9') ∧
        (∀ c ∈ ds, '0' ≤ c ∧ c ≤ '9') ∧ (suffix = ['G'] ∨ suffix = ['G', 'i', 'B']) := by
  constructor
  · intro h
    cases cs with
    | nil => simp [matchHumanByteSize] at h
    | cons c rest =>
      simp only [matchHumanByteSize, Bool.and_eq_true, decide_eq_true_eq, Bool.or_eq_true,
        beq_iff_eq] at h
      refine ⟨c, rest.takeWhile (fun d => '0' ≤ d ∧ d ≤ '9'),
        rest.dropWhile (fun d => '0' ≤ d ∧ d ≤ '9'), ?_, h.1, ?_, ?_⟩
      · rw [List.takeWhile_append_dropWhile]
      · intro x hx
        have := List.mem_takeWhile_imp hx
        simpa using this
      · rcases h.2 with h2 | h2
        · exact Or.inr h2
        · exact Or.inl h2
  · rintro ⟨d, ds, suffix, rfl, hd, hds, hsuf⟩
    have hall : ∀ a ∈ ds, (fun d : Char => decide ('0' ≤ d ∧ d ≤ '9')) a = true := by
      intro a ha
      simpa using hds a ha
    simp only [matchHumanByteSize, Bool.and_eq_true, decide_eq_true_eq, Bool.or_eq_true,
      beq_iff_eq]
    refine ⟨hd, ?_⟩
    rw [List.dropWhile_append_of_pos hall]
    rcases hsuf with rfl | rfl
    · right; decide
    · left; decide

/-- C21: ValidateHumanByteSizeString returns a non-empty error list for every
string that is not a digit from 1 to 9 followed by any number of digits and then
exactly "G" or "GiB", among them "0G", "1.5G", "10", "10GB", "10MiB" and
"10GG"; and it never returns a warning. -/
theorem validateHumanByteSizeString_rejects (RAMInBytes : String → Except GoError Int)
    (v k : String) :
    (¬ (∃ d ds suffix, v.data = d :: (ds ++ suffix) ∧ ('1' ≤ d ∧ d ≤ '9') ∧
          (∀ c ∈ ds, '0' ≤ c ∧ c ≤ '9') ∧ (suffix = ['G'] ∨ suffix = ['G', 'i', 'B'])) →
      (ValidateHumanByteSizeString RAMInBytes v k).2 ≠ []) ∧
    (ValidateHumanByteSizeString RAMInBytes v k).1 = [] ∧
    (∀ bad ∈ ["0G", "1.5G", "10", "10GB", "10MiB", "10GG"],
      (ValidateHumanByteSizeString RAMInBytes bad k).2 ≠ []) := by
  refine ⟨?_, ?_, ?_⟩
  · intro hno
    have hm : matchHumanByteSize v.data = false := by
      rw [← Bool.not_eq_true, matchHumanByteSize_iff]
      exact hno
    simp [ValidateHumanByteSizeString, hm]
  · unfold ValidateHumanByteSizeString
    split
    · rfl
    · cases RAMInBytes v <;> rfl
  · intro bad hbad
    have hm : matchHumanByteSize bad.data = false := by
      simp only [List.mem_cons, List.mem_singleton, List.not_mem_nil, or_false] at hbad
      rcases hbad with rfl | rfl | rfl | rfl | rfl | rfl <;> decide
    simp [ValidateHumanByteSizeString, hm]


/-! ## Topic cache: LoadByTopicName over a history of calls -/

theorem loadByTopicName_ok_eq (t : TopicCache) (p s name : String) :
    (t.LoadByTopicName p s name).2 =
      (((t.internal (p ++ s)).getD (fun _ => none)) name).isSome := by
  unfold TopicCache.LoadByTopicName
  cases h : t.internal (p ++ s) with
  | none => simp
  | some topics =>
    cases h2 : topics name with
    | none => simp [h2]
    | some v => simp [h2]

theorem loadByTopicName_miss (t : TopicCache) (p s name : String)
    (h : (t.LoadByTopicName p s name).2 = false) :
    t.LoadByTopicName p s name = (⟨"", "CONFIGURING", 0, 0⟩, false) := by
  unfold TopicCache.LoadByTopicName at h ⊢
  cases h1 : t.internal (p ++ s) with
  | none => simp [KafkaTopic.empty]
  | some topics =>
    cases h2 : topics name with
    | none => simp [h2, KafkaTopic.empty]
    | some v => simp [h1, h2] at h

theorem loadByTopicName_apply (p s name : String) (t t2 : TopicCache) (op : CacheOp)
    (hop : t.apply op = some t2) :
    storedUnderKey (p ++ s) name (t.LoadByTopicName p s name).2 [op] =
      (t2.LoadByTopicName p s name).2 := by
  cases op with
  | addToQueue p2 s2 n2 =>
    simp only [TopicCache.apply, Option.some.injEq] at hop
    have hint : t2.internal = t.internal := by
      rw [← hop]
      unfold TopicCache.AddToQueue
      simp only
      split <;> rfl
    simp only [storedUnderKey, loadByTopicName_ok_eq, hint]
  | delete p2 s2 =>
    simp only [TopicCache.apply, Option.some.injEq] at hop
    subst hop
    simp only [storedUnderKey, loadByTopicName_ok_eq, TopicCache.DeleteByProjectAndServiceName]
    by_cases hk : p2 ++ s2 = p ++ s
    · rw [hk]
      simp
    · simp only [hk, if_false]
      rw [Function.update_noteq (fun h => hk h.symm)]
  | store p2 s2 list =>
    simp only [TopicCache.apply] at hop
    cases list with
    | nil =>
      simp [TopicCache.StoreByProjectAndServiceName] at hop
      subst hop
      simp [storedUnderKey]
    | cons topic rest =>
      rw [store_eq_storeLoop] at hop
      have hint := storeLoop_internal (p2 ++ s2) rest t t2 topic hop
      simp only [storedUnderKey, loadByTopicName_ok_eq, hint]
      by_cases hk : p2 ++ s2 = p ++ s
      · rw [hk]
        simp only [Function.update_same, Option.getD_some, true_and]
        by_cases hany : (topic :: rest).any (fun tp => tp.TopicName == name) = true
        · simp only [hany, if_true]
          obtain ⟨x, hx, hxn⟩ := List.any_eq_true.1 hany
          obtain ⟨pre, last, post, hl, hn, hpost⟩ :=
            exists_last_topic (topic :: rest) name ⟨x, hx, by simpa using hxn⟩
          have hval := storedTopics_last ((t.internal (p ++ s)).getD (fun _ => none)) pre post
            last name hn hpost
          rw [← hl] at hval
          rw [hval]
          rfl
        · simp only [hany, if_false]
          have hno : ∀ x ∈ topic :: rest, x.TopicName ≠ name := by
            intro x hx hxn
            exact hany (List.any_eq_true.2 ⟨x, hx, by simpa using hxn⟩)
          rw [storedTopics_unchanged name (topic :: rest) _ hno]
          simp
      · simp only [hk, false_and, if_false]
        rw [Function.update_noteq (fun h => hk h.symm)]

theorem storedUnderKey_cons (key name : String) (stored : Bool) (op : CacheOp)
    (rest : List CacheOp) :
    storedUnderKey key name stored (op :: rest) =
      storedUnderKey key name (storedUnderKey key name stored [op]) rest := by
  cases op <;> simp only [storedUnderKey]

theorem loadByTopicName_run (p s name : String) :
    ∀ (ops : List CacheOp) (t c : TopicCache), t.run ops = some c →
      (c.LoadByTopicName p s name).2 =
        storedUnderKey (p ++ s) name (t.LoadByTopicName p s name).2 ops := by
  intro ops
  induction ops with
  | nil =>
    intro t c h
    simp only [TopicCache.run, Option.some.injEq] at h
    subst h
    rfl
  | cons op rest ih =>
    intro t c h
    simp only [TopicCache.run] at h
    cases hop : t.apply op with
    | none => simp [hop] at h
    | some t2 =>
      simp only [hop] at h
      rw [ih t2 c h, storedUnderKey_cons, loadByTopicName_apply p s name t t2 op hop]


/-- C13: the cache evaluated where the claim fails. The pairs ("ab", "c") and
("a", "bc") differ. From the empty cache the only call is
StoreByProjectAndServiceName("ab", "c", [orders]), so nothing was ever stored
under ("a", "bc"), yet LoadByTopicName("a", "bc", "orders") returns that topic
with ok=true. Likewise after a store under ("a", "bc"), its removal by
DeleteByProjectAndServiceName("a", "bc") and a store under ("ab", "c"), the name
is not stored under ("a", "bc") and LoadByTopicName("a", "bc", "orders")
returns the topic of the other pair with ok=true. What the code keeps is the
same law read on the key projectName+serviceName: after any completed calls
from the empty cache the ok flag of LoadByTopicName tells whether the name is
stored under the key, and when it is not the result is ok=false with the
placeholder topic whose State is "CONFIGURING". -/
theorem loadByTopicName_never_stored_found :
    (("ab", "c") : String × String) ≠ ("a", "bc") ∧
    storedUnder "a" "bc" "orders" false [.store "ab" "c" [⟨"orders", "ACTIVE", 3, 2⟩]] = false ∧
    (∃ c, NewTopicCache.run [.store "ab" "c" [⟨"orders", "ACTIVE", 3, 2⟩]] = some c ∧
      c.LoadByTopicName "a" "bc" "orders" = (⟨"orders", "ACTIVE", 3, 2⟩, true)) ∧
    storedUnder "a" "bc" "orders" false
      [.store "a" "bc" [⟨"orders", "ACTIVE", 3, 2⟩], .delete "a" "bc",
        .store "ab" "c" [⟨"orders", "ACTIVE", 6, 2⟩]] = false ∧
    (∃ c, NewTopicCache.run
        [.store "a" "bc" [⟨"orders", "ACTIVE", 3, 2⟩], .delete "a" "bc",
          .store "ab" "c" [⟨"orders", "ACTIVE", 6, 2⟩]] = some c ∧
      c.LoadByTopicName "a" "bc" "orders" = (⟨"orders", "ACTIVE", 6, 2⟩, true)) ∧
    (∀ (p s name : String) (ops : List CacheOp) (c : TopicCache),
      NewTopicCache.run ops = some c →
        (c.LoadByTopicName p s name).2 = storedUnderKey (p ++ s) name false ops ∧
        (storedUnderKey (p ++ s) name false ops = false →
          c.LoadByTopicName p s name = (⟨"", "CONFIGURING", 0, 0⟩, false))) := by
  have hk : "a" ++ "bc" = "ab" ++ "c" := by decide
  have hlaw : ∀ (p s name : String) (ops : List CacheOp) (c : TopicCache),
      NewTopicCache.run ops = some c →
        (c.LoadByTopicName p s name).2 = storedUnderKey (p ++ s) name false ops := by
    intro p s name ops c hrun
    rw [loadByTopicName_run p s name ops NewTopicCache c hrun]
    rfl
  refine ⟨by decide, by decide, ?_, by decide, ?_, ?_⟩
  · have hstore := storeLoop_of_nodup ("ab" ++ "c") [] NewTopicCache ⟨"orders", "ACTIVE", 3, 2⟩
      (by simp [NewTopicCache])
    simp only [TopicCache.run, TopicCache.apply, store_eq_storeLoop, hstore]
    refine ⟨_, rfl, ?_⟩
    simp only [TopicCache.LoadByTopicName]
    rw [hk]
    simp only [Function.update_same, List.foldl_cons, List.foldl_nil]
  · have hstore1 := storeLoop_of_nodup ("a" ++ "bc") [] NewTopicCache
      ⟨"orders", "ACTIVE", 3, 2⟩ (by simp [NewTopicCache])
    simp only [TopicCache.run, TopicCache.apply, store_eq_storeLoop, hstore1]
    have hstore2 := storeLoop_of_nodup ("ab" ++ "c") []
      (TopicCache.DeleteByProjectAndServiceName
        ⟨Function.update NewTopicCache.internal ("a" ++ "bc")
            (some ([(⟨"orders", "ACTIVE", 3, 2⟩ : KafkaTopic)].foldl
              (fun mp tp => Function.update mp tp.TopicName (some tp))
              ((NewTopicCache.internal ("a" ++ "bc")).getD (fun _ => none)))),
          Function.update NewTopicCache.inQueue ("a" ++ "bc")
            ((NewTopicCache.inQueue ("a" ++ "bc")).map (fun q =>
              q.filter (fun x => [(⟨"orders", "ACTIVE", 3, 2⟩ : KafkaTopic)].all
                (fun tp => x != tp.TopicName))))⟩ "a" "bc")
      ⟨"orders", "ACTIVE", 6, 2⟩
      (by
        intro q hq
        rw [← hk] at hq
        simp [TopicCache.DeleteByProjectAndServiceName, NewTopicCache] at hq)
    rw [hstore2]
    refine ⟨_, rfl, ?_⟩
    simp only [TopicCache.LoadByTopicName]
    rw [hk]
    simp only [Function.update_same, List.foldl_cons, List.foldl_nil]
  · intro p s name ops c hrun
    refine ⟨hlaw p s name ops c hrun, fun hno => ?_⟩
    apply loadByTopicName_miss
    rw [hlaw p s name ops c hrun, hno]

end Aiven
